import Mathlib

/-!
# auto_stabilizer: initialization, input reading, commands, frame conversion, the balancing
tick, output blending

Shallow embedding of `rtc/AutoStabilizer/AutoStabilizer.cpp`, `MathUtil.h` and
`RefToGenFrameConverter.cpp`.

Conventions of the embedding

* A C++ `double` that the code tests with `std::isfinite` is a `Dbl`: a finite value
  (idealised as a rational number) or one of the non-finite values.
* Arithmetic on doubles is exact arithmetic over `ℚ`; `std::sqrt` is the rational square
  root, exact on squares of rationals.  In `calcNearestPointOfHull`, where a root is only
  compared with another root or multiplied by a root of the same number, it is held exactly
  by the number under it.
* A read or write outside the bounds of a buffer is undefined behaviour in C++; a function
  that can perform one returns `Option`, with `none` standing for the undefined run.
* A loop that need not terminate takes a bound on its iterations and returns `none` when the
  bound is reached.
* Functions of the robot-model, Eigen and interpolator libraries that are not rational
  arithmetic, and `std::cos` and `std::sin`, are parameters of the functions that call them.
* Classes of the component whose code is not among the sources are modelled from the
  specification where a statement depends on what they do (the control mode, the
  smoothed-value interpolator; marked as such) and are parameters otherwise.
-/

set_option autoImplicit false

namespace AutoStabilizer

/-! ## Doubles as seen by `std::isfinite` -/

/-- A double: finite (an exact rational), NaN, or an infinity. -/
inductive Dbl where
  | fin (v : ℚ)
  | nan
  | inf (negative : Bool)
  deriving DecidableEq

/-- The test `std::isfinite`. -/
def isfinite : Dbl → Bool
  | Dbl.fin _ => true
  | _ => false

/-- A 6-vector of doubles (`cnoid::Vector6`), indexed 0..5. -/
abbrev Vector6D := Fin 6 → Dbl

/-! ## `readInPortData` (AutoStabilizer.cpp 269-359) -/

/-- One end effector's reference-wrench input: the in-port `m_refWrenchIn_[i]` (`some d` when
`isNew()`, `d` being the sample `read()` delivers), its buffer `m_refWrench_[i].data`, and
the mirror `endEffectors.refWrenchOrigin[i]`.  The three arrays have one entry per end
effector (onInitialize 224-229), so they are kept as one list of records. -/
structure RefWrenchIn where
  m_refWrenchIn_ : Option (List Dbl)
  m_refWrench_ : List Dbl
  refWrenchOrigin : Vector6D

/-- One force sensor's input: the in-port `m_actWrenchIn_[i]`, its buffer
`m_actWrench_[i].data` and the sensor value `forceSensors[i]->F()` (onInitialize 233-240). -/
structure ActWrenchIn where
  m_actWrenchIn_ : Option (List Dbl)
  m_actWrench_ : List Dbl
  F : Vector6D

/-- The part of the component state `readInPortData` works on.  An in-port is `some d` when
`isNew()` holds, `d` being the sample the next `read()` copies into the port's buffer. -/
structure InState where
  m_qRefIn_ : Option (List Dbl)
  m_qRef_ : List Dbl
  m_refTauIn_ : Option (List Dbl)
  m_refTau_ : List Dbl
  m_refBasePosIn_ : Option (Dbl × Dbl × Dbl)
  m_refBasePos_ : Dbl × Dbl × Dbl
  m_qActIn_ : Option (List Dbl)
  m_qAct_ : List Dbl
  m_dqActIn_ : Option (List Dbl)
  m_dqAct_ : List Dbl
  /-- Reference joint angles `refRobotRaw->joint(i)->q()`; the length is `numJoints()`. -/
  refRobotRaw_q : List Dbl
  /-- Reference joint torques `refRobotRaw->joint(i)->u()`. -/
  refRobotRaw_u : List Dbl
  /-- Reference root position `refRobotRaw->rootLink()->p()`. -/
  refRobotRaw_p : Dbl × Dbl × Dbl
  /-- Actual joint angles `actRobotRaw->joint(i)->q()`; the length is `numJoints()`. -/
  actRobotRaw_q : List Dbl
  /-- Actual joint velocities `actRobotRaw->joint(i)->dq()`. -/
  actRobotRaw_dq : List Dbl
  refWrench : List RefWrenchIn
  actWrench : List ActWrenchIn

/-- The loop body `if(std::isfinite(data[i])) joint(i)->x() = data[i];` on the joint
values `t`. -/
def copyFiniteAt (data : List Dbl) (t : List Dbl) (i : Nat) : List Dbl :=
  match data[i]? with
  | some d => if isfinite d then t.set i d else t
  | none => t

/-- The loop `for(i<data.length()) if(std::isfinite(data[i])) joint(i)->x() = data[i];`
run on the joint values `tgt`, up to index `n`. -/
def copyFiniteUpTo (data : List Dbl) (n : Nat) (tgt : List Dbl) : List Dbl :=
  (List.range n).foldl (copyFiniteAt data) tgt

/-- Lines 271-279: the reference joint angles.  Returns `qRef_updated`. -/
def readQRef (s : InState) : Bool × InState :=
  match s.m_qRefIn_ with
  | none => (false, s)
  | some d =>
    let s1 := { s with m_qRefIn_ := none, m_qRef_ := d }
    if d.length = s.refRobotRaw_q.length then
      (true, { s1 with refRobotRaw_q := copyFiniteUpTo d d.length s.refRobotRaw_q })
    else (false, s1)

/-- Lines 280-287: the reference joint torques. -/
def readRefTau (s : InState) : InState :=
  match s.m_refTauIn_ with
  | none => s
  | some d =>
    let s1 := { s with m_refTauIn_ := none, m_refTau_ := d }
    if d.length = s.refRobotRaw_q.length then
      { s1 with refRobotRaw_u := copyFiniteUpTo d d.length s.refRobotRaw_u }
    else s1

/-- Lines 288-295: the reference base position, taken only when all three are finite. -/
def readRefBasePos (s : InState) : InState :=
  match s.m_refBasePosIn_ with
  | none => s
  | some d =>
    let s1 := { s with m_refBasePosIn_ := none, m_refBasePos_ := d }
    if isfinite d.1 && isfinite d.2.1 && isfinite d.2.2 then
      { s1 with refRobotRaw_p := d }
    else s1

/-- The loop `for(j<6) if(std::isfinite(data[j])) v[j] = data[j];` on a sample of length 6. -/
def copyFinite6 (data : List Dbl) (v : Vector6D) : Vector6D :=
  fun j => match data[j.val]? with
    | some d => if isfinite d then d else v j
    | none => v j

/-- Lines 305-314, one end effector: the reference wrench. -/
def readRefWrenchAt (e : RefWrenchIn) : RefWrenchIn :=
  match e.m_refWrenchIn_ with
  | none => e
  | some d =>
    if d.length = 6 then
      { m_refWrenchIn_ := none, m_refWrench_ := d, refWrenchOrigin := copyFinite6 d e.refWrenchOrigin }
    else { e with m_refWrenchIn_ := none, m_refWrench_ := d }

/-- Lines 316-323: the actual joint angles. -/
def readQAct (s : InState) : InState :=
  match s.m_qActIn_ with
  | none => s
  | some d =>
    let s1 := { s with m_qActIn_ := none, m_qAct_ := d }
    if d.length = s.actRobotRaw_q.length then
      { s1 with actRobotRaw_q := copyFiniteUpTo d d.length s.actRobotRaw_q }
    else s1

/-- Lines 324-331: the actual joint velocities. -/
def readDqAct (s : InState) : InState :=
  match s.m_dqActIn_ with
  | none => s
  | some d =>
    let s1 := { s with m_dqActIn_ := none, m_dqAct_ := d }
    if d.length = s.actRobotRaw_q.length then
      { s1 with actRobotRaw_dq := copyFiniteUpTo d d.length s.actRobotRaw_dq }
    else s1

/-- Line 351 for one component `j` of sensor `i`:
`if(std::isfinite(ports.m_refWrench_[i].data[j])) forceSensors[i]->F()[j] = ports.m_actWrench_[i].data[j];`
The tested value is read from the reference-wrench buffer of index `i`; when that buffer
does not exist or is shorter than `j+1` the read is out of bounds (`none`). -/
def actWrenchComponent (refWrench : List RefWrenchIn) (i : Nat) (act : List Dbl)
    (F : Vector6D) (j : Fin 6) : Option Vector6D :=
  match refWrench[i]? with
  | none => none
  | some e =>
    match e.m_refWrench_[j.val]?, act[j.val]? with
    | some r, some a => some (if isfinite r then Function.update F j a else F)
    | _, _ => none

/-- Lines 350-352: the loop over the six components. -/
def actWrenchLoop (refWrench : List RefWrenchIn) (i : Nat) (act : List Dbl)
    (F : Vector6D) : Option Vector6D :=
  (List.finRange 6).foldlM (fun F j => actWrenchComponent refWrench i act F j) F

/-- Lines 347-354, sensor `i`. -/
def readActWrenchAt (refWrench : List RefWrenchIn) (i : Nat) (a : ActWrenchIn) :
    Option ActWrenchIn :=
  match a.m_actWrenchIn_ with
  | none => some a
  | some d =>
    if d.length = 6 then
      (actWrenchLoop refWrench i d a.F).map
        (fun F => { m_actWrenchIn_ := none, m_actWrench_ := d, F := F })
    else some { a with m_actWrenchIn_ := none, m_actWrench_ := d }

/-- Lines 346-355: the loop over the force sensors, from index `i` on. -/
def readActWrenchFrom (refWrench : List RefWrenchIn) : Nat → List ActWrenchIn →
    Option (List ActWrenchIn)
  | _, [] => some []
  | i, a :: rest =>
    match readActWrenchAt refWrench i a with
    | none => none
    | some a1 =>
      match readActWrenchFrom refWrench (i + 1) rest with
      | none => none
      | some rest1 => some (a1 :: rest1)

/-- Lines 305-314: the loop over the end effectors. -/
def readRefWrench (s : InState) : InState :=
  { s with refWrench := s.refWrench.map readRefWrenchAt }

/-- The function `AutoStabilizer::readInPortData`: returns `qRef_updated` and the new state.
The base-orientation inputs (296-301, 332-341) and the forward-kinematics calls write only
link poses and are left out. -/
def readInPortData (s : InState) : Option (Bool × InState) :=
  let r := readQRef s
  let s6 := readDqAct (readQAct (readRefWrench (readRefBasePos (readRefTau r.2))))
  match readActWrenchFrom s6.refWrench 0 s6.actWrench with
  | none => none
  | some aw => some (r.1, { s6 with actWrench := aw })

/-! ## Control mode (section 4.1 of the specification) -/

/-- Modelled from the spec: the states of the control-mode state machine (section 4.1); the
class `ControlMode` is declared in AutoStabilizer.h, which is not among the sources. -/
inductive Mode_enum where
  | MODE_IDLE
  | MODE_SYNC_TO_ABC
  | MODE_ABC
  | MODE_SYNC_TO_ST
  | MODE_ST
  | MODE_SYNC_TO_STOPST
  | MODE_SYNC_TO_IDLE
  deriving DecidableEq

/-- Modelled from the spec: the four transition requests of section 4.1
(`startAutoBalancer`, `stopAutoBalancer`, `startStabilizer`, `stopStabilizer`). -/
inductive Transition_enum where
  | START_ABC
  | STOP_ABC
  | START_ST
  | STOP_ST
  deriving DecidableEq

/-- Modelled from the spec: the state of `ControlMode` (section 4.1): the current state, the
state of the tick before (the one-shot predicates compare the two), the requested next state
and the remaining transition time. -/
structure ControlMode where
  current : Mode_enum
  previous : Mode_enum
  next : Mode_enum
  remain_time : ℚ
  deriving DecidableEq

namespace ControlMode

/-- Modelled from the spec: `now()`, the current state. -/
def now (m : ControlMode) : Mode_enum := m.current

/-- Modelled from the spec: `remainTime()`, the remaining transition time (section 4.1). -/
def remainTime (m : ControlMode) : ℚ := m.remain_time

/-- Modelled from the spec: `setNextTransition` (section 4.1): a request is accepted only if
legal from the current state, along IDLE -> SYNC_TO_ABC -> ABC -> SYNC_TO_ST -> ST ->
SYNC_TO_STOP_ST -> ABC -> SYNC_TO_IDLE -> IDLE; an accepted request is recorded for the next
tick, an illegal one returns failure without side effects. -/
def setNextTransition (m : ControlMode) (request : Transition_enum) : Bool × ControlMode :=
  match request with
  | Transition_enum.START_ABC =>
    if m.current = Mode_enum.MODE_IDLE then (true, { m with next := Mode_enum.MODE_SYNC_TO_ABC })
    else (false, m)
  | Transition_enum.STOP_ABC =>
    if m.current = Mode_enum.MODE_ABC then (true, { m with next := Mode_enum.MODE_SYNC_TO_IDLE })
    else (false, m)
  | Transition_enum.START_ST =>
    if m.current = Mode_enum.MODE_ABC then (true, { m with next := Mode_enum.MODE_SYNC_TO_ST })
    else (false, m)
  | Transition_enum.STOP_ST =>
    if m.current = Mode_enum.MODE_ST then (true, { m with next := Mode_enum.MODE_SYNC_TO_STOPST })
    else (false, m)

/-- Modelled from the spec: the predicate "is balancing running" (section 4.1): every state
from the entering transition to the stop-stabilizing transition; IDLE and the transition
back to IDLE pass the reference through. -/
def isABCRunning (m : ControlMode) : Bool :=
  m.current = Mode_enum.MODE_SYNC_TO_ABC || m.current = Mode_enum.MODE_ABC ||
  m.current = Mode_enum.MODE_SYNC_TO_ST || m.current = Mode_enum.MODE_ST ||
  m.current = Mode_enum.MODE_SYNC_TO_STOPST

/-- Modelled from the spec: the mode is in the transition into balancing. -/
def isSyncToABC (m : ControlMode) : Bool := m.current = Mode_enum.MODE_SYNC_TO_ABC

/-- Modelled from the spec: "is entering balancing this tick" (one-shot, section 4.1). -/
def isSyncToABCInit (m : ControlMode) : Bool := m.current != m.previous && m.isSyncToABC

/-- Modelled from the spec: the mode is in the transition out of balancing. -/
def isSyncToIdle (m : ControlMode) : Bool := m.current = Mode_enum.MODE_SYNC_TO_IDLE

/-- Modelled from the spec: one-shot, the tick at which the transition out of balancing
starts. -/
def isSyncToIdleInit (m : ControlMode) : Bool := m.current != m.previous && m.isSyncToIdle

end ControlMode

/-! ## Smoothed-value interpolator (section 3 of the specification) -/

/-- Modelled from the spec: the smoothed-value interpolator of section 3 (the library
`cpp_filters` is not among the sources): current value, velocity and acceleration, a goal
value and the time left to reach it. -/
structure TwoPointInterpolator (α : Type) where
  x : α
  v : α
  a : α
  goal : α
  remain : ℚ

namespace TwoPointInterpolator

variable {α : Type} [AddCommGroup α] [Module ℚ α]

/-- Modelled from the spec: `reset(value)` snaps the state, discarding history. -/
def reset (_p : TwoPointInterpolator α) (value : α) : TwoPointInterpolator α :=
  { x := value, v := 0, a := 0, goal := value, remain := 0 }

/-- Modelled from the spec: `setGoal(value, duration)` redefines the target without
discontinuity in the current value. -/
def setGoal (p : TwoPointInterpolator α) (value : α) (duration : ℚ) : TwoPointInterpolator α :=
  { p with goal := value, remain := duration }

/-- Modelled from the spec: `value()`, the current value. -/
def value (p : TwoPointInterpolator α) : α := p.x

/-- Modelled from the spec: the quintic blend from the state `(x, v, a)` to the goal at rest,
reached after `T`, evaluated at time `t`: value, velocity and acceleration of the polynomial
with these six boundary values. -/
def quintic (x v a g : α) (T t : ℚ) : α × α × α :=
  let a3 := (1 / (2 * T ^ 3)) • ((20 : ℚ) • (g - x) - (12 * T) • v - (3 * T ^ 2) • a)
  let a4 := (1 / (2 * T ^ 4)) • ((30 : ℚ) • (x - g) + (16 * T) • v + (3 * T ^ 2) • a)
  let a5 := (1 / (2 * T ^ 5)) • ((12 : ℚ) • (g - x) - (6 * T) • v - (T ^ 2) • a)
  (x + t • v + (t ^ 2 / 2) • a + (t ^ 3) • a3 + (t ^ 4) • a4 + (t ^ 5) • a5,
   v + t • a + (3 * t ^ 2) • a3 + (4 * t ^ 3) • a4 + (5 * t ^ 4) • a5,
   a + (6 * t) • a3 + (12 * t ^ 2) • a4 + (20 * t ^ 3) • a5)

/-- Modelled from the spec: `interpolate(dt)` advances one tick (section 3): no change under
zero `dt`, the goal at rest once the time to reach it has elapsed, the quintic blend
before. -/
def interpolate (p : TwoPointInterpolator α) (dt : ℚ) : TwoPointInterpolator α :=
  if dt ≤ 0 then p
  else if p.remain ≤ dt then { x := p.goal, v := 0, a := 0, goal := p.goal, remain := 0 }
  else
    let r := quintic p.x p.v p.a p.goal p.remain dt
    { x := r.1, v := r.2.1, a := r.2.2, goal := p.goal, remain := p.remain - dt }

/-- Modelled from the spec: `get(x, v, a, dt)` hands out the current value, velocity and
acceleration and advances the interpolator by `dt` (sections 4.9 and 8: the offset added on
the tick it is seeded is the seeded one, and it has reached its goal when the time given to
`setGoal` has elapsed). -/
def get (p : TwoPointInterpolator α) (dt : ℚ) : (α × α × α) × TwoPointInterpolator α :=
  ((p.x, p.v, p.a), p.interpolate dt)

end TwoPointInterpolator

/-! ## Geometry (`cnoid::Vector3`, `cnoid::Matrix3`, `cnoid::Position`) -/

/-- A 3-vector (`cnoid::Vector3`). -/
abbrev Vector3 := Fin 3 → ℚ

/-- A 6-vector (`cnoid::Vector6`). -/
abbrev Vector6 := Fin 6 → ℚ

/-- A 3x3 matrix (`cnoid::Matrix3`). -/
abbrev Matrix3 := Matrix (Fin 3) (Fin 3) ℚ

/-- An affine transform (`cnoid::Position`, Eigen `AffineCompact`): linear part and
translation. -/
structure Position where
  linear : Matrix3
  translation : Vector3
  deriving DecidableEq

namespace Position

/-- The identity transform (`cnoid::Position::Identity()`). -/
def Identity : Position := { linear := 1, translation := 0 }

/-- Composition of transforms (`operator*`). -/
def mul (A B : Position) : Position :=
  { linear := A.linear * B.linear
    translation := A.linear.mulVec B.translation + A.translation }

/-- The inverse of an affine transform (`inverse()`): the inverse of the linear part and the
translation mapped back through it. -/
def inverse (A : Position) : Position :=
  let Ri : Matrix3 := (A.linear.det)⁻¹ • A.linear.adjugate
  { linear := Ri, translation := - Ri.mulVec A.translation }

end Position

/-! ## Component state used by the commands -/

/-- The fields of `FootStepGenerator` the velocity commands write. -/
structure FootStepGenerator where
  isGoVelocityMode : Bool
  cmdVel : Vector3

/-- The fields of `EndEffectorParam` the impedance commands use: the names and the smoothed
impedance offsets, one entry per end effector. -/
structure EndEffectorParam where
  name : List String
  icOffset : List (TwoPointInterpolator Vector6)

/-- The field of `ImpedanceController` the impedance commands use: one flag per end effector
(onInitialize 172-174 pushes one entry per end effector). -/
structure ImpedanceController where
  isImpedanceMode : List Bool

/-- The members of the component the commands read and write. -/
structure State where
  mode_ : ControlMode
  footStepGenerator_ : FootStepGenerator
  endEffectorParams_ : EndEffectorParam
  impedanceController_ : ImpedanceController

/-! ## Commands (AutoStabilizer.cpp 697-831) -/

/-- The command `goVelocity` (701-712); `M_PI` is the constant of that name. -/
def goVelocity (M_PI : ℚ) (s : State) (vx vy vth : ℚ) : Bool × State :=
  if s.mode_.isABCRunning then
    (true, { s with footStepGenerator_ :=
      { isGoVelocityMode := true, cmdVel := ![vx, vy, vth / 180 * M_PI] } })
  else (false, s)

/-- The command `goStop` (713-722). -/
def goStop (s : State) : Bool × State :=
  if s.mode_.isABCRunning then
    (true, { s with footStepGenerator_ := { isGoVelocityMode := false, cmdVel := 0 } })
  else (false, s)

/-- The command `setFootSteps` (727-730): the body takes the lock and returns true; `FSS` is
the type of a footstep sequence. -/
def setFootSteps {FSS : Type} (s : State) (_fss : FSS) (_overwrite_fs_idx : Int) :
    Bool × State :=
  (true, s)

/-- The command `setFootStepsWithParam` (731-734): the body takes the lock and returns
true; `FSS` and `SPSS` are the types of a footstep and of a step-parameter sequence. -/
def setFootStepsWithParam {FSS SPSS : Type} (s : State) (_fss : FSS) (_spss : SPSS)
    (_overwrite_fs_idx : Int) : Bool × State :=
  (true, s)

/-- The polling loop `while (mode_.now() != target) usleep(1000);` of the start/stop
commands.  The mode is advanced by the control thread; `obs` lists the values of `mode_` the
successive tests of the loop condition read.  Returns the mode at which the loop ends and the
number of `usleep` calls, or `none` when the target is never observed. -/
def waitFor (target : Mode_enum) : List ControlMode → Nat → Option (ControlMode × Nat)
  | [], _ => none
  | m :: rest, k => if m.now = target then some (m, k) else waitFor target rest (k + 1)

/-- The command `startStabilizer` (767-777): the returned value, the mode at return and the
number of `usleep` calls. -/
def startStabilizer (mode_ : ControlMode) (obs : List ControlMode) :
    Option (Bool × ControlMode × Nat) :=
  let r := mode_.setNextTransition Transition_enum.START_ST
  if r.1 then
    (waitFor Mode_enum.MODE_ST obs 0).map (fun w => (true, w.1, w.2 + 1))
  else some (false, r.2, 0)

/-- The loop of `startImpedanceController` (793-802) from index `i` on, `names` being the
names not yet visited: the returned value and the flags. -/
def startImpedanceFrom (i_name : String) (isImpedanceMode : List Bool) :
    Nat → List String → Bool × List Bool
  | _, [] => (false, isImpedanceMode)
  | i, n :: names =>
    if n ≠ i_name then startImpedanceFrom i_name isImpedanceMode (i + 1) names
    else if isImpedanceMode.getD i false then (false, isImpedanceMode)
    else (true, isImpedanceMode.set i true)

/-- The command `startImpedanceController` (790-809). -/
def startImpedanceController (s : State) (i_name : String) : Bool × State :=
  if s.mode_.isABCRunning then
    let r := startImpedanceFrom i_name s.impedanceController_.isImpedanceMode 0
      s.endEffectorParams_.name
    (r.1, { s with impedanceController_ := { isImpedanceMode := r.2 } })
  else (false, s)

/-- The loop of `stopImpedanceController` (814-824) from index `i` on: the returned value,
the flags and the impedance offsets. -/
def stopImpedanceFrom (i_name : String) (isImpedanceMode : List Bool)
    (icOffset : List (TwoPointInterpolator Vector6)) :
    Nat → List String → Bool × List Bool × List (TwoPointInterpolator Vector6)
  | _, [] => (false, isImpedanceMode, icOffset)
  | i, n :: names =>
    if n ≠ i_name then stopImpedanceFrom i_name isImpedanceMode icOffset (i + 1) names
    else if !(isImpedanceMode.getD i false) then (false, isImpedanceMode, icOffset)
    else
      (true, isImpedanceMode.set i false,
        match icOffset[i]? with
        | some p => icOffset.set i (p.setGoal 0 2)
        | none => icOffset)

/-- The command `stopImpedanceController` (811-831). -/
def stopImpedanceController (s : State) (i_name : String) : Bool × State :=
  if s.mode_.isABCRunning then
    let r := stopImpedanceFrom i_name s.impedanceController_.isImpedanceMode
      s.endEffectorParams_.icOffset 0 s.endEffectorParams_.name
    (r.1, { s with
      impedanceController_ := { isImpedanceMode := r.2.1 }
      endEffectorParams_ := { name := s.endEffectorParams_.name, icOffset := r.2.2 } })
  else (false, s)

/-! ## `writeOutPortData` (AutoStabilizer.cpp 551-652) -/

/-- The generated robot as `writeOutPortData` reads it: joint angles `joint(i)->q()`, joint
torques `joint(i)->u()` and the root pose `rootLink()->T()`. -/
structure Body where
  q : List ℚ
  u : List ℚ
  rootT : Position

/-- The RTC type `Point3D`. -/
structure Point3D where
  x : ℚ
  y : ℚ
  z : ℚ
  deriving DecidableEq

/-- The RTC type `Orientation3D`. -/
structure Orientation3D where
  r : ℚ
  p : ℚ
  y : ℚ
  deriving DecidableEq

/-- The RTC type `Pose3D`. -/
structure Pose3D where
  position : Point3D
  orientation : Orientation3D
  deriving DecidableEq

/-- The data of the out-ports; between two ticks they hold the values emitted last. -/
structure OutPorts where
  m_q_ : List ℚ
  m_genTau_ : List ℚ
  m_genBasePose_ : Pose3D
  m_genBaseTform_ : List ℚ
  m_genBasePos_ : Point3D
  m_genBaseRpy_ : Orientation3D

/-- The struct `OutputOffsetInterpolators`; `I` is the state of the SE(3) interpolator. -/
structure OutputOffsetInterpolators (I : Type) where
  qInterpolator : List (TwoPointInterpolator ℚ)
  genTauInterpolator : List (TwoPointInterpolator ℚ)
  genBasePoseInterpolator : I

/-- The library functions the base-pose block calls, taken as parameters: `cnoid::rotFromRpy`,
`cnoid::rpyFromRot` and the operations of the SE(3) interpolator. -/
structure BaseOps (I : Type) where
  rotFromRpy : ℚ → ℚ → ℚ → Matrix3
  rpyFromRot : Matrix3 → Vector3
  reset : I → Position → I
  setGoal : I → Position → ℚ → I
  interpolate : I → ℚ → I
  value : I → Position

/-- The interpolator `emplace_back(0.0,0.0,0.0,HOFFARBIB)` creates (554-555). -/
def zeroInterpolator : TwoPointInterpolator ℚ :=
  { x := 0, v := 0, a := 0, goal := 0, remain := 0 }

/-- Lines 552-557: on the first call one interpolator per joint is created for the joint
angles and for the joint torques. -/
def initInterpolators {I : Type} (genRobot : Body) (o : OutputOffsetInterpolators I) :
    OutputOffsetInterpolators I :=
  if o.qInterpolator.length = 0 then
    { o with
      qInterpolator := o.qInterpolator ++ List.replicate genRobot.q.length zeroInterpolator
      genTauInterpolator :=
        o.genTauInterpolator ++ List.replicate genRobot.q.length zeroInterpolator }
  else o

/-- The body of the loops 563-575 and 583-595 for one joint: `out` is the port entry
`data[i]` before the assignment (the value emitted last), `gen` the generated robot's
value, `ip` the joint's offset interpolator.  Returns the new `data[i]` and interpolator. -/
def blendJoint (mode : ControlMode) (dt : ℚ) (out gen : ℚ) (ip : TwoPointInterpolator ℚ) :
    ℚ × TwoPointInterpolator ℚ :=
  if !mode.isSyncToABC && !mode.isSyncToIdle then (gen, ip)
  else
    let ip1 := if mode.isSyncToABCInit || mode.isSyncToIdleInit then ip.reset (out - gen) else ip
    let ip2 := ip1.setGoal 0 mode.remainTime
    let r := ip2.get dt
    (gen + r.1.1, r.2)

/-- The loops 563-575 and 583-595: `data.length(numJoints)` keeps the entries the sequence
already has, then iteration `i` works on entry `i` of the port data, of the generated values
and of the interpolators.  An entry new to the sequence is read as 0, a missing
interpolator as the zero interpolator. -/
def blendJoints (mode : ControlMode) (dt : ℚ) (gen out : List ℚ)
    (ips : List (TwoPointInterpolator ℚ)) : List (ℚ × TwoPointInterpolator ℚ) :=
  (List.range gen.length).map
    (fun i => blendJoint mode dt (out.getD i 0) (gen.getD i 0) (ips.getD i zeroInterpolator))

/-- Lines 599-613: the base pose to emit and the new state of the SE(3) interpolator. -/
def blendBasePose {I : Type} (ops : BaseOps I) (prev : Pose3D) (genRobot : Body)
    (mode : ControlMode) (ip : I) (dt : ℚ) : Position × I :=
  let basePose := genRobot.rootT
  if !mode.isSyncToABC && !mode.isSyncToIdle then
    let ip1 :=
      if mode.isSyncToABCInit || mode.isSyncToIdleInit then
        let prevPose : Position :=
          { translation := ![prev.position.x, prev.position.x, prev.position.x]
            linear := ops.rotFromRpy prev.orientation.r prev.orientation.p prev.orientation.y }
        ops.reset ip (prevPose.mul basePose.inverse)
      else ip
    let ip2 := ops.setGoal ip1 Position.Identity mode.remainTime
    let ip3 := ops.interpolate ip2 dt
    ((ops.value ip3).mul basePose, ip3)
  else (basePose, ip)

/-- The function `AutoStabilizer::writeOutPortData`: the new port data and interpolators.
Time stamps and the `write()` calls are left out. -/
def writeOutPortData {I : Type} (ops : BaseOps I) (ports : OutPorts) (genRobot : Body)
    (mode : ControlMode) (outputOffsetInterpolators : OutputOffsetInterpolators I) (dt : ℚ) :
    OutPorts × OutputOffsetInterpolators I :=
  let o := initInterpolators genRobot outputOffsetInterpolators
  let qs := blendJoints mode dt genRobot.q ports.m_q_ o.qInterpolator
  let taus := blendJoints mode dt genRobot.u ports.m_genTau_ o.genTauInterpolator
  let b := blendBasePose ops ports.m_genBasePose_ genRobot mode o.genBasePoseInterpolator dt
  let basePos := b.1.translation
  let baseR := b.1.linear
  let baseRpy := ops.rpyFromRot b.1.linear
  ({ m_q_ := qs.map Prod.fst
     m_genTau_ := taus.map Prod.fst
     m_genBasePose_ :=
       { position := { x := basePos 0, y := basePos 1, z := basePos 2 }
         orientation := { r := baseRpy 0, p := baseRpy 1, y := baseRpy 2 } }
     m_genBaseTform_ :=
       [basePos 0, basePos 1, basePos 2,
        baseR 0 0, baseR 0 1, baseR 0 2, baseR 1 0, baseR 1 1, baseR 1 2,
        baseR 2 0, baseR 2 1, baseR 2 2]
     m_genBasePos_ := { x := basePos 0, y := basePos 1, z := basePos 2 }
     m_genBaseRpy_ := { r := baseRpy 0, p := baseRpy 1, y := baseRpy 2 } },
   { qInterpolator := qs.map Prod.snd
     genTauInterpolator := taus.map Prod.snd
     genBasePoseInterpolator := b.2 })

/-! ## `onInitialize` (AutoStabilizer.cpp 54-266) -/

/-- The return codes `RTC::RTC_OK` and `RTC::RTC_ERROR`. -/
inductive ReturnCode_t where
  | RTC_OK
  | RTC_ERROR
  deriving DecidableEq

/-- The index of the right leg (line 176: entry 0 is the right leg). -/
def RLEG : Nat := 0

/-- The index of the left leg (line 176: entry 1 is the left leg). -/
def LLEG : Nat := 1

/-- The number of legs (the message of line 178 spells the test `size() < 2`). -/
def NUM_LEGS : Nat := 2

/-- Lines 74-87: the tick period.  The arguments are the values `std::stod` returns for the
properties `dt` and `exec_cxt.periodic.rate`; the result is the value of `dt_`, or `none`
when the block returns `RTC_ERROR`. -/
def loadDt (dt rate : ℚ) : Option ℚ :=
  if dt ≤ 0 then
    if rate > 0 then some (1 / rate) else none
  else some dt

/-- A force sensor of the robot model: its name and the link it is mounted on (links are
numbered). -/
structure ForceSensor where
  name : String
  link : Nat
  deriving DecidableEq

/-- Lines 158-164: the scan of the force sensors for the first one mounted on `link`. -/
def findSensorOn (forceSensors : List ForceSensor) (link : Nat) : Option String :=
  match forceSensors with
  | [] => none
  | s :: rest => if s.link = link then some s.name else findSensorOn rest link

/-- Lines 157-165: the loop `while (link != nullptr && found == false)`, `fuel` bounding the
number of tests of the loop condition; `none` when the fuel runs out.  The body scans the
force sensors for one mounted on `link` and assigns neither `link` nor anything else when
none is. -/
def forceSensorWhile (forceSensors : List ForceSensor) :
    Nat → Option Nat → Bool → String → Option String
  | 0, _, _, _ => none
  | fuel + 1, link, found, forceSensor =>
    match link with
    | none => some forceSensor
    | some l =>
      if found then some forceSensor
      else
        match findSensorOn forceSensors l with
        | some n => forceSensorWhile forceSensors fuel (some l) true n
        | none => forceSensorWhile forceSensors fuel (some l) false forceSensor

/-- Lines 153-166: the force sensor mapped to an end effector whose parent link is `link`
(`refRobotRaw_->link(parentLink)`). -/
def lookupForceSensor (forceSensors : List ForceSensor) (fuel : Nat) (link : Option Nat) :
    Option String :=
  forceSensorWhile forceSensors fuel link false ""

/-- One complete record of the property `end_effectors`: the name and the link
`refRobotRaw_->link(parentLink)`, `none` when the robot has no link of that name. -/
structure EndEffectorEntry where
  name : String
  parentLink : Option Nat

/-- Lines 119-169: the loop over the records.  The result is `none` when a force-sensor
lookup does not end, `some none` when a parent link is not found (`RTC_ERROR`), and otherwise
the names and force sensors pushed into `endEffectorParams_`. -/
def loadEndEffectors (forceSensors : List ForceSensor) (fuel : Nat) :
    List EndEffectorEntry → Option (Option (List (String × String)))
  | [] => some (some [])
  | e :: rest =>
    match e.parentLink with
    | none => some none
    | some l =>
      match lookupForceSensor forceSensors fuel (some l) with
      | none => none
      | some forceSensor =>
        match loadEndEffectors forceSensors fuel rest with
        | none => none
        | some none => some none
        | some (some params) => some (some ((e.name, forceSensor) :: params))

/-- Line 177: the condition
`name.size() < NUM_LEGS || name[RLEG] != "rleg" || name[LLEG] != "lleg"`, evaluated left to
right; `none` when a name is read out of bounds. -/
def legNamesInvalid (name : List String) : Option Bool :=
  if name.length < NUM_LEGS then some true
  else
    match name[RLEG]? with
    | none => none
    | some n0 =>
      if n0 ≠ "rleg" then some true
      else
        match name[LLEG]? with
        | none => none
        | some n1 => some (decide (n1 ≠ "lleg"))

/-- The configuration `onInitialize` reads: the parsed properties `dt` and
`exec_cxt.periodic.rate`, whether the model file loads, the force sensors of the model and
the complete records of `end_effectors`. -/
structure InitConfig where
  dt : ℚ
  rate : ℚ
  modelLoaded : Bool
  forceSensors : List ForceSensor
  endEffectors : List EndEffectorEntry

/-- The function `AutoStabilizer::onInitialize`, up to its return code: `none` when it does
not return.  After line 180 no statement returns an error. -/
def onInitialize (fuel : Nat) (cfg : InitConfig) : Option ReturnCode_t :=
  match loadDt cfg.dt cfg.rate with
  | none => some ReturnCode_t.RTC_ERROR
  | some _ =>
    if !cfg.modelLoaded then some ReturnCode_t.RTC_ERROR
    else
      match loadEndEffectors cfg.forceSensors fuel cfg.endEffectors with
      | none => none
      | some none => some ReturnCode_t.RTC_ERROR
      | some (some params) =>
        match legNamesInvalid (params.map Prod.fst) with
        | none => none
        | some true => some ReturnCode_t.RTC_ERROR
        | some false => some ReturnCode_t.RTC_OK

/-! ## `mathutil` (MathUtil.h)

A rotation held in angle-axis form (`Eigen::AngleAxisd`) is represented by its rotation
matrix; converting a rotation matrix to angle-axis form and back is the identity. -/

namespace mathutil

/-- The function `std::sqrt` on rationals: exact when the argument is the square of a
rational; the statements say so where the value matters. -/
def sqrt (x : ℚ) : ℚ := Rat.sqrt x

/-- The vector `Eigen::Vector3d::UnitX()`. -/
def UnitX : Vector3 := ![1, 0, 0]

/-- The vector `Eigen::Vector3d::UnitZ()`. -/
def UnitZ : Vector3 := ![0, 0, 1]

/-- The scalar product `a.dot(b)` of 3-vectors. -/
def dot (a b : Vector3) : ℚ := a 0 * b 0 + a 1 * b 1 + a 2 * b 2

/-- The vector product `a.cross(b)`. -/
def cross3 (a b : Vector3) : Vector3 :=
  ![a 1 * b 2 - a 2 * b 1, a 2 * b 0 - a 0 * b 2, a 0 * b 1 - a 1 * b 0]

/-- The Euclidean norm `a.norm()`. -/
def norm (a : Vector3) : ℚ := sqrt (dot a a)

/-- The unit vector `a.normalized()`; a vector of squared norm 0 is returned as it is. -/
def normalized (a : Vector3) : Vector3 :=
  if 0 < dot a a then (1 / norm a) • a else a

/-- The function `mathutil::cross` (92-99): the matrix of the vector product with `m`. -/
def cross (m : Vector3) : Matrix3 :=
  !![0, -(m 2), m 1;
     m 2, 0, -(m 0);
     -(m 1), m 0, 0]

/-- An angle between 0 and pi as `std::acos` returns it, held by its cosine and sine. -/
structure Angle where
  cos : ℚ
  sin : ℚ
  deriving DecidableEq

/-- The function `std::acos` on the interval from -1 to 1: the angle of cosine `d`, whose
sine is the non-negative root of `1 - d * d`. -/
def acos (d : ℚ) : Angle := { cos := d, sin := sqrt (1 - d * d) }

/-- The rotation matrix of `Eigen::AngleAxisd(angle, axis)` (formula of Rodrigues, as
`toRotationMatrix` computes it). -/
def angleAxis (angle : Angle) (axis : Vector3) : Matrix3 :=
  fun i j => (1 - angle.cos) * axis i * axis j + (if i = j then angle.cos else 0) +
    angle.sin * cross axis i j

/-- The function `mathutil::orientCoordToAxis` on rotation matrices (8-23); `localaxis` has
the default value `UnitZ` in the source. -/
def orientCoordToAxis (m : Matrix3) (axis localaxis : Vector3) : Matrix3 :=
  let localaxisdir := m.mulVec localaxis
  let cross := cross3 localaxisdir axis
  let dot := min 1 (max (-1) (dot localaxisdir axis))
  if norm cross = 0 then
    if dot = -1 then -m else m
  else
    let angle := acos dot
    let axis1 := normalized cross
    angleAxis angle axis1 * m

/-- The overload of `mathutil::orientCoordToAxis` on transforms (24-28). -/
def orientCoordToAxisT (m : Position) (axis localaxis : Vector3) : Position :=
  { m with linear := orientCoordToAxis m.linear axis localaxis }

/-- The library operation of `slerp`, taken as a parameter: for the rotation matrix `T` with
angle-axis form `(angle, axis)` and a factor `r`, the rotation matrix of
`Eigen::AngleAxisd(angle * r, axis)`. -/
abbrev AngleScale := Matrix3 → ℚ → Matrix3

/-- The function `mathutil::slerp` (29-33); the inverse of a rotation is its transpose. -/
def slerp (scale : AngleScale) (M1 M2 : Matrix3) (r : ℚ) : Matrix3 :=
  M1 * scale (M1.transpose * M2) r

/-- The loop body of `mathutil::calcMidPos` (40-44) on the state `(sumWeight, midpos)`. -/
def calcMidPosStep (st : ℚ × Vector3) (cw : Vector3 × ℚ) : ℚ × Vector3 :=
  if cw.2 ≤ 0 then st
  else (st.1 + cw.2, (1 / (st.1 + cw.2)) • (st.1 • st.2 + cw.2 • cw.1))

/-- The function `mathutil::calcMidPos` (35-46); `coords` and `weights` have the same size. -/
def calcMidPos (coords : List Vector3) (weights : List ℚ) : Vector3 :=
  ((coords.zip weights).foldl calcMidPosStep (0, 0)).2

/-- The loop body of `mathutil::calcMidRot` (52-57) on the state `(sumWeight, midrot)`. -/
def calcMidRotStep (scale : AngleScale) (st : ℚ × Matrix3) (cw : Matrix3 × ℚ) : ℚ × Matrix3 :=
  if cw.2 ≤ 0 then st
  else (st.1 + cw.2, slerp scale st.2 cw.1 (cw.2 / (st.1 + cw.2)))

/-- The function `mathutil::calcMidRot` (47-59). -/
def calcMidRot (scale : AngleScale) (coords : List Matrix3) (weights : List ℚ) : Matrix3 :=
  ((coords.zip weights).foldl (calcMidRotStep scale) (0, 1)).2

/-- The loop body of `mathutil::calcMidCoords` (65-71) on the state
`(sumWeight, midCoords)`. -/
def calcMidCoordsStep (scale : AngleScale) (st : ℚ × Position) (cw : Position × ℚ) :
    ℚ × Position :=
  if cw.2 ≤ 0 then st
  else
    (st.1 + cw.2,
      { translation := (1 / (st.1 + cw.2)) • (st.1 • st.2.translation + cw.2 • cw.1.translation)
        linear := slerp scale st.2.linear cw.1.linear (cw.2 / (st.1 + cw.2)) })

/-- The function `mathutil::calcMidCoords` (60-73); `coords` and `weights` have the same
size. -/
def calcMidCoords (scale : AngleScale) (coords : List Position) (weights : List ℚ) :
    Position :=
  ((coords.zip weights).foldl (calcMidCoordsStep scale) (0, Position.Identity)).2

/-- A 2-vector (`Eigen::Vector2d`). -/
abbrev Vector2 := Fin 2 → ℚ

/-- The first two components `v.head<2>()`. -/
def head2 (v : Vector3) : Vector2 := ![v 0, v 1]

/-- The scalar product of 2-vectors. -/
def dot2 (a b : Vector2) : ℚ := a 0 * b 0 + a 1 * b 1

/-- The value `std::sqrt` returns in real arithmetic at a rational number that need not be
the square of a rational: the non-negative root, held exactly by the number under it. -/
structure Root where
  radicand : ℚ

/-- The Euclidean norm `a.norm()` of a 2-vector: the root of `a.squaredNorm()`. -/
def norm2 (a : Vector2) : Root := { radicand := dot2 a a }

/-- The vector `a.dot(u) * u` for the unit vector `u = e.normalized()` of a 2-vector `e`:
`u` is `e` divided by the root of `e.squaredNorm()` (and `e` itself when `e` is zero), the
root enters `a.dot(u) * u` as a divisor twice, and the two divide by `e.squaredNorm()`. -/
def dotUnitTimesUnit (a e : Vector2) : Vector2 := (dot2 a e / dot2 e e) • e

/-- The test of the loop 109-112 for edge `i`: `a.cross(b)[2] < 0` with `a = hull[i] - p` and
`b = hull[(i+1)%hull.size()] - p`. -/
def outsideEdge (p : Vector3) (hull : List Vector3) (i : Nat) : Bool :=
  decide ((cross3 (hull.getD i 0 - p) (hull.getD ((i + 1) % hull.length) 0 - p)) 2 < 0)

/-- The function `mathutil::isInsideHull` (101-115). -/
def isInsideHull (p : Vector3) (hull : List Vector3) : Bool :=
  match hull with
  | [] => false
  | [h0] => decide (head2 h0 = head2 p)
  | [h0, h1] =>
    decide ((cross3 (h0 - p) (h1 - p)) 2 = 0) &&
      decide (dot2 (head2 (h0 - p)) (head2 (h1 - p)) ≤ 0)
  | _ => (List.range hull.length).all (fun i => !outsideEdge p hull i)

/-- The comparison `distance < minDistance` of two norms, `none` standing for the initial
value `std::numeric_limits<double>::max()`: the roots of two non-negative numbers compare as
the numbers do. -/
def belowMin (distance : Root) : Option Root → Bool
  | none => true
  | some m => decide (distance.radicand < m.radicand)

/-- The loop body of `mathutil::calcNearestPointOfHull` (127-149) for edge `i`, on the state
`(minDistance, nearestPoint)`.  In the third branch `p1Top2` is `(p2 - p1).normalized()` and
`p3` is `p1 + (p - p1).dot(p1Top2) * p1Top2` (142-143). -/
def nearestStep (p : Vector2) (hull : List Vector3) (st : Option Root × Vector2) (i : Nat) :
    Option Root × Vector2 :=
  let p1 := head2 (hull.getD i 0)
  let p2 := head2 (hull.getD ((i + 1) % hull.length) 0)
  let dot := dot2 (p2 - p1) (p - p1)
  if dot ≤ 0 then
    let distance := norm2 (p - p1)
    if belowMin distance st.1 then (some distance, p1) else st
  else if dot ≥ dot2 (p2 - p1) (p2 - p1) then
    let distance := norm2 (p - p2)
    if belowMin distance st.1 then (some distance, p2) else st
  else
    let p3 := p1 + dotUnitTimesUnit (p - p1) (p2 - p1)
    let distance := norm2 (p - p3)
    if belowMin distance st.1 then (some distance, p3) else st

/-- The function `mathutil::calcNearestPointOfHull` (117-153).  The variable `nearestPoint`
is not initialised in the source; the first iteration assigns it. -/
def calcNearestPointOfHull (p_ : Vector3) (hull : List Vector3) : Vector3 :=
  if isInsideHull p_ hull then ![p_ 0, p_ 1, 0]
  else if hull.length = 0 then ![p_ 0, p_ 1, 0]
  else if hull.length = 1 then ![(hull.getD 0 0) 0, (hull.getD 0 0) 1, 0]
  else
    let r := (List.range hull.length).foldl (nearestStep (head2 p_) hull) (none, 0)
    ![r.2 0, r.2 1, 0]

end mathutil

/-! ## `RefToGenFrameConverter` (RefToGenFrameConverter.cpp) -/

/-- One node of the footstep queue: per leg the destination and the support flag, and the
remaining time.  The per-leg arrays are indexed by `RLEG` and `LLEG`. -/
structure FootstepNode where
  dstCoords : Nat → Position
  isSupportPhase : Nat → Bool
  remainTime : ℚ

/-- The operations of the SE(3) interpolator `cpp_filters::TwoPointInterpolatorSE3`, taken as
parameters; `I` is the state of the interpolator. -/
structure SE3Ops (I : Type) where
  reset : I → Position → I
  setGoal : I → Position → ℚ → I
  interpolate : I → ℚ → I
  value : I → Position

/-- The fields of `GaitParam` the converter reads: the footstep queue, the current values of
the per-leg offsets `copOffset[leg].value()` and `defaultTranslatePos[leg].value()`, the
foot-mid interpolator, the generated centre of mass `genCog` and the offset `l`. -/
structure GaitParam (I : Type) where
  footstepNodesList : List FootstepNode
  copOffset : Nat → Vector3
  defaultTranslatePos : Nat → Vector3
  footMidCoords : I
  genCog : Vector3
  l : Vector3

namespace RefToGenFrameConverter

open mathutil

/-- The two statements that shift a foot pose of leg `leg` (37-38, 40-41, 146-147):
`c.translation() += c.linear() * copOffset[leg].value();` and
`c.translation() -= c.linear() * defaultTranslatePos[leg].value();`. -/
def shiftFoot {I : Type} (gaitParam : GaitParam I) (leg : Nat) (c : Position) : Position :=
  { c with translation :=
      c.translation + c.linear.mulVec (gaitParam.copOffset leg) -
        c.linear.mulVec (gaitParam.defaultTranslatePos leg) }

/-- The equal-weight mid-coordinate of the two shifted destinations of a node, oriented to
the vertical (43-44, 50-57, 92-93). -/
def nodeMidCoords {I : Type} (scale : AngleScale) (gaitParam : GaitParam I)
    (node : FootstepNode) : Position :=
  orientCoordToAxisT
    (calcMidCoords scale
      [shiftFoot gaitParam RLEG (node.dstCoords RLEG),
       shiftFoot gaitParam LLEG (node.dstCoords LLEG)] [1, 1])
    UnitZ UnitZ

/-- The branch of a single supporting leg `leg` (46-63 and 64-81): when the queue has a
second node with both legs in support, the goal is the mid-coordinate of that node and the
duration the sum of both remaining times; otherwise the goal is the shifted destination of
the supporting leg.  The test `size() > 1 && ...` reads node 1 only when it exists. -/
def singleSupportGoal {I : Type} (scale : AngleScale) (gaitParam : GaitParam I)
    (node0 : FootstepNode) (leg : Nat) : Position × ℚ :=
  let self : Position × ℚ :=
    (orientCoordToAxisT (shiftFoot gaitParam leg (node0.dstCoords leg)) UnitZ UnitZ,
      node0.remainTime)
  match gaitParam.footstepNodesList[1]? with
  | some node1 =>
    if node1.isSupportPhase RLEG && node1.isSupportPhase LLEG then
      (nodeMidCoords scale gaitParam node1, node0.remainTime + node1.remainTime)
    else self
  | none => self

/-- Lines 36-96 of `convertFrame`: the goal and the duration handed to
`footMidCoords.setGoal`; `none` when a node is read that the queue does not hold. -/
def footMidGoal {I : Type} (scale : AngleScale) (gaitParam : GaitParam I) :
    Option (Position × ℚ) :=
  match gaitParam.footstepNodesList[0]? with
  | none => none
  | some node0 =>
    let rleg := shiftFoot gaitParam RLEG (node0.dstCoords RLEG)
    let lleg := shiftFoot gaitParam LLEG (node0.dstCoords LLEG)
    if node0.isSupportPhase RLEG && node0.isSupportPhase LLEG then
      some (nodeMidCoords scale gaitParam node0, node0.remainTime)
    else if node0.isSupportPhase RLEG && !node0.isSupportPhase LLEG then
      some (singleSupportGoal scale gaitParam node0 RLEG)
    else if !node0.isSupportPhase RLEG && node0.isSupportPhase LLEG then
      some (singleSupportGoal scale gaitParam node0 LLEG)
    else
      match gaitParam.footstepNodesList[1]? with
      | none => none
      | some node1 =>
        if node1.isSupportPhase RLEG && !node1.isSupportPhase LLEG then
          some (orientCoordToAxisT rleg UnitZ UnitZ, node0.remainTime)
        else if !node1.isSupportPhase RLEG && node1.isSupportPhase LLEG then
          some (orientCoordToAxisT lleg UnitZ UnitZ, node0.remainTime)
        else
          some (nodeMidCoords scale gaitParam node0, node0.remainTime)

/-- The function `calcRefFootMidCoords` (143-162); `eePose leg` is the end-effector pose
`robot->link(eeParentLink[leg])->T() * eeLocalT[leg]` and `refFootOriginWeight leg` the
current value of the weight of leg `leg`. -/
def calcRefFootMidCoords {I : Type} (scale : AngleScale) (refFootOriginWeight : Nat → ℚ)
    (eePose : Nat → Position) (gaitParam : GaitParam I) : Position :=
  let rleg := shiftFoot gaitParam RLEG (eePose RLEG)
  let lleg := shiftFoot gaitParam LLEG (eePose LLEG)
  let bothmidcoords := calcMidCoords scale [rleg, lleg] [1, 1]
  let rlegmidcoords := rleg
  let llegmidcoords := lleg
  let bothweight := min (refFootOriginWeight RLEG) (refFootOriginWeight LLEG)
  let rlegweight := refFootOriginWeight RLEG - bothweight
  let llegweight := refFootOriginWeight LLEG - bothweight
  calcMidCoords scale [bothmidcoords, rlegmidcoords, llegmidcoords]
    [bothweight, rlegweight, llegweight]

/-- Lines 16-17 and 24 of `initGenRobot`: the foot-mid interpolator is reset to the
reference foot-mid coordinate oriented to the vertical; `eePose` gives the end-effector poses
of the generated robot after the copy of the reference state. -/
def initGenRobot {I : Type} (ops : SE3Ops I) (scale : AngleScale)
    (refFootOriginWeight : Nat → ℚ) (eePose : Nat → Position) (gaitParam : GaitParam I) : I :=
  let refFootMidCoords := calcRefFootMidCoords scale refFootOriginWeight eePose gaitParam
  let footMidCoords := orientCoordToAxisT refFootMidCoords UnitZ UnitZ
  ops.reset gaitParam.footMidCoords footMidCoords

/-- Lines 112-117 of `convertFrame`: the pose `genFootMidCoords` onto which the reference
foot-mid coordinate is moved; `F` is the value of the advanced foot-mid interpolator. -/
def genFootMidCoords (F : Position) (genCog l : Vector3) (handFixMode : ℚ) : Position :=
  let translation0 := genCog - l
  let trans_footMidCoordsLocal := F.linear.transpose.mulVec (translation0 - F.translation)
  let trans1 := Function.update trans_footMidCoordsLocal 1
    (trans_footMidCoordsLocal 1 * (1 - handFixMode))
  { linear := F.linear, translation := F.translation + F.linear.mulVec trans1 }

/-- The function `convertFrame` (29-141) up to the new foot-mid interpolator and the pose
`genFootMidCoords`; the rigid motion of the reference robot and the outputs computed from
its forward kinematics are left out. -/
def convertFrame {I : Type} (ops : SE3Ops I) (scale : AngleScale) (handFixMode : ℚ)
    (gaitParam : GaitParam I) (dt : ℚ) : Option (I × Position) :=
  match footMidGoal scale gaitParam with
  | none => none
  | some g =>
    let footMidCoords := ops.interpolate (ops.setGoal gaitParam.footMidCoords g.1 g.2) dt
    some (footMidCoords,
      genFootMidCoords (ops.value footMidCoords) gaitParam.genCog gaitParam.l handFixMode)

end RefToGenFrameConverter

/-! ## `onInitialize`: the leg parameters (AutoStabilizer.cpp 182-192) -/

/-- The image of a point under a transform (`operator*` of a `cnoid::Position` and a
`cnoid::Vector3`). -/
def Position.apply (A : Position) (v : Vector3) : Vector3 :=
  A.linear.mulVec v + A.translation

/-- Lines 185-191: the values of `gaitParam_.defaultTranslatePos[i]` for the legs
`i < NUM_LEGS`, in the order of the legs; `linkT i` is the pose
`refRobot_->link(endEffectorParams_.parentLink[i])->T()` and `localT i` the local offset
`endEffectorParams_.localT[i]`. -/
def generateLegParams (scale : mathutil.AngleScale) (linkT localT : Nat → Position) :
    List Vector3 :=
  let defautFootMidCoords :=
    mathutil.calcMidCoords scale
      [(linkT RLEG).mul (localT RLEG), (linkT LLEG).mul (localT LLEG)] [1, 1]
  (List.range NUM_LEGS).map (fun i =>
    let defaultPose := (linkT i).mul (localT i)
    Function.update (defautFootMidCoords.inverse.apply defaultPose.translation) 2 0)

/-! ## `execAutoStabilizer` (AutoStabilizer.cpp 362-452) -/

namespace ControlMode

/-- Modelled from the spec: the predicate "is stabilizing running" (section 4.1). -/
def isSTRunning (m : ControlMode) : Bool :=
  m.current = Mode_enum.MODE_SYNC_TO_ST || m.current = Mode_enum.MODE_ST

/-- Modelled from the spec: the mode is in the transition out of stabilizing. -/
def isSyncToStopST (m : ControlMode) : Bool := m.current = Mode_enum.MODE_SYNC_TO_STOPST

end ControlMode

/-- The first three components `v.head<3>()` of a 6-vector. -/
def head3 (v : Vector6) : Vector3 := ![v 0, v 1, v 2]

/-- The last three components `v.tail<3>()` of a 6-vector. -/
def tail3 (v : Vector6) : Vector3 := ![v 3, v 4, v 5]

/-- The functions `std::cos` and `std::sin`, taken as parameters. -/
structure Trig where
  cos : ℚ → ℚ
  sin : ℚ → ℚ

/-- The rotation matrix of `cnoid::AngleAxisd(angle, axis)` for an angle in radians. -/
def AngleAxisd (trig : Trig) (angle : ℚ) (axis : Vector3) : Matrix3 :=
  mathutil.angleAxis { cos := trig.cos angle, sin := trig.sin angle } axis

/-- The pose the two statements of lines 414-415, and again of lines 446-447, build from a
6-vector `offset` and a pose:
`translation() = offset.head<3>() + pose.translation()` and
`linear() = AngleAxisd(offset.tail<3>().norm(), (offset.tail<3>().norm()>0) ?
offset.tail<3>().normalized() : UnitX()) * pose.linear()`. -/
def applyOffset (trig : Trig) (offset : Vector6) (pose : Position) : Position :=
  { translation := head3 offset + pose.translation
    linear :=
      AngleAxisd trig (mathutil.norm (tail3 offset))
        (if mathutil.norm (tail3 offset) > 0 then mathutil.normalized (tail3 offset)
          else mathutil.UnitX) * pose.linear }

/-- The fields of `EndEffectorParam` that lines 408-448 read and write, one entry per end
effector in each list: besides the names and the smoothed impedance offsets, the reference
poses, the smoothed stabilizer offsets and the three target poses. -/
structure EndEffectorParamExec extends EndEffectorParam where
  refPose : List Position
  stOffset : List (TwoPointInterpolator Vector6)
  icTargetPose : List Position
  abcTargetPose : List Position
  stTargetPose : List Position

/-- Lines 412-415, iteration `i`, on the lists `icOffset` and `icTargetPose`; `none` when an
index is out of bounds. -/
def icTargetPoseAt (trig : Trig) (dt : ℚ) (refPose : List Position)
    (st : List (TwoPointInterpolator Vector6) × List Position) (i : Nat) :
    Option (List (TwoPointInterpolator Vector6) × List Position) :=
  match st.1[i]?, refPose[i]?, st.2[i]? with
  | some ic, some ref, some _ =>
    let ic1 := ic.interpolate dt
    let icOffset := ic1.value
    some (st.1.set i ic1, st.2.set i (applyOffset trig icOffset ref))
  | _, _, _ => none

/-- Lines 426-427, iteration `i`, on the list `abcTargetPose`; `genCoords i` is the value
`gaitParam.genCoords[i].value()` of the generated trajectory of leg `i`. -/
def abcTargetPoseAt (genCoords : Nat → Position) (icTargetPose : List Position)
    (abcTargetPose : List Position) (i : Nat) : Option (List Position) :=
  match abcTargetPose[i]? with
  | none => none
  | some _ =>
    if i < NUM_LEGS then some (abcTargetPose.set i (genCoords i))
    else
      match icTargetPose[i]? with
      | none => none
      | some t => some (abcTargetPose.set i t)

/-- Line 437, iteration `i`, on the list `stOffset`. -/
def stOffsetGoalAt (remainTime : ℚ) (stOffset : List (TwoPointInterpolator Vector6))
    (i : Nat) : Option (List (TwoPointInterpolator Vector6)) :=
  match stOffset[i]? with
  | none => none
  | some st => some (stOffset.set i (st.setGoal 0 remainTime))

/-- Lines 444-447, iteration `i`, on the lists `stOffset` and `stTargetPose`. -/
def stTargetPoseAt (trig : Trig) (dt : ℚ) (abcTargetPose : List Position)
    (st : List (TwoPointInterpolator Vector6) × List Position) (i : Nat) :
    Option (List (TwoPointInterpolator Vector6) × List Position) :=
  match st.1[i]?, abcTargetPose[i]?, st.2[i]? with
  | some so, some abc, some _ =>
    let so1 := so.interpolate dt
    let stOffset := so1.value
    some (st.1.set i so1, st.2.set i (applyOffset trig stOffset abc))
  | _, _, _ => none

/-- The functions lines 408-448 call whose code is not among the sources, taken as
parameters; `G` is the type of `GaitParam`.  Each is given by the values of its output
arguments: `calcImpedanceControl` by the new `icOffset`, the three generator functions by the
new gait parameters, `execStabilizer` by the new `stOffsetRootRpy` and `stOffset`.
`genCoords g i` is `genCoords[i].value()` and `footMidCoords g` is `footMidCoords.value()`
of the gait parameters `g`. -/
structure ExecOps (G : Type) where
  trig : Trig
  rotFromRpy : Vector3 → Matrix3
  calcImpedanceControl : ℚ → EndEffectorParamExec → List (TwoPointInterpolator Vector6)
  calcFootSteps : G → ℚ → G
  calcLegCoords : G → ℚ → G
  calcCOMCoords : G → ℚ → G
  genCoords : G → Nat → Position
  footMidCoords : G → Position
  execStabilizer : G → EndEffectorParamExec → ℚ → TwoPointInterpolator Vector3 →
    TwoPointInterpolator Vector3 × List (TwoPointInterpolator Vector6)

/-- The state lines 408-448 work on: the end-effector parameters, the gait parameters and,
of the latter, the smoothed root offset `stOffsetRootRpy` and the root target pose
`stTargetRootPose`. -/
structure ExecState (G : Type) where
  endEffectorParams : EndEffectorParamExec
  gaitParam : G
  stOffsetRootRpy : TwoPointInterpolator Vector3
  stTargetRootPose : Position

/-- Lines 431-439: the stabilizer block, on `stOffsetRootRpy` and `stOffset`. -/
def stabilizerBlock {G : Type} (ops : ExecOps G) (mode : ControlMode) (dt : ℚ) (g : G)
    (e : EndEffectorParamExec) (rpy : TwoPointInterpolator Vector3) :
    Option (TwoPointInterpolator Vector3 × List (TwoPointInterpolator Vector6)) :=
  if mode.isSTRunning then some (ops.execStabilizer g e dt rpy)
  else if mode.isSyncToStopST then
    match (List.range e.name.length).foldlM (stOffsetGoalAt mode.remainTime) e.stOffset with
    | none => none
    | some stOffset => some (rpy.setGoal 0 mode.remainTime, stOffset)
  else some (rpy, e.stOffset)

/-- The function `AutoStabilizer::execAutoStabilizer` from line 408 on, on the state that
lines 363-406 (the frame conversions and, on the first tick of balancing, the initialisation)
leave; `refRobot` is the reference robot in the generate frame.  The result is `none` when an
index is out of bounds. -/
def execAutoStabilizer {G : Type} (ops : ExecOps G) (mode : ControlMode) (refRobot : Body)
    (dt : ℚ) (s : ExecState G) : Option (ExecState G) :=
  let e0 := s.endEffectorParams
  let n := e0.name.length
  let icOffset0 := ops.calcImpedanceControl dt e0
  match (List.range n).foldlM (icTargetPoseAt ops.trig dt e0.refPose)
      (icOffset0, e0.icTargetPose) with
  | none => none
  | some ic =>
    let g1 := ops.calcCOMCoords (ops.calcLegCoords (ops.calcFootSteps s.gaitParam dt) dt) dt
    match (List.range n).foldlM (abcTargetPoseAt (ops.genCoords g1) ic.2) e0.abcTargetPose with
    | none => none
    | some abcTargetPose =>
      let e3 : EndEffectorParamExec :=
        { e0 with icOffset := ic.1, icTargetPose := ic.2, abcTargetPose := abcTargetPose }
      match stabilizerBlock ops mode dt g1 e3 s.stOffsetRootRpy with
      | none => none
      | some sb =>
        let stOffsetRootRpy := sb.1.interpolate dt
        let F := ops.footMidCoords g1
        let stTargetRootPose : Position :=
          { translation := refRobot.rootT.translation
            linear := F.linear * ops.rotFromRpy stOffsetRootRpy.value * F.linear.transpose *
              refRobot.rootT.linear }
        match (List.range n).foldlM (stTargetPoseAt ops.trig dt abcTargetPose)
            (sb.2, e0.stTargetPose) with
        | none => none
        | some st =>
          some { endEffectorParams :=
                   { e3 with stOffset := st.1, stTargetPose := st.2 }
                 gaitParam := g1
                 stOffsetRootRpy := stOffsetRootRpy
                 stTargetRootPose := stTargetRootPose }

/-! ## `solveFullbodyIK` (AutoStabilizer.cpp 455-548) -/

/-- The struct `JointParam` (onInitialize 198-204). -/
structure JointParam where
  name : String
  maxTorque : ℚ
  controllable : Bool

/-- The link a position constraint moves (`A_link()` with `A_localpos()`): the parent link of
end effector `i` with its local offset `localT[i]` (467-468), or the root link with the
identity offset (507-508). -/
inductive IKLink where
  | eeParent (i : Nat)
  | rootLink
  deriving DecidableEq

/-- A task of the inverse-kinematics solve with the fields `solveFullbodyIK` sets: a position
constraint (466-478, 506-518), the centre-of-mass constraint (481-491), the angular-momentum
constraint (494-503) and a joint-angle constraint (526-534). -/
inductive IKConstraint where
  | PositionConstraint (A_link : IKLink) (B_localpos : Position)
      (maxError precision weight : Vector6) (eval_localR : Matrix3)
  | COMConstraint (B_localp maxError precision weight : Vector3)
  | AngularMomentumConstraint (targetAngularMomentum maxError precision weight : Vector3)
      (dt : ℚ)
  | JointAngleConstraint (joint : Nat) (maxError weight targetq precision : ℚ)

/-- The joint of a joint-angle constraint. -/
def IKConstraint.jointOf : IKConstraint → Option Nat
  | IKConstraint.JointAngleConstraint joint _ _ _ _ => some joint
  | _ => none

/-- The arguments `solveFullbodyIK` hands to `fik::solveFullbodyIKLoopFast` (538-546): the
task list, the joint-limit weights and the per-DOF step weights. -/
structure IKProblem where
  ikConstraint : List IKConstraint
  jlim_avoid_weight : List ℚ
  dq_weight_all : List ℚ

/-- A loop `for(i...) list.push_back(f(i))` over the indices `is` whose body can read out of
bounds: the values pushed, `none` when one read is out of bounds. -/
def collect {α : Type} (f : Nat → Option α) : List Nat → Option (List α)
  | [] => some []
  | i :: is =>
    match f i with
    | none => none
    | some a =>
      match collect f is with
      | none => none
      | some as => some (a :: as)

/-- Lines 459-461, iteration `i`: `if(jointParams[i].controllable) dq_weight_all[6+i] = 1.0;`,
`none` when an index is out of bounds. -/
def dqWeightAt (jointParams : List JointParam) (dq_weight_all : List ℚ) (i : Nat) :
    Option (List ℚ) :=
  match jointParams[i]? with
  | none => none
  | some jp =>
    if jp.controllable then
      if 6 + i < dq_weight_all.length then some (dq_weight_all.set (6 + i) 1) else none
    else some dq_weight_all

/-- Lines 457-461: the per-DOF step weights. -/
def dqWeightAll (numJoints : Nat) (jointParams : List JointParam) : Option (List ℚ) :=
  let dq0 := List.replicate (6 + numJoints) (0 : ℚ)
  let dq1 := (List.range 6).foldl (fun dq i => dq.set i 1) dq0
  (List.range jointParams.length).foldlM (dqWeightAt jointParams) dq1

/-- Lines 466-478, iteration `i`: the position constraint of end effector `i`. -/
def eefConstraintAt (stTargetPose : List Position) (dt : ℚ) (i : Nat) : Option IKConstraint :=
  match stTargetPose[i]? with
  | none => none
  | some T =>
    some (IKConstraint.PositionConstraint (IKLink.eeParent i) T (fun _ => 10 * dt) (fun _ => 0)
      (if i < NUM_LEGS then fun _ => 9 else fun _ => 1) T.linear)

/-- Lines 526-534, iteration `i`: nothing when joint `i` is not controllable, otherwise the
joint-angle constraint toward the reference angle. -/
def refJointAngleAt (jointParams : List JointParam) (refRobot : Body) (dt : ℚ) (i : Nat) :
    Option (Option IKConstraint) :=
  match jointParams[i]? with
  | none => none
  | some jp =>
    if !jp.controllable then some none
    else
      match refRobot.q[i]? with
      | none => none
      | some q => some (some (IKConstraint.JointAngleConstraint i (10 * dt) (1 / 10) q 0))

/-- The function `AutoStabilizer::solveFullbodyIK` up to the call of the solver: the problem
handed to `fik::solveFullbodyIKLoopFast`, `none` when a read or write is out of bounds.
`name` and `stTargetPose` are the fields of `endEffectorParams`, `genCog` and
`stTargetRootPose` those of `gaitParam`, `jlim_avoid_weight` that of `fullbodyIKParam`; the
number of joints `genRobot->numJoints()` is the length of `genRobot.q`. -/
def solveFullbodyIK (genRobot refRobot : Body) (name : List String)
    (stTargetPose : List Position) (jlim_avoid_weight : List ℚ) (dt : ℚ)
    (jointParams : List JointParam) (genCog : Vector3) (stTargetRootPose : Position) :
    Option IKProblem :=
  let numJoints := genRobot.q.length
  let jlim := if jlim_avoid_weight.length ≠ 6 + numJoints
    then List.replicate (6 + numJoints) (0 : ℚ) else jlim_avoid_weight
  match dqWeightAll numJoints jointParams with
  | none => none
  | some dq_weight_all =>
    match collect (eefConstraintAt stTargetPose dt) (List.range name.length) with
    | none => none
    | some eef =>
      let com := IKConstraint.COMConstraint genCog (fun _ => 10 * dt) (fun _ => 0) (fun _ => 3)
      let am := IKConstraint.AngularMomentumConstraint 0 (fun _ => 1 * dt) (fun _ => 0)
        ![1 / 10000, 1 / 10000, 0] dt
      let root := IKConstraint.PositionConstraint IKLink.rootLink stTargetRootPose
        (fun _ => 10 * dt) (fun _ => 0) ![0, 0, 0, 3, 3, 3] 1
      match collect (refJointAngleAt jointParams refRobot dt) (List.range numJoints) with
      | none => none
      | some ref =>
        some { ikConstraint := eef ++ [com, am, root] ++ ref.reduceOption
               jlim_avoid_weight := jlim
               dq_weight_all := dq_weight_all }

/-! ## `onExecute` (AutoStabilizer.cpp 654-681) -/

/-- The members of the component as `onExecute` works on them: the loop counter, the in-ports
with the input mirrors `readInPortData` writes, the mode, the generated robot, the gait
parameters, the output interpolators, the data of the out-ports and the samples the
`write()` calls of `writeOutPortData` have sent so far.  `pipeline` holds the remaining
members the balancing pipeline works on (the other robot snapshots, the end-effector
parameters, the converters, the generators, the impedance controller, the stabilizer and the
IK parameters); `P` is their type and `G` the type of `GaitParam`. -/
structure Component (I G P : Type) where
  loop_ : Nat
  ins : InState
  mode_ : ControlMode
  genRobot_ : Body
  gaitParam_ : G
  outputOffsetInterpolators_ : OutputOffsetInterpolators I
  outPorts : OutPorts
  written : List OutPorts
  pipeline : P

/-- The functions lines 662-675 call, taken as parameters: `mode_.update(dt_)`,
`refToGenFrameConverter_.update(dt_)`, `cnoidbodyutil::copyRobotState(refRobotRaw_,
genRobot_)`, the four `reset()` calls of lines 669-672, and the calls of
`execAutoStabilizer` and `solveFullbodyIK`, each given by the members it leaves. -/
structure TickOps (G P : Type) where
  update : ControlMode → ℚ → ControlMode
  converterUpdate : P → ℚ → P
  copyRobotState : InState → Body → Body
  reset : P → P
  execAutoStabilizer : ControlMode → InState → ℚ → Body × G × P → Body × G × P
  solveFullbodyIK : InState → ℚ → Body × G × P → Body × G × P

/-- The function `AutoStabilizer::onExecute`: the return code and the new members, `none`
when `readInPortData` reads out of bounds. -/
def onExecute {I G P : Type} (ops : TickOps G P) (baseOps : BaseOps I) (dt_ : ℚ)
    (c : Component I G P) : Option (ReturnCode_t × Component I G P) :=
  let loop_ := c.loop_ + 1
  match readInPortData c.ins with
  | none => none
  | some (qRef_updated, ins) =>
    if !qRef_updated then some (ReturnCode_t.RTC_OK, { c with loop_ := loop_, ins := ins })
    else
      let mode_ := ops.update c.mode_ dt_
      let p1 := ops.converterUpdate c.pipeline dt_
      let r :=
        if !mode_.isABCRunning then (ops.copyRobotState ins c.genRobot_, c.gaitParam_, p1)
        else
          let p2 := if mode_.isSyncToABCInit then ops.reset p1 else p1
          ops.solveFullbodyIK ins dt_
            (ops.execAutoStabilizer mode_ ins dt_ (c.genRobot_, c.gaitParam_, p2))
      let w := writeOutPortData baseOps c.outPorts r.1 mode_ c.outputOffsetInterpolators_ dt_
      some (ReturnCode_t.RTC_OK,
        { loop_ := loop_, ins := ins, mode_ := mode_, genRobot_ := r.1, gaitParam_ := r.2.1,
          outputOffsetInterpolators_ := w.2, outPorts := w.1,
          written := c.written ++ [w.1], pipeline := r.2.2 })

/-! ## Predicates used in the statements -/

/-- Every new actual-wrench sample of length 6 finds, at its own index, a reference-wrench
buffer holding at least six values once the reference wrenches of this tick are read. -/
def ActWrenchReadable (s : InState) : Prop :=
  ∀ (i : Nat) (a : ActWrenchIn) (d : List Dbl), s.actWrench[i]? = some a →
    a.m_actWrenchIn_ = some d → d.length = 6 →
    ∃ e, s.refWrench[i]? = some e ∧ 6 ≤ (readRefWrenchAt e).m_refWrench_.length

/-- Index `i` is the first end effector named `n`. -/
def IsFirstNamed (names : List String) (n : String) (i : Nat) : Prop :=
  names[i]? = some n ∧ ∀ k, k < i → names[k]? ≠ some n

/-- A rotation matrix: orthogonal with determinant 1. -/
def IsRotation (m : Matrix3) : Prop := m.transpose * m = 1 ∧ m.det = 1

/-- The XY projection of a point, as a point of the plane. -/
def xy (v : Vector3) : ℚ × ℚ := (v 0, v 1)

/-- The vector product, in the XY plane, of `b - a` and `c - a`: positive when `c` lies
strictly to the left of the line from `a` to `b`. -/
def edgeCross (a b c : Vector3) : ℚ :=
  (b 0 - a 0) * (c 1 - a 1) - (b 1 - a 1) * (c 0 - a 0)

/-- The closed polygon spanned by a hull: the convex hull of the XY projections of its
vertices. -/
def InClosedPolygon (p : Vector3) (hull : List Vector3) : Prop :=
  xy p ∈ convexHull ℚ {q : ℚ × ℚ | ∃ h ∈ hull, q = xy h}

/-- The vertices of a convex polygon listed counter-clockwise: every vertex other than the
two ends of an edge lies strictly to the left of that edge. -/
def ConvexCCW (hull : List Vector3) : Prop :=
  ∀ i k, i < hull.length → k < hull.length → k ≠ i → k ≠ (i + 1) % hull.length →
    0 < edgeCross (hull.getD i 0) (hull.getD ((i + 1) % hull.length) 0) (hull.getD k 0)

/-- Two points with the same X and Y coordinates. -/
def SameXY (a b : Vector3) : Prop := a 0 = b 0 ∧ a 1 = b 1

/-- The lists of the end-effector parameters hold one entry per end effector. -/
def EndEffectorParamExec.Sized (e : EndEffectorParamExec) : Prop :=
  e.icOffset.length = e.name.length ∧ e.refPose.length = e.name.length ∧
    e.stOffset.length = e.name.length ∧ e.icTargetPose.length = e.name.length ∧
    e.abcTargetPose.length = e.name.length ∧ e.stTargetPose.length = e.name.length

/-- The impedance controller and the stabilizer return as many offsets as they are given. -/
def ExecOps.KeepsSize {G : Type} (ops : ExecOps G) : Prop :=
  (∀ dt e, (ops.calcImpedanceControl dt e).length = e.icOffset.length) ∧
    ∀ g e dt rpy, (ops.execStabilizer g e dt rpy).2.length = e.stOffset.length

/-- The sum of the weights that are positive. -/
def positiveWeightSum (weights : List ℚ) : ℚ :=
  (weights.filter (fun w => decide (0 < w))).sum

/-- The sum of the points of positive weight, each multiplied by its weight. -/
def positiveWeightedSum (coords : List Vector3) (weights : List ℚ) : Vector3 :=
  (((coords.zip weights).filter (fun cw => decide (0 < cw.2))).map (fun cw => cw.2 • cw.1)).sum

/-- The squared distance of two points of the plane. -/
def sqDist (a b : ℚ × ℚ) : ℚ := (a.1 - b.1) ^ 2 + (a.2 - b.2) ^ 2

/-- Edge `i` of a hull in the XY plane: the closed segment between the projections of vertex
`i` and of the next vertex, wrapping around. -/
def hullEdge (hull : List Vector3) (i : Nat) : Set (ℚ × ℚ) :=
  segment ℚ (xy (hull.getD i 0)) (xy (hull.getD ((i + 1) % hull.length) 0))

/-- The point the loop body of `calcNearestPointOfHull` (128-149) takes for the edge from
`p1` to `p2`: `p1`, `p2`, or the foot `p3` of the perpendicular from `p`. -/
def nearestOnSegment (p p1 p2 : mathutil.Vector2) : mathutil.Vector2 :=
  if mathutil.dot2 (p2 - p1) (p - p1) ≤ 0 then p1
  else if mathutil.dot2 (p2 - p1) (p - p1) ≥ mathutil.dot2 (p2 - p1) (p2 - p1) then p2
  else p1 + mathutil.dotUnitTimesUnit (p - p1) (p2 - p1)

/-- The point the loop body of `calcNearestPointOfHull` takes for edge `i` of the hull. -/
def nearestOnEdge (p : Vector3) (hull : List Vector3) (i : Nat) : mathutil.Vector2 :=
  nearestOnSegment (mathutil.head2 p) (mathutil.head2 (hull.getD i 0))
    (mathutil.head2 (hull.getD ((i + 1) % hull.length) 0))

/-- The vertices of a hull listed counter-clockwise around a convex region: every vertex lies
on the left of, or on, the line through every edge. -/
def WeaklyConvexCCW (hull : List Vector3) : Prop :=
  ∀ i k, i < hull.length → k < hull.length →
    0 ≤ edgeCross (hull.getD i 0) (hull.getD ((i + 1) % hull.length) 0) (hull.getD k 0)

/-! ## Concrete inputs -/

/-- A tick with one end effector and one force sensor: the reference-wrench buffer holds a NaN
at index 3, the new actual-wrench sample a NaN at index 2. -/
def c1State : InState :=
  { m_qRefIn_ := none, m_qRef_ := [], m_refTauIn_ := none, m_refTau_ := [],
    m_refBasePosIn_ := none, m_refBasePos_ := (Dbl.fin 0, Dbl.fin 0, Dbl.fin 0),
    m_qActIn_ := none, m_qAct_ := [], m_dqActIn_ := none, m_dqAct_ := [],
    refRobotRaw_q := [], refRobotRaw_u := [], refRobotRaw_p := (Dbl.fin 0, Dbl.fin 0, Dbl.fin 0),
    actRobotRaw_q := [], actRobotRaw_dq := [],
    refWrench := [{ m_refWrenchIn_ := none,
                    m_refWrench_ := [Dbl.fin 0, Dbl.fin 0, Dbl.fin 0, Dbl.nan, Dbl.fin 0, Dbl.fin 0],
                    refWrenchOrigin := fun _ => Dbl.fin 0 }],
    actWrench := [{ m_actWrenchIn_ := some [Dbl.fin 1, Dbl.fin 1, Dbl.nan, Dbl.fin 1, Dbl.fin 1, Dbl.fin 1],
                    m_actWrench_ := [], F := fun _ => Dbl.fin 0 }] }


/-- A tick with two joints: the new reference sample holds a finite value and a NaN; one
force sensor receives a new sample and finds a reference-wrench buffer of six values. -/
def c2State : InState :=
  { m_qRefIn_ := some [Dbl.fin 1, Dbl.nan], m_qRef_ := [],
    m_refTauIn_ := none, m_refTau_ := [],
    m_refBasePosIn_ := none, m_refBasePos_ := (Dbl.fin 0, Dbl.fin 0, Dbl.fin 0),
    m_qActIn_ := none, m_qAct_ := [], m_dqActIn_ := none, m_dqAct_ := [],
    refRobotRaw_q := [Dbl.fin 5, Dbl.fin 7], refRobotRaw_u := [Dbl.fin 0, Dbl.fin 0],
    refRobotRaw_p := (Dbl.fin 0, Dbl.fin 0, Dbl.fin 0),
    actRobotRaw_q := [Dbl.fin 0, Dbl.fin 0], actRobotRaw_dq := [Dbl.fin 0, Dbl.fin 0],
    refWrench := [{ m_refWrenchIn_ := none,
                    m_refWrench_ := [Dbl.fin 0, Dbl.fin 0, Dbl.fin 0, Dbl.fin 0, Dbl.fin 0, Dbl.fin 0],
                    refWrenchOrigin := fun _ => Dbl.fin 0 }],
    actWrench := [{ m_actWrenchIn_ := some [Dbl.fin 1, Dbl.fin 1, Dbl.fin 1, Dbl.fin 1, Dbl.fin 1, Dbl.fin 1],
                    m_actWrench_ := [], F := fun _ => Dbl.fin 0 }] }

/-- A component at rest: mode IDLE, two legs and one arm, no effector in impedance mode. -/
def idleState : State :=
  { mode_ := { current := Mode_enum.MODE_IDLE, previous := Mode_enum.MODE_IDLE,
               next := Mode_enum.MODE_IDLE, remain_time := 0 }
    footStepGenerator_ := { isGoVelocityMode := false, cmdVel := 0 }
    endEffectorParams_ :=
      { name := ["rleg", "lleg", "rarm"]
        icOffset := List.replicate 3 { x := 0, v := 0, a := 0, goal := 0, remain := 0 } }
    impedanceController_ := { isImpedanceMode := [false, false, false] } }

/-- The same component while balancing (mode ABC). -/
def abcState : State :=
  { idleState with
    mode_ := { current := Mode_enum.MODE_ABC, previous := Mode_enum.MODE_ABC,
               next := Mode_enum.MODE_ABC, remain_time := 0 } }

/-- The balancing component with the arm `rarm` in impedance mode and a nonzero offset. -/
def impedanceState : State :=
  { abcState with
    endEffectorParams_ :=
      { name := ["rleg", "lleg", "rarm"]
        icOffset :=
          [{ x := 0, v := 0, a := 0, goal := 0, remain := 0 },
           { x := 0, v := 0, a := 0, goal := 0, remain := 0 },
           { x := ![1, 0, 0, 0, 0, 0], v := 0, a := 0, goal := ![1, 0, 0, 0, 0, 0],
             remain := 0 }] }
    impedanceController_ := { isImpedanceMode := [false, false, true] } }

/-- A stand-in for the library functions of the base-pose block, used to run
`writeOutPortData` on concrete inputs whose joint outputs are examined: no rotation, and an
SE(3) interpolator that holds the value it was reset to. -/
def heldBaseOps : BaseOps Position :=
  { rotFromRpy := fun _ _ _ => 1
    rpyFromRot := fun _ => 0
    reset := fun _ v => v
    setGoal := fun ip _ _ => ip
    interpolate := fun ip _ => ip
    value := fun ip => ip }

/-- The first tick of the transition into balancing, 2 seconds of transition left. -/
def syncToABCInitMode : ControlMode :=
  { current := Mode_enum.MODE_SYNC_TO_ABC, previous := Mode_enum.MODE_IDLE,
    next := Mode_enum.MODE_SYNC_TO_ABC, remain_time := 2 }

/-- Port data of the tick before: one joint emitted at angle 1 with torque 0, base pose at
position (1, 2, 3) with zero roll, pitch and yaw. -/
def prevPorts : OutPorts :=
  { m_q_ := [1], m_genTau_ := [0]
    m_genBasePose_ :=
      { position := { x := 1, y := 2, z := 3 }, orientation := { r := 0, p := 0, y := 0 } }
    m_genBaseTform_ := [1, 2, 3, 1, 0, 0, 0, 1, 0, 0, 0, 1]
    m_genBasePos_ := { x := 1, y := 2, z := 3 }
    m_genBaseRpy_ := { r := 0, p := 0, y := 0 } }

/-- A generated robot with one joint at angle 0, torque 0, and the root at the origin. -/
def originBody : Body := { q := [0], u := [0], rootT := Position.Identity }

/-- Interpolators after the first call: one zero interpolator per joint. -/
def restInterpolators : OutputOffsetInterpolators Position :=
  { qInterpolator := [zeroInterpolator], genTauInterpolator := [zeroInterpolator]
    genBasePoseInterpolator := Position.Identity }

/-- The mode while balancing, no transition running. -/
def abcMode : ControlMode :=
  { current := Mode_enum.MODE_ABC, previous := Mode_enum.MODE_ABC,
    next := Mode_enum.MODE_ABC, remain_time := 0 }

/-- A robot with one force sensor `rfsensor` on link 5; an end effector whose parent link is
link 7 (a child of link 5) carries no sensor itself. -/
def ankleSensors : List ForceSensor := [{ name := "rfsensor", link := 5 }]

/-- A configuration with `dt = 0` and an execution-context rate of 500 Hz: both legs, each
with a force sensor on its parent link. -/
def rateConfig : InitConfig :=
  { dt := 0, rate := 500, modelLoaded := true
    forceSensors := [{ name := "rfsensor", link := 5 }, { name := "lfsensor", link := 6 }]
    endEffectors := [{ name := "rleg", parentLink := some 5 },
                     { name := "lleg", parentLink := some 6 }] }

/-- A foot tilted about the X axis by the angle of cosine 3/5 and sine 4/5. -/
def tiltedRotation : Matrix3 :=
  !![1, 0, 0;
     0, 3 / 5, -(4 / 5);
     0, 4 / 5, 3 / 5]

/-- A stand-in for the angle scaling of `slerp`, exact for the factor 1 (the rotation itself)
and for the factor 0 (the identity); used to run the converters on concrete inputs. -/
def chordScale : mathutil.AngleScale := fun T r => (1 - r) • (1 : Matrix3) + r • T

/-- The neutral stance: feet 0.1 to the right and to the left of the origin, unrotated. -/
def standPose (leg : Nat) : Position :=
  { linear := 1, translation := if leg = RLEG then ![0, -(1 / 10), 0] else ![0, 1 / 10, 0] }

/-- A footstep node with both legs in support at the neutral stance, 1 second left. -/
def standNode : FootstepNode :=
  { dstCoords := standPose, isSupportPhase := fun _ => true, remainTime := 1 }

/-- A footstep node with only the right leg in support, 1 second left. -/
def rightSupportNode : FootstepNode :=
  { dstCoords := standPose, isSupportPhase := fun leg => decide (leg = RLEG), remainTime := 1 }

/-- Gait parameters at the neutral stance: zero centre-of-pressure and neutral offsets, the
queue holding the single double-support node. -/
def standGait : GaitParam Unit :=
  { footstepNodesList := [standNode]
    copOffset := fun _ => 0
    defaultTranslatePos := fun _ => 0
    footMidCoords := ()
    genCog := ![0, 0, 4 / 5]
    l := ![0, 0, 4 / 5] }

/-- Reference-origin weights with the left leg excluded. -/
def rightOnlyWeight (leg : Nat) : ℚ := if leg = RLEG then 1 else 0

/-- A triangular support polygon in the plane Z = 0, listed counter-clockwise. -/
def triangleHull : List Vector3 := [![0, 0, 0], ![2, 0, 0], ![0, 2, 0]]

/-- The same triangle with its vertices moved along Z. -/
def triangleHullLifted : List Vector3 := [![0, 0, 1], ![2, 0, -1], ![0, 2, 3]]

/-- A double-support node one step ahead: the left foot 0.2 further forward, 1 second. -/
def stepAheadNode : FootstepNode :=
  { dstCoords := fun leg =>
      { linear := 1
        translation := if leg = RLEG then ![0, -(1 / 10), 0] else ![1 / 5, 1 / 10, 0] }
    isSupportPhase := fun _ => true
    remainTime := 1 }

/-- Gait parameters in the middle of a step: node 0 has only the right leg in support, node 1
is the double-support node one step ahead. -/
def stepGait : GaitParam Unit :=
  { standGait with footstepNodesList := [rightSupportNode, stepAheadNode] }

/-- Gait parameters whose queue holds only a right-support node. -/
def rightSupportGait : GaitParam Unit :=
  { standGait with footstepNodesList := [rightSupportNode] }

/-- A rational stand-in for `std::cos` and `std::sin`, exact at the angle 0 and on the unit
circle everywhere: the point of the circle with parameter `t`. -/
def circleTrig : Trig :=
  { cos := fun t => (1 - t ^ 2) / (1 + t ^ 2), sin := fun t => 2 * t / (1 + t ^ 2) }

/-- A stand-in for the library functions of `execAutoStabilizer`: the impedance controller and
the stabilizer leave the offsets as they are, the generators leave the gait parameters, which
are the two generated leg poses, as they are. -/
def heldExecOps : ExecOps (Nat → Position) :=
  { trig := circleTrig
    rotFromRpy := fun _ => 1
    calcImpedanceControl := fun _ e => e.icOffset
    calcFootSteps := fun g _ => g
    calcLegCoords := fun g _ => g
    calcCOMCoords := fun g _ => g
    genCoords := fun g => g
    footMidCoords := fun _ => Position.Identity
    execStabilizer := fun _ e _ rpy => (rpy, e.stOffset) }

/-- An interpolator at rest at the value `v`. -/
def restAt (v : Vector6) : TwoPointInterpolator Vector6 :=
  { x := v, v := 0, a := 0, goal := v, remain := 0 }

/-- A state of two legs and one arm: the arm has the impedance offset (1, 0, 0, 0, 0, 0) and
the reference position (0, 0, 1); all stabilizer offsets are zero. -/
def armState : ExecState (Nat → Position) :=
  { endEffectorParams :=
      { name := ["rleg", "lleg", "rarm"]
        icOffset := [restAt 0, restAt 0, restAt ![1, 0, 0, 0, 0, 0]]
        refPose := [standPose RLEG, standPose LLEG, { linear := 1, translation := ![0, 0, 1] }]
        stOffset := [restAt 0, restAt 0, restAt 0]
        icTargetPose := [Position.Identity, Position.Identity, Position.Identity]
        abcTargetPose := [Position.Identity, Position.Identity, Position.Identity]
        stTargetPose := [Position.Identity, Position.Identity, Position.Identity] }
    gaitParam := standPose
    stOffsetRootRpy := { x := 0, v := 0, a := 0, goal := 0, remain := 0 }
    stTargetRootPose := Position.Identity }

/-- A generated robot with two joints. -/
def twoJointBody : Body := { q := [0, 0], u := [0, 0], rootT := Position.Identity }

/-- A reference robot with two joints at the angles 1/2 and 1/3. -/
def twoJointRef : Body := { q := [1 / 2, 1 / 3], u := [0, 0], rootT := Position.Identity }

/-- Joint parameters of two joints: the first controllable, the second not. -/
def mixedJointParams : List JointParam :=
  [{ name := "j0", maxTorque := 1, controllable := true },
   { name := "j1", maxTorque := 1, controllable := false }]

/-- Reference-origin weights 1 for the right leg and 1/2 for the left leg. -/
def rightHeavyWeight (leg : Nat) : ℚ := if leg = RLEG then 1 else 1 / 2

/-- A footstep node with neither leg in support (flight phase), 1 second left. -/
def flightNode : FootstepNode :=
  { dstCoords := standPose, isSupportPhase := fun _ => false, remainTime := 1 }

/-- Gait parameters whose queue holds only a flight-phase node. -/
def flightGait : GaitParam Unit :=
  { standGait with footstepNodesList := [flightNode] }

/-- A right triangle with sides 4, 3 and 5 in the plane Z = 0, listed counter-clockwise. -/
def rightTriangleHull : List Vector3 := [![0, 0, 0], ![4, 0, 0], ![0, 3, 0]]

/-- The tick of `c2State` with a new reference sample of one value for a robot of two
joints. -/
def shortSampleState : InState := { c2State with m_qRefIn_ := some [Dbl.fin 1] }

/-- A stand-in for the functions of the balancing pipeline: each leaves the members as they
are. -/
def heldTickOps : TickOps Unit Unit :=
  { update := fun m _ => m
    converterUpdate := fun p _ => p
    copyRobotState := fun _ b => b
    reset := fun p => p
    execAutoStabilizer := fun _ _ _ r => r
    solveFullbodyIK := fun _ _ r => r }

/-- A component while balancing whose in-ports hold `shortSampleState`. -/
def shortSampleComponent : Component Position Unit Unit :=
  { loop_ := 41, ins := shortSampleState, mode_ := abcMode, genRobot_ := originBody,
    gaitParam_ := (), outputOffsetInterpolators_ := restInterpolators, outPorts := prevPorts,
    written := [], pipeline := () }

/-! ## Auxiliary lemmas -/

theorem copyFiniteAt_length (data t : List Dbl) (i : Nat) :
    (copyFiniteAt data t i).length = t.length := by
  unfold copyFiniteAt
  split
  · split
    · exact List.length_set _ _ _
    · rfl
  · rfl

theorem copyFiniteAt_getElem? (data t : List Dbl) (n i : Nat) :
    (copyFiniteAt data t n)[i]? =
      match data[n]? with
      | some d => if i = n ∧ i < t.length ∧ isfinite d = true then some d else t[i]?
      | none => t[i]? := by
  unfold copyFiniteAt
  cases data[n]? with
  | none => rfl
  | some d =>
    simp only []
    by_cases hf : isfinite d = true
    · simp only [hf, if_true, and_true]
      rw [List.getElem?_set]
      by_cases hin : n = i
      · subst hin
        by_cases ht : n < t.length
        · simp [ht]
        · simp only [ht, and_false, if_false, if_true]
          exact (List.getElem?_eq_none (Nat.le_of_not_lt ht)).symm
      · have hin2 : ¬ i = n := fun h => hin h.symm
        simp [hin, hin2]
    · simp [hf]

theorem copyFiniteUpTo_length (data : List Dbl) (n : Nat) (tgt : List Dbl) :
    (copyFiniteUpTo data n tgt).length = tgt.length := by
  induction n with
  | zero => simp [copyFiniteUpTo]
  | succ n ih =>
    unfold copyFiniteUpTo at ih ⊢
    rw [List.range_succ, List.foldl_append]
    simp only [List.foldl_cons, List.foldl_nil]
    rw [copyFiniteAt_length]
    exact ih

theorem copyFiniteUpTo_getElem? (data : List Dbl) (n : Nat) (tgt : List Dbl) (i : Nat) :
    (copyFiniteUpTo data n tgt)[i]? =
      match data[i]? with
      | some d => if i < n ∧ i < tgt.length ∧ isfinite d = true then some d else tgt[i]?
      | none => tgt[i]? := by
  induction n with
  | zero => cases h : data[i]? <;> simp [copyFiniteUpTo]
  | succ n ih =>
    have hlen := copyFiniteUpTo_length data n tgt
    unfold copyFiniteUpTo at ih hlen ⊢
    rw [List.range_succ, List.foldl_append]
    simp only [List.foldl_cons, List.foldl_nil]
    rw [copyFiniteAt_getElem?, hlen, ih]
    by_cases hin : i = n
    · subst hin
      cases hd : data[i]? with
      | none => rfl
      | some d =>
        simp only [lt_irrefl, false_and, if_false, true_and, Nat.lt_succ_self]
    · cases hn : data[n]? with
      | none =>
        simp only []
        cases hd : data[i]? with
        | none => rfl
        | some d =>
          have : (i < n + 1) ↔ (i < n) := by omega
          simp only [this]
      | some dn =>
        simp only [hin, false_and, if_false]
        cases hd : data[i]? with
        | none => rfl
        | some d =>
          have : (i < n + 1) ↔ (i < n) := by omega
          simp only [this]

theorem foldlM_isSome {α β : Type} (f : β → α → Option β)
    (hf : ∀ b a, ∃ b1, f b a = some b1) (l : List α) (b : β) :
    ∃ b1, l.foldlM f b = some b1 := by
  induction l generalizing b with
  | nil => exact ⟨b, rfl⟩
  | cons a l ih =>
    obtain ⟨b1, hb1⟩ := hf b a
    obtain ⟨b2, hb2⟩ := ih b1
    exact ⟨b2, by simp [List.foldlM, hb1, hb2]⟩

theorem actWrenchLoop_isSome (refWrench : List RefWrenchIn) (i : Nat) (act : List Dbl)
    (F : Vector6D) (e : RefWrenchIn) (he : refWrench[i]? = some e)
    (hlen : 6 ≤ e.m_refWrench_.length) (hact : act.length = 6) :
    ∃ F1, actWrenchLoop refWrench i act F = some F1 := by
  unfold actWrenchLoop
  apply foldlM_isSome
  intro G j
  unfold actWrenchComponent
  rw [he]
  have h1 : j.val < e.m_refWrench_.length := lt_of_lt_of_le j.isLt hlen
  have h2 : j.val < act.length := by rw [hact]; exact j.isLt
  simp only [List.getElem?_eq_getElem h1, List.getElem?_eq_getElem h2]
  exact ⟨_, rfl⟩

theorem readActWrenchFrom_isSome (refWrench : List RefWrenchIn) (l : List ActWrenchIn)
    (i : Nat)
    (h : ∀ (k : Nat) (a : ActWrenchIn) (d : List Dbl), l[k]? = some a →
      a.m_actWrenchIn_ = some d → d.length = 6 →
      ∃ e, refWrench[i + k]? = some e ∧ 6 ≤ e.m_refWrench_.length) :
    ∃ l1, readActWrenchFrom refWrench i l = some l1 := by
  induction l generalizing i with
  | nil => exact ⟨[], rfl⟩
  | cons a rest ih =>
    have hrest : ∃ l1, readActWrenchFrom refWrench (i + 1) rest = some l1 := by
      apply ih
      intro k b d hb hd hl
      have := h (k + 1) b d (by simpa using hb) hd hl
      rw [show i + 1 + k = i + (k + 1) by omega]
      exact this
    obtain ⟨l1, hl1⟩ := hrest
    have ha : ∃ a1, readActWrenchAt refWrench i a = some a1 := by
      unfold readActWrenchAt
      cases hin : a.m_actWrenchIn_ with
      | none => exact ⟨a, rfl⟩
      | some d =>
        simp only []
        by_cases hd : d.length = 6
        · obtain ⟨e, he, hlen⟩ := h 0 a d (by simp) hin hd
          obtain ⟨F1, hF1⟩ := actWrenchLoop_isSome refWrench i d a.F e (by simpa using he) hlen hd
          simp [hd, hF1]
        · simp [hd]
    obtain ⟨a1, ha1⟩ := ha
    exact ⟨a1 :: l1, by simp [readActWrenchFrom, ha1, hl1]⟩

theorem readRefTau_q (s : InState) : (readRefTau s).refRobotRaw_q = s.refRobotRaw_q := by
  unfold readRefTau
  split
  · rfl
  · simp only []
    split <;> rfl

theorem readRefBasePos_q (s : InState) : (readRefBasePos s).refRobotRaw_q = s.refRobotRaw_q := by
  unfold readRefBasePos
  split
  · rfl
  · simp only []
    split <;> rfl

theorem readQAct_q (s : InState) : (readQAct s).refRobotRaw_q = s.refRobotRaw_q := by
  unfold readQAct
  split
  · rfl
  · simp only []
    split <;> rfl

theorem readDqAct_q (s : InState) : (readDqAct s).refRobotRaw_q = s.refRobotRaw_q := by
  unfold readDqAct
  split
  · rfl
  · simp only []
    split <;> rfl

theorem readQRef_wrench (s : InState) :
    (readQRef s).2.refWrench = s.refWrench ∧ (readQRef s).2.actWrench = s.actWrench := by
  unfold readQRef
  split
  · exact ⟨rfl, rfl⟩
  · simp only []
    split <;> exact ⟨rfl, rfl⟩

theorem readRefTau_wrench (s : InState) :
    (readRefTau s).refWrench = s.refWrench ∧ (readRefTau s).actWrench = s.actWrench := by
  unfold readRefTau
  split
  · exact ⟨rfl, rfl⟩
  · simp only []
    split <;> exact ⟨rfl, rfl⟩

theorem readRefBasePos_wrench (s : InState) :
    (readRefBasePos s).refWrench = s.refWrench ∧
      (readRefBasePos s).actWrench = s.actWrench := by
  unfold readRefBasePos
  split
  · exact ⟨rfl, rfl⟩
  · simp only []
    split <;> exact ⟨rfl, rfl⟩

theorem readQAct_wrench (s : InState) :
    (readQAct s).refWrench = s.refWrench ∧ (readQAct s).actWrench = s.actWrench := by
  unfold readQAct
  split
  · exact ⟨rfl, rfl⟩
  · simp only []
    split <;> exact ⟨rfl, rfl⟩

theorem readDqAct_wrench (s : InState) :
    (readDqAct s).refWrench = s.refWrench ∧ (readDqAct s).actWrench = s.actWrench := by
  unfold readDqAct
  split
  · exact ⟨rfl, rfl⟩
  · simp only []
    split <;> exact ⟨rfl, rfl⟩

theorem readRefWrench_q (s : InState) : (readRefWrench s).refRobotRaw_q = s.refRobotRaw_q :=
  rfl

/-- The result of `readInPortData` when the actual-wrench loop stays in bounds: the flag and
the reference joint angles are those the reference-joint-angle block leaves. -/
theorem readInPortData_eq (s : InState) (hs : ActWrenchReadable s) :
    ∃ s1, readInPortData s = some ((readQRef s).1, s1) ∧
      s1.refRobotRaw_q = (readQRef s).2.refRobotRaw_q := by
  have hsome : ∃ aw, readActWrenchFrom
      (readDqAct (readQAct (readRefWrench (readRefBasePos (readRefTau (readQRef s).2))))).refWrench
      0
      (readDqAct (readQAct (readRefWrench (readRefBasePos (readRefTau (readQRef s).2))))).actWrench
      = some aw := by
    apply readActWrenchFrom_isSome
    intro k a d ha hd hl
    rw [(readDqAct_wrench _).2, (readQAct_wrench _).2] at ha
    have ha2 : s.actWrench[k]? = some a := by
      rw [← (readQRef_wrench s).2, ← (readRefTau_wrench _).2, ← (readRefBasePos_wrench _).2]
      exact ha
    obtain ⟨e, he, hlen⟩ := hs k a d ha2 hd hl
    refine ⟨readRefWrenchAt e, ?_, hlen⟩
    rw [(readDqAct_wrench _).1, (readQAct_wrench _).1]
    show (List.map readRefWrenchAt (readRefBasePos (readRefTau (readQRef s).2)).refWrench)[0 + k]?
      = some (readRefWrenchAt e)
    rw [(readRefBasePos_wrench _).1, (readRefTau_wrench _).1, (readQRef_wrench _).1,
      List.getElem?_map, Nat.zero_add, he]
    rfl
  obtain ⟨aw, haw⟩ := hsome
  refine ⟨{ readDqAct (readQAct (readRefWrench (readRefBasePos (readRefTau (readQRef s).2))))
      with actWrench := aw }, ?_, ?_⟩
  · unfold readInPortData
    simp only [haw]
  · show (readDqAct (readQAct (readRefWrench (readRefBasePos
      (readRefTau (readQRef s).2))))).refRobotRaw_q = _
    rw [readDqAct_q, readQAct_q, readRefWrench_q, readRefBasePos_q, readRefTau_q]

/-! ## C1: the actual-wrench loop -/

/-- C1 (evaluation at the failing input).  One sensor, reference-wrench buffer of the same
index finite except for a NaN at component 3, new actual-wrench sample `(1, 1, NaN, 1, 1, 1)`,
stored wrench zero: `readInPortData` stores the NaN of component 2 (the tested
reference-wrench value is finite) and drops the finite value 1 of component 3 (the tested
reference-wrench value is NaN). -/
theorem readInPortData_actWrench_tests_refWrench :
    (readInPortData c1State).map
        (fun r => r.2.actWrench.map (fun a => (List.finRange 6).map a.F)) =
      some [[Dbl.fin 1, Dbl.fin 1, Dbl.nan, Dbl.fin 0, Dbl.fin 1, Dbl.fin 1]] := by
  rfl

/-! ## C2: the reference joint angles -/

/-- C2.  When the actual-wrench loop stays in bounds `readInPortData` returns, and for a new
reference joint-angle sample `d`: if `d` has one entry per joint the result is true, the
number of joints is kept and joint `i` holds `d[i]` when `d[i]` is finite and its previous
angle otherwise; if `d` has any other length the result is false and no reference joint
angle changes. -/
theorem readInPortData_qRef (s : InState) (hs : ActWrenchReadable s) :
    ∃ r s1, readInPortData s = some (r, s1) ∧
      ∀ d, s.m_qRefIn_ = some d →
        (d.length = s.refRobotRaw_q.length →
          r = true ∧ s1.refRobotRaw_q.length = s.refRobotRaw_q.length ∧
          ∀ (i : Nat) (x : Dbl), d[i]? = some x →
            s1.refRobotRaw_q[i]? = if isfinite x then some x else s.refRobotRaw_q[i]?) ∧
        (d.length ≠ s.refRobotRaw_q.length →
          r = false ∧ s1.refRobotRaw_q = s.refRobotRaw_q) := by
  obtain ⟨s1, hret, hq⟩ := readInPortData_eq s hs
  refine ⟨(readQRef s).1, s1, hret, ?_⟩
  intro d hd
  constructor
  · intro hlen
    have hr : (readQRef s).1 = true ∧
        (readQRef s).2.refRobotRaw_q = copyFiniteUpTo d d.length s.refRobotRaw_q := by
      unfold readQRef
      rw [hd]
      simp only [hlen, if_true, and_self]
    rw [hr.2] at hq
    refine ⟨hr.1, ?_, ?_⟩
    · rw [hq, copyFiniteUpTo_length]
    · intro i x hx
      rw [hq, copyFiniteUpTo_getElem?, hx]
      simp only []
      have hi : i < d.length := by
        by_contra hcon
        rw [List.getElem?_eq_none (Nat.le_of_not_lt hcon)] at hx
        exact Option.noConfusion hx
      have hi2 : i < s.refRobotRaw_q.length := hlen ▸ hi
      simp only [hi, hi2, true_and]
  · intro hlen
    have hr : (readQRef s).1 = false ∧ (readQRef s).2.refRobotRaw_q = s.refRobotRaw_q := by
      unfold readQRef
      rw [hd]
      simp only [hlen, if_false, and_self]
    rw [hr.2] at hq
    exact ⟨hr.1, hq⟩

theorem c2State_readable : ActWrenchReadable c2State := by
  intro i a d ha _ _
  cases i with
  | zero =>
    exact ⟨_, rfl, by decide⟩
  | succ k =>
    exfalso
    simp [c2State] at ha

/-- C2, witness: two joints holding (5, 7), new sample (1, NaN). -/
theorem readInPortData_qRef_witness :
    ActWrenchReadable c2State ∧
    ∃ r s1, readInPortData c2State = some (r, s1) ∧
      ∀ d, c2State.m_qRefIn_ = some d →
        (d.length = c2State.refRobotRaw_q.length →
          r = true ∧ s1.refRobotRaw_q.length = c2State.refRobotRaw_q.length ∧
          ∀ (i : Nat) (x : Dbl), d[i]? = some x →
            s1.refRobotRaw_q[i]? = if isfinite x then some x else c2State.refRobotRaw_q[i]?) ∧
        (d.length ≠ c2State.refRobotRaw_q.length →
          r = false ∧ s1.refRobotRaw_q = c2State.refRobotRaw_q) :=
  ⟨c2State_readable, readInPortData_qRef c2State c2State_readable⟩

/-! ## C3: the footstep commands -/

/-- C3 (as amended).  The commands `setFootSteps` and `setFootStepsWithParam` return true for
every footstep sequence, index and control mode, and change no state. -/
theorem setFootSteps_accepts {FSS SPSS : Type} (s : State) (fss : FSS) (spss : SPSS)
    (overwrite_fs_idx : Int) :
    setFootSteps s fss overwrite_fs_idx = (true, s) ∧
      setFootStepsWithParam s fss spss overwrite_fs_idx = (true, s) :=
  ⟨rfl, rfl⟩

/-- C3, counterexample: in mode IDLE balancing is not running, yet both commands return
true for the empty sequence and index 0. -/
theorem setFootSteps_idle_true :
    idleState.mode_.isABCRunning = false ∧
      (setFootSteps idleState ([] : List (List ℚ)) 0).1 = true ∧
      (setFootStepsWithParam idleState ([] : List (List ℚ)) ([] : List (List ℚ)) 0).1 = true := by
  refine ⟨by decide, rfl, rfl⟩

/-! ## C4: the velocity commands -/

/-- C4.  The command `goVelocity` returns true exactly when balancing is running; then the
go-velocity flag is set and the commanded velocity is `(vx, vy, vth * pi / 180)`, the rest of
the state being unchanged; otherwise the state is unchanged.  The command `goStop` returns
true exactly when balancing is running; then the flag is cleared and the commanded velocity
is zero; otherwise the state is unchanged. -/
theorem goVelocity_goStop_spec (M_PI : ℚ) (s : State) (vx vy vth : ℚ) :
    (goVelocity M_PI s vx vy vth).1 = s.mode_.isABCRunning ∧
      (goVelocity M_PI s vx vy vth).2 =
        (if s.mode_.isABCRunning = true then
          { s with footStepGenerator_ :=
            { isGoVelocityMode := true, cmdVel := ![vx, vy, vth * M_PI / 180] } }
         else s) ∧
      (goStop s).1 = s.mode_.isABCRunning ∧
      (goStop s).2 =
        (if s.mode_.isABCRunning = true then
          { s with footStepGenerator_ := { isGoVelocityMode := false, cmdVel := ![0, 0, 0] } }
         else s) := by
  have h : vth / 180 * M_PI = vth * M_PI / 180 := by ring
  have h0 : (0 : Vector3) = ![0, 0, 0] := by
    funext i
    fin_cases i <;> rfl
  unfold goVelocity goStop
  rw [h, h0]
  cases s.mode_.isABCRunning <;> exact ⟨rfl, rfl, rfl, rfl⟩

/-! ## C5 and C6: the impedance commands -/

theorem isFirstNamed_unique (names : List String) (n : String) (i j : Nat)
    (hi : IsFirstNamed names n i) (hj : IsFirstNamed names n j) : i = j := by
  rcases Nat.lt_trichotomy i j with h | h | h
  · exact absurd hi.1 (hj.2 i h)
  · exact h
  · exact absurd hj.1 (hi.2 j h)

theorem isFirstNamed_cons_ne (a n : String) (names : List String) (j : Nat) (h : a ≠ n)
    (hj : IsFirstNamed names n j) : IsFirstNamed (a :: names) n (j + 1) := by
  refine ⟨by simpa using hj.1, ?_⟩
  intro k hk
  cases k with
  | zero =>
    intro hc
    simp at hc
    exact h hc
  | succ k =>
    have := hj.2 k (by omega)
    simpa using this

theorem isFirstNamed_cons_eq (n : String) (names : List String) :
    IsFirstNamed (n :: names) n 0 :=
  ⟨by simp, fun k hk => absurd hk (Nat.not_lt_zero k)⟩

/-- The loop of `startImpedanceController`: either no effector is named `i_name` and the
loop falls through, or it stops at the first effector so named. -/
theorem startImpedanceFrom_cases (i_name : String) (flags : List Bool) (names : List String)
    (i : Nat) :
    (startImpedanceFrom i_name flags i names = (false, flags) ∧
        ∀ k : Nat, names[k]? ≠ some i_name) ∨
      ∃ j, IsFirstNamed names i_name j ∧
        startImpedanceFrom i_name flags i names =
          if flags.getD (i + j) false = true then (false, flags)
          else (true, flags.set (i + j) true) := by
  induction names generalizing i with
  | nil =>
    left
    refine ⟨rfl, ?_⟩
    intro k
    simp
  | cons a rest ih =>
    by_cases ha : a = i_name
    · right
      subst ha
      refine ⟨0, isFirstNamed_cons_eq a rest, ?_⟩
      simp [startImpedanceFrom]
    · rcases ih (i + 1) with ⟨h1, h2⟩ | ⟨j, hj, h⟩
      · left
        refine ⟨by simp [startImpedanceFrom, ha, h1], ?_⟩
        intro k
        cases k with
        | zero => simpa using ha
        | succ k => simpa using h2 k
      · right
        refine ⟨j + 1, isFirstNamed_cons_ne a i_name rest j ha hj, ?_⟩
        rw [show i + (j + 1) = i + 1 + j by omega, ← h]
        simp [startImpedanceFrom, ha]

/-- C5.  With one impedance flag per end effector, `startImpedanceController` returns true
if and only if balancing is running, some end effector is named `i_name` and the first such
effector is not in impedance mode; on success the flag of that effector becomes true and
nothing else changes; on failure the state is unchanged. -/
theorem startImpedanceController_spec (s : State) (i_name : String)
    (hsize : s.impedanceController_.isImpedanceMode.length = s.endEffectorParams_.name.length) :
    ((startImpedanceController s i_name).1 = true ↔
        s.mode_.isABCRunning = true ∧
          ∃ i, IsFirstNamed s.endEffectorParams_.name i_name i ∧
            s.impedanceController_.isImpedanceMode[i]? = some false) ∧
      ((startImpedanceController s i_name).1 = true →
        ∃ i, IsFirstNamed s.endEffectorParams_.name i_name i ∧
          (startImpedanceController s i_name).2 =
            { s with impedanceController_ :=
              { isImpedanceMode := s.impedanceController_.isImpedanceMode.set i true } } ∧
          (s.impedanceController_.isImpedanceMode.set i true)[i]? = some true ∧
          ∀ k, k ≠ i → (s.impedanceController_.isImpedanceMode.set i true)[k]? =
            s.impedanceController_.isImpedanceMode[k]?) ∧
      ((startImpedanceController s i_name).1 = false →
        (startImpedanceController s i_name).2 = s) := by
  obtain ⟨mode, fsg, ⟨names, ic⟩, ⟨flags⟩⟩ := s
  simp only at hsize
  simp only [startImpedanceController]
  cases hrun : mode.isABCRunning
  · simp
  · simp only [if_true, true_and]
    rcases startImpedanceFrom_cases i_name flags names 0 with ⟨h1, h2⟩ | ⟨j, hj, h⟩
    · rw [h1]
      simp only [Bool.false_eq_true, false_iff, not_exists, not_and, false_implies, true_and,
        implies_true, and_true]
      intro i hi
      exact absurd hi.1 (h2 i)
    · rw [h, Nat.zero_add]
      have hjlt : j < flags.length := by
        rw [hsize]
        by_contra hcon
        have := hj.1
        rw [List.getElem?_eq_none (Nat.le_of_not_lt hcon)] at this
        exact Option.noConfusion this
      have hget : flags.getD j false = flags[j] := List.getD_eq_getElem _ _ hjlt
      have hget? : flags[j]? = some flags[j] := List.getElem?_eq_getElem hjlt
      rw [hget]
      cases hf : flags[j]
      · simp only [Bool.false_eq_true, if_false]
        refine ⟨⟨fun _ => ⟨j, hj, by rw [hget?, hf]⟩, fun _ => trivial⟩, ?_, ?_⟩
        · intro _
          refine ⟨j, hj, rfl, ?_, ?_⟩
          · rw [List.getElem?_set_eq_of_lt _ hjlt]
          · intro k hk
            rw [List.getElem?_set_ne (Ne.symm hk)]
        · intro hc
          exact Bool.noConfusion hc
      · simp only [if_true]
        refine ⟨⟨fun hc => Bool.noConfusion hc, ?_⟩, fun hc => Bool.noConfusion hc, fun _ => trivial⟩
        rintro ⟨i, hi, hfi⟩
        rw [isFirstNamed_unique _ _ _ _ hi hj, hget?, hf] at hfi
        exact Bool.noConfusion (Option.some.inj hfi)

/-- C5, witness: balancing is running and the arm `rarm` is not in impedance mode. -/
theorem startImpedanceController_spec_witness :
    abcState.impedanceController_.isImpedanceMode.length =
        abcState.endEffectorParams_.name.length ∧
    ((startImpedanceController abcState "rarm").1 = true ↔
        abcState.mode_.isABCRunning = true ∧
          ∃ i, IsFirstNamed abcState.endEffectorParams_.name "rarm" i ∧
            abcState.impedanceController_.isImpedanceMode[i]? = some false) ∧
      ((startImpedanceController abcState "rarm").1 = true →
        ∃ i, IsFirstNamed abcState.endEffectorParams_.name "rarm" i ∧
          (startImpedanceController abcState "rarm").2 =
            { abcState with impedanceController_ :=
              { isImpedanceMode := abcState.impedanceController_.isImpedanceMode.set i true } } ∧
          (abcState.impedanceController_.isImpedanceMode.set i true)[i]? = some true ∧
          ∀ k, k ≠ i → (abcState.impedanceController_.isImpedanceMode.set i true)[k]? =
            abcState.impedanceController_.isImpedanceMode[k]?) ∧
      ((startImpedanceController abcState "rarm").1 = false →
        (startImpedanceController abcState "rarm").2 = abcState) :=
  ⟨rfl, startImpedanceController_spec abcState "rarm" rfl⟩

/-- The loop of `stopImpedanceController`: either no effector is named `i_name` and the loop
falls through, or it stops at the first effector so named. -/
theorem stopImpedanceFrom_cases (i_name : String) (flags : List Bool)
    (ic : List (TwoPointInterpolator Vector6)) (names : List String) (i : Nat) :
    (stopImpedanceFrom i_name flags ic i names = (false, flags, ic) ∧
        ∀ k : Nat, names[k]? ≠ some i_name) ∨
      ∃ j, IsFirstNamed names i_name j ∧
        stopImpedanceFrom i_name flags ic i names =
          if flags.getD (i + j) false = true then
            (true, flags.set (i + j) false,
              match ic[i + j]? with
              | some p => ic.set (i + j) (p.setGoal 0 2)
              | none => ic)
          else (false, flags, ic) := by
  induction names generalizing i with
  | nil =>
    left
    refine ⟨rfl, ?_⟩
    intro k
    simp
  | cons a rest ih =>
    by_cases ha : a = i_name
    · right
      subst ha
      refine ⟨0, isFirstNamed_cons_eq a rest, ?_⟩
      simp only [stopImpedanceFrom, ne_eq, not_true_eq_false, if_false, Nat.add_zero]
      cases flags.getD i false <;> rfl
    · rcases ih (i + 1) with ⟨h1, h2⟩ | ⟨j, hj, h⟩
      · left
        refine ⟨by simp [stopImpedanceFrom, ha, h1], ?_⟩
        intro k
        cases k with
        | zero => simpa using ha
        | succ k => simpa using h2 k
      · right
        refine ⟨j + 1, isFirstNamed_cons_ne a i_name rest j ha hj, ?_⟩
        rw [show i + (j + 1) = i + 1 + j by omega, ← h]
        simp [stopImpedanceFrom, ha]

/-- C6.  With one impedance flag and one impedance offset per end effector,
`stopImpedanceController` returns true if and only if balancing is running, some end effector
is named `i_name` and the first such effector is in impedance mode.  On success the flag of
that effector is cleared and its offset keeps its current value, velocity and acceleration and
gets the goal zero with duration 2; every other flag and offset, the names, the mode and the
footstep generator are unchanged.  On failure the state is unchanged. -/
theorem stopImpedanceController_spec (s : State) (i_name : String)
    (hsize : s.impedanceController_.isImpedanceMode.length = s.endEffectorParams_.name.length)
    (hsize2 : s.endEffectorParams_.icOffset.length = s.endEffectorParams_.name.length) :
    ((stopImpedanceController s i_name).1 = true ↔
        s.mode_.isABCRunning = true ∧
          ∃ i, IsFirstNamed s.endEffectorParams_.name i_name i ∧
            s.impedanceController_.isImpedanceMode[i]? = some true) ∧
      ((stopImpedanceController s i_name).1 = true →
        ∃ i p, IsFirstNamed s.endEffectorParams_.name i_name i ∧
          s.endEffectorParams_.icOffset[i]? = some p ∧
          (stopImpedanceController s i_name).2.mode_ = s.mode_ ∧
          (stopImpedanceController s i_name).2.footStepGenerator_ = s.footStepGenerator_ ∧
          (stopImpedanceController s i_name).2.endEffectorParams_.name =
            s.endEffectorParams_.name ∧
          (stopImpedanceController s i_name).2.impedanceController_.isImpedanceMode[i]? =
            some false ∧
          (stopImpedanceController s i_name).2.endEffectorParams_.icOffset[i]? =
            some { x := p.x, v := p.v, a := p.a, goal := 0, remain := 2 } ∧
          ∀ k, k ≠ i →
            (stopImpedanceController s i_name).2.impedanceController_.isImpedanceMode[k]? =
              s.impedanceController_.isImpedanceMode[k]? ∧
            (stopImpedanceController s i_name).2.endEffectorParams_.icOffset[k]? =
              s.endEffectorParams_.icOffset[k]?) ∧
      ((stopImpedanceController s i_name).1 = false →
        (stopImpedanceController s i_name).2 = s) := by
  obtain ⟨mode, fsg, ⟨names, ic⟩, ⟨flags⟩⟩ := s
  simp only at hsize hsize2
  simp only [stopImpedanceController]
  cases hrun : mode.isABCRunning
  · simp
  · simp only [if_true, true_and]
    rcases stopImpedanceFrom_cases i_name flags ic names 0 with ⟨h1, h2⟩ | ⟨j, hj, h⟩
    · rw [h1]
      refine ⟨⟨fun hc => Bool.noConfusion hc, ?_⟩, fun hc => Bool.noConfusion hc, fun _ => rfl⟩
      rintro ⟨i, hi, _⟩
      exact absurd hi.1 (h2 i)
    · rw [h, Nat.zero_add]
      have hjn : j < names.length := by
        by_contra hcon
        have := hj.1
        rw [List.getElem?_eq_none (Nat.le_of_not_lt hcon)] at this
        exact Option.noConfusion this
      have hjlt : j < flags.length := hsize ▸ hjn
      have hjic : j < ic.length := hsize2 ▸ hjn
      have hget : flags.getD j false = flags[j] := List.getD_eq_getElem _ _ hjlt
      have hget? : flags[j]? = some flags[j] := List.getElem?_eq_getElem hjlt
      have hic? : ic[j]? = some ic[j] := List.getElem?_eq_getElem hjic
      rw [hget]
      cases hf : flags[j]
      · rw [if_neg (fun hc => Bool.noConfusion hc)]
        refine ⟨⟨fun hc => Bool.noConfusion hc, ?_⟩, fun hc => Bool.noConfusion hc, fun _ => rfl⟩
        rintro ⟨i, hi, hfi⟩
        rw [isFirstNamed_unique _ _ _ _ hi hj, hget?, hf] at hfi
        exact Bool.noConfusion (Option.some.inj hfi)
      · rw [if_pos rfl, hic?]
        refine ⟨⟨fun _ => ⟨j, hj, by rw [hget?, hf]⟩, fun _ => rfl⟩, ?_, ?_⟩
        · intro _
          refine ⟨j, ic[j], hj, hic?, ?_, ?_, ?_⟩
          · exact List.getElem?_set_eq_of_lt _ hjlt
          · show (ic.set j _)[j]? = _
            rw [List.getElem?_set_eq_of_lt _ hjic]
            rfl
          · intro k hk
            exact ⟨List.getElem?_set_ne (Ne.symm hk), List.getElem?_set_ne (Ne.symm hk)⟩
        · intro hc
          exact Bool.noConfusion hc

/-- C6, witness: balancing is running and the arm `rarm` is in impedance mode. -/
theorem stopImpedanceController_spec_witness :
    impedanceState.impedanceController_.isImpedanceMode.length =
        impedanceState.endEffectorParams_.name.length ∧
    impedanceState.endEffectorParams_.icOffset.length =
        impedanceState.endEffectorParams_.name.length ∧
    (stopImpedanceController impedanceState "rarm").1 = true ∧
    ((stopImpedanceController impedanceState "rarm").1 = true →
        ∃ i p, IsFirstNamed impedanceState.endEffectorParams_.name "rarm" i ∧
          impedanceState.endEffectorParams_.icOffset[i]? = some p ∧
          (stopImpedanceController impedanceState "rarm").2.mode_ = impedanceState.mode_ ∧
          (stopImpedanceController impedanceState "rarm").2.footStepGenerator_ =
            impedanceState.footStepGenerator_ ∧
          (stopImpedanceController impedanceState "rarm").2.endEffectorParams_.name =
            impedanceState.endEffectorParams_.name ∧
          (stopImpedanceController impedanceState "rarm").2.impedanceController_.isImpedanceMode[i]? =
            some false ∧
          (stopImpedanceController impedanceState "rarm").2.endEffectorParams_.icOffset[i]? =
            some { x := p.x, v := p.v, a := p.a, goal := 0, remain := 2 } ∧
          ∀ k, k ≠ i →
            (stopImpedanceController impedanceState "rarm").2.impedanceController_.isImpedanceMode[k]? =
              impedanceState.impedanceController_.isImpedanceMode[k]? ∧
            (stopImpedanceController impedanceState "rarm").2.endEffectorParams_.icOffset[k]? =
              impedanceState.endEffectorParams_.icOffset[k]?) :=
  ⟨rfl, rfl, by decide, (stopImpedanceController_spec impedanceState "rarm" rfl rfl).2.1⟩

/-! ## C7: `startStabilizer` -/

/-- C7.  The command `startStabilizer` returns false exactly when the mode state machine
rejects `START_ST`; it then returns at once, without any `usleep`, and leaves the mode as it
was.  In mode IDLE the request is rejected, so `startStabilizer` returns false and the mode
stays IDLE. -/
theorem startStabilizer_rejected (mode_ : ControlMode) (obs : List ControlMode) :
    ((∃ m k, startStabilizer mode_ obs = some (false, m, k)) ↔
        (mode_.setNextTransition Transition_enum.START_ST).1 = false) ∧
      ((mode_.setNextTransition Transition_enum.START_ST).1 = false →
        startStabilizer mode_ obs = some (false, mode_, 0)) ∧
      (mode_.now = Mode_enum.MODE_IDLE →
        startStabilizer mode_ obs = some (false, mode_, 0) ∧
          (mode_.setNextTransition Transition_enum.START_ST).1 = false) := by
  have hrej : (mode_.setNextTransition Transition_enum.START_ST).1 = false →
      startStabilizer mode_ obs = some (false, mode_, 0) := by
    intro h
    unfold startStabilizer
    simp only [ControlMode.setNextTransition] at h ⊢
    by_cases hc : mode_.current = Mode_enum.MODE_ABC
    · simp [hc] at h
    · simp [hc]
  refine ⟨⟨?_, fun h => ⟨_, _, hrej h⟩⟩, hrej, ?_⟩
  · rintro ⟨m, k, h⟩
    unfold startStabilizer at h
    cases hr : (mode_.setNextTransition Transition_enum.START_ST).1
    · rfl
    · simp only [hr, if_true] at h
      cases hw : waitFor Mode_enum.MODE_ST obs 0 with
      | none => rw [hw] at h; exact Option.noConfusion h
      | some w =>
        rw [hw] at h
        simp only [Option.map_some', Option.some.injEq, Prod.mk.injEq] at h
        exact Bool.noConfusion h.1
  · intro hidle
    have hr : (mode_.setNextTransition Transition_enum.START_ST).1 = false := by
      unfold ControlMode.now at hidle
      simp [ControlMode.setNextTransition, hidle]
    exact ⟨hrej hr, hr⟩

/-- C7, witness: the mode of the component at rest is IDLE. -/
theorem startStabilizer_rejected_witness :
    idleState.mode_.now = Mode_enum.MODE_IDLE ∧
      startStabilizer idleState.mode_ [] = some (false, idleState.mode_, 0) ∧
      (idleState.mode_.setNextTransition Transition_enum.START_ST).1 = false :=
  ⟨rfl, (startStabilizer_rejected idleState.mode_ []).2.2 rfl⟩

/-! ## C8, C9, C10: `writeOutPortData` -/

theorem blendJoints_getElem? (mode : ControlMode) (dt : ℚ) (gen out : List ℚ)
    (ips : List (TwoPointInterpolator ℚ)) (i : Nat) (g : ℚ) (hg : gen[i]? = some g) :
    (blendJoints mode dt gen out ips)[i]? =
      some (blendJoint mode dt (out.getD i 0) g (ips.getD i zeroInterpolator)) := by
  have hi : i < gen.length := by
    by_contra hcon
    rw [List.getElem?_eq_none (Nat.le_of_not_lt hcon)] at hg
    exact Option.noConfusion hg
  have hgd : gen.getD i 0 = g := by
    rw [List.getD_eq_getElem?_getD, hg]
    rfl
  unfold blendJoints
  rw [List.getElem?_map, List.getElem?_range hi, Option.map_some', hgd]

theorem sync_of_init (mode : ControlMode)
    (hinit : mode.isSyncToABCInit = true ∨ mode.isSyncToIdleInit = true) :
    (!mode.isSyncToABC && !mode.isSyncToIdle) = false := by
  unfold ControlMode.isSyncToABCInit ControlMode.isSyncToIdleInit at hinit
  rcases hinit with h | h
  · rw [Bool.and_eq_true] at h
    rw [h.2]
    rfl
  · rw [Bool.and_eq_true] at h
    rw [h.2]
    simp

/-- The joint value emitted on the first tick of a transition: the generated value plus the
offset seeded with `out - gen`, which is `out`. -/
theorem blendJoint_init (mode : ControlMode) (dt out gen : ℚ) (ip : TwoPointInterpolator ℚ)
    (hinit : mode.isSyncToABCInit = true ∨ mode.isSyncToIdleInit = true) :
    (blendJoint mode dt out gen ip).1 = out := by
  have hsync := sync_of_init mode hinit
  have hi : (mode.isSyncToABCInit || mode.isSyncToIdleInit) = true := by
    rcases hinit with h | h <;> simp [h]
  unfold blendJoint
  rw [hsync, hi]
  simp only [Bool.false_eq_true, if_false, if_true, TwoPointInterpolator.get,
    TwoPointInterpolator.setGoal, TwoPointInterpolator.reset]
  ring

theorem writeOutPortData_q_init {I : Type} (ops : BaseOps I) (ports : OutPorts)
    (genRobot : Body) (mode : ControlMode) (o : OutputOffsetInterpolators I) (dt : ℚ)
    (hinit : mode.isSyncToABCInit = true ∨ mode.isSyncToIdleInit = true)
    (i : Nat) (prev gen : ℚ) (hprev : ports.m_q_[i]? = some prev)
    (hgen : genRobot.q[i]? = some gen) :
    (writeOutPortData ops ports genRobot mode o dt).1.m_q_[i]? = some prev := by
  have hp : ports.m_q_.getD i 0 = prev := by
    rw [List.getD_eq_getElem?_getD, hprev]
    rfl
  show (List.map Prod.fst (blendJoints mode dt genRobot.q ports.m_q_ _))[i]? = _
  rw [List.getElem?_map, blendJoints_getElem? mode dt _ _ _ i gen hgen, Option.map_some', hp,
    blendJoint_init mode dt prev gen _ hinit]

theorem blendJoints_direct (mode : ControlMode) (dt : ℚ) (gen out : List ℚ)
    (ips : List (TwoPointInterpolator ℚ)) (h1 : mode.isSyncToABC = false)
    (h2 : mode.isSyncToIdle = false) :
    (blendJoints mode dt gen out ips).map Prod.fst = gen := by
  apply List.ext_getElem?
  intro i
  rw [List.getElem?_map]
  by_cases hi : i < gen.length
  · rw [blendJoints_getElem? mode dt gen out ips i gen[i] (List.getElem?_eq_getElem hi),
      List.getElem?_eq_getElem hi]
    simp [blendJoint, h1, h2]
  · have hlen : (blendJoints mode dt gen out ips).length = gen.length := by
      simp [blendJoints]
    rw [List.getElem?_eq_none (Nat.le_of_not_lt hi),
      List.getElem?_eq_none (by rw [hlen]; exact Nat.le_of_not_lt hi)]
    rfl

/-- C8.  On the tick at which a transition into or out of balancing starts, for every joint
`i` with previous output `prev` and every generated joint angle `gen`, the joint angle
emitted by `writeOutPortData` is `prev`, for every tick period `dt > 0`: the offset is seeded
with `prev - gen`, given the goal 0 over the remaining transition time, handed out and added
to `gen`. -/
theorem writeOutPortData_q_zero_jump {I : Type} (ops : BaseOps I) (ports : OutPorts)
    (genRobot : Body) (mode : ControlMode) (o : OutputOffsetInterpolators I) (dt : ℚ)
    (hinit : mode.isSyncToABCInit = true ∨ mode.isSyncToIdleInit = true) (_hdt : 0 < dt)
    (i : Nat) (prev gen : ℚ) (hprev : ports.m_q_[i]? = some prev)
    (hgen : genRobot.q[i]? = some gen) :
    (writeOutPortData ops ports genRobot mode o dt).1.m_q_[i]? = some prev :=
  writeOutPortData_q_init ops ports genRobot mode o dt hinit i prev gen hprev hgen

/-- C8, witness: one joint, previous output 1, generated angle 0, 2 seconds of transition
left, tick period 1; the emitted joint angle is 1. -/
theorem writeOutPortData_q_zero_jump_witness :
    (syncToABCInitMode.isSyncToABCInit = true ∨ syncToABCInitMode.isSyncToIdleInit = true) ∧
    (0 : ℚ) < 1 ∧ prevPorts.m_q_[0]? = some 1 ∧ originBody.q[0]? = some 0 ∧
    (writeOutPortData heldBaseOps prevPorts originBody syncToABCInitMode
      restInterpolators 1).1.m_q_[0]? = some 1 :=
  ⟨Or.inl (by decide), by norm_num, rfl, rfl,
    writeOutPortData_q_zero_jump heldBaseOps prevPorts originBody syncToABCInitMode
      restInterpolators 1 (Or.inl (by decide)) (by norm_num) 0 1 0 rfl rfl⟩

/-- C9 (evaluation at the failing input).  First tick of the transition into balancing,
previous base pose at position (1, 2, 3), generated root at the origin: whatever the library
functions, the interpolators and the tick period are, `writeOutPortData` emits the generated
root position (0, 0, 0) and does not touch the base-pose offset interpolator: the offset is
not seeded and the base position jumps. -/
theorem writeOutPortData_basePose_not_blended {I : Type} (ops : BaseOps I)
    (o : OutputOffsetInterpolators I) (dt : ℚ) :
    syncToABCInitMode.isSyncToABCInit = true ∧
      prevPorts.m_genBasePose_.position = { x := 1, y := 2, z := 3 } ∧
      (writeOutPortData ops prevPorts originBody syncToABCInitMode o dt).1.m_genBasePose_.position
        = { x := 0, y := 0, z := 0 } ∧
      (writeOutPortData ops prevPorts originBody syncToABCInitMode o dt).1.m_genBasePos_
        = { x := 0, y := 0, z := 0 } ∧
      (writeOutPortData ops prevPorts originBody syncToABCInitMode o dt).2.genBasePoseInterpolator
        = o.genBasePoseInterpolator := by
  have hb : blendBasePose ops prevPorts.m_genBasePose_ originBody syncToABCInitMode
      (initInterpolators originBody o).genBasePoseInterpolator dt =
      (Position.Identity, o.genBasePoseInterpolator) := by
    have ho : (initInterpolators originBody o).genBasePoseInterpolator =
        o.genBasePoseInterpolator := by
      unfold initInterpolators
      split <;> rfl
    rw [ho]
    rfl
  refine ⟨by decide, rfl, ?_, ?_, ?_⟩
  · unfold writeOutPortData
    simp only [hb]
    rfl
  · unfold writeOutPortData
    simp only [hb]
    rfl
  · unfold writeOutPortData
    simp only [hb]

/-- C10.  On a tick in which the mode is neither in the transition into balancing nor in the
transition out of it, the emitted joint angles are the generated robot's joint angles and
the emitted joint torques are its joint torques. -/
theorem writeOutPortData_direct {I : Type} (ops : BaseOps I) (ports : OutPorts)
    (genRobot : Body) (mode : ControlMode) (o : OutputOffsetInterpolators I) (dt : ℚ)
    (h1 : mode.isSyncToABC = false) (h2 : mode.isSyncToIdle = false) :
    (writeOutPortData ops ports genRobot mode o dt).1.m_q_ = genRobot.q ∧
      (writeOutPortData ops ports genRobot mode o dt).1.m_genTau_ = genRobot.u :=
  ⟨blendJoints_direct mode dt genRobot.q ports.m_q_ _ h1 h2,
    blendJoints_direct mode dt genRobot.u ports.m_genTau_ _ h1 h2⟩

/-- C10, witness: balancing without a transition, previous output 1, generated angle 0. -/
theorem writeOutPortData_direct_witness :
    abcMode.isSyncToABC = false ∧ abcMode.isSyncToIdle = false ∧
      (writeOutPortData heldBaseOps prevPorts originBody abcMode restInterpolators 1).1.m_q_ =
        originBody.q ∧
      (writeOutPortData heldBaseOps prevPorts originBody abcMode restInterpolators 1).1.m_genTau_ =
        originBody.u :=
  ⟨by decide, by decide,
    writeOutPortData_direct heldBaseOps prevPorts originBody abcMode restInterpolators 1
      (by decide) (by decide)⟩

/-! ## C11: the force-sensor lookup of `onInitialize` -/

/-- C11 (evaluation at the failing input).  The only force sensor is mounted on link 5, the
end effector's parent link is link 7: whatever the number of iterations allowed, the loop of
lines 157-165 has not ended, since it never moves `link` to its parent. -/
theorem lookupForceSensor_no_sensor_on_parent (fuel : Nat) :
    lookupForceSensor ankleSensors fuel (some 7) = none := by
  unfold lookupForceSensor
  induction fuel with
  | zero => rfl
  | succ n ih =>
    have h : findSensorOn ankleSensors 7 = none := by decide
    simp only [forceSensorWhile, h]
    exact ih

/-! ## C12: the tick period -/

/-- C12 (as amended).  When the configured `dt` is not positive: if the execution-context
rate is not positive either, `onInitialize` returns `RTC_ERROR`; if the rate is positive,
`dt_` becomes `1 / rate` and `onInitialize` goes on exactly as if `1 / rate` had been
configured. -/
theorem onInitialize_dt_not_positive (fuel : Nat) (cfg : InitConfig) (hdt : cfg.dt ≤ 0) :
    (cfg.rate ≤ 0 → onInitialize fuel cfg = some ReturnCode_t.RTC_ERROR) ∧
      (0 < cfg.rate → loadDt cfg.dt cfg.rate = some (1 / cfg.rate) ∧
        onInitialize fuel cfg = onInitialize fuel { cfg with dt := 1 / cfg.rate }) := by
  constructor
  · intro hr
    have h : loadDt cfg.dt cfg.rate = none := by
      unfold loadDt
      rw [if_pos hdt, if_neg (not_lt.mpr hr)]
    unfold onInitialize
    rw [h]
  · intro hr
    have h : loadDt cfg.dt cfg.rate = some (1 / cfg.rate) := by
      unfold loadDt
      rw [if_pos hdt, if_pos hr]
    have hpos : ¬ (1 / cfg.rate ≤ 0) := not_le.mpr (one_div_pos.mpr hr)
    have h2 : loadDt (1 / cfg.rate) cfg.rate = some (1 / cfg.rate) := by
      unfold loadDt
      rw [if_neg hpos]
    refine ⟨h, ?_⟩
    unfold onInitialize
    simp only [h, h2]

/-- C12, witness: `dt = 0` and a rate of 500 Hz. -/
theorem onInitialize_dt_not_positive_witness :
    rateConfig.dt ≤ 0 ∧
    (rateConfig.rate ≤ 0 → onInitialize 2 rateConfig = some ReturnCode_t.RTC_ERROR) ∧
      (0 < rateConfig.rate → loadDt rateConfig.dt rateConfig.rate = some (1 / rateConfig.rate) ∧
        onInitialize 2 rateConfig =
          onInitialize 2 { rateConfig with dt := 1 / rateConfig.rate }) :=
  ⟨le_refl _, onInitialize_dt_not_positive 2 rateConfig (le_refl _)⟩

/-- C12, counterexample: with `dt = 0` and a rate of 500 Hz `onInitialize` does not abort; it
returns `RTC_OK`. -/
theorem onInitialize_dt_zero_ok :
    rateConfig.dt ≤ 0 ∧ onInitialize 2 rateConfig = some ReturnCode_t.RTC_OK := by
  refine ⟨le_refl _, ?_⟩
  have h : loadDt rateConfig.dt rateConfig.rate = some (1 / 500) := by
    unfold loadDt
    norm_num [rateConfig]
  unfold onInitialize
  rw [h]
  rfl

/-! ## C13: the leg naming check -/

theorem legNamesInvalid_eq (name : List String) :
    legNamesInvalid name =
      some (!decide (2 ≤ name.length ∧ name[0]? = some "rleg" ∧ name[1]? = some "lleg")) := by
  unfold legNamesInvalid NUM_LEGS RLEG LLEG
  by_cases hlen : name.length < 2
  · rw [if_pos hlen]
    have : ¬ (2 ≤ name.length ∧ name[0]? = some "rleg" ∧ name[1]? = some "lleg") :=
      fun h => absurd h.1 (not_le.mpr hlen)
    simp [this]
  · rw [if_neg hlen]
    have h2 : 2 ≤ name.length := not_lt.mp hlen
    have h0 : name[0]? = some name[0] := List.getElem?_eq_getElem (by omega)
    have h1 : name[1]? = some name[1] := List.getElem?_eq_getElem (by omega)
    rw [h0, h1]
    simp only [h2, true_and, Option.some.injEq]
    by_cases hr : name[0] = "rleg"
    · by_cases hl : name[1] = "lleg"
      · simp [hr, hl]
      · simp [hr, hl]
    · simp [hr]

theorem loadEndEffectors_names (forceSensors : List ForceSensor) (fuel : Nat)
    (ees : List EndEffectorEntry) (params : List (String × String))
    (h : loadEndEffectors forceSensors fuel ees = some (some params)) :
    params.map Prod.fst = ees.map EndEffectorEntry.name := by
  induction ees generalizing params with
  | nil =>
    simp only [loadEndEffectors, Option.some.injEq] at h
    rw [← h]
    rfl
  | cons e rest ih =>
    unfold loadEndEffectors at h
    cases hp : e.parentLink with
    | none => rw [hp] at h; simp at h
    | some l =>
      rw [hp] at h
      simp only at h
      cases hf : lookupForceSensor forceSensors fuel (some l) with
      | none => rw [hf] at h; simp at h
      | some fs =>
        rw [hf] at h
        simp only at h
        cases hrest : loadEndEffectors forceSensors fuel rest with
        | none => rw [hrest] at h; simp at h
        | some r =>
          cases r with
          | none => rw [hrest] at h; simp at h
          | some ps =>
            rw [hrest] at h
            simp only [Option.some.injEq] at h
            rw [← h]
            simp [ih ps hrest]

/-- C13.  Once the tick period and the model are loaded and the end-effector records are read
(every parent link found, every force-sensor lookup ended), the condition of line 177 never
reads a name out of bounds, and `onInitialize` returns `RTC_OK` exactly when the table has at
least two entries, entry 0 named `rleg` and entry 1 named `lleg`, and `RTC_ERROR`
otherwise. -/
theorem onInitialize_leg_names (fuel : Nat) (cfg : InitConfig)
    (params : List (String × String)) (dt_ : ℚ)
    (hdt : loadDt cfg.dt cfg.rate = some dt_) (hmodel : cfg.modelLoaded = true)
    (hload : loadEndEffectors cfg.forceSensors fuel cfg.endEffectors = some (some params)) :
    legNamesInvalid (cfg.endEffectors.map EndEffectorEntry.name) =
        some (!decide (2 ≤ cfg.endEffectors.length ∧
          (cfg.endEffectors.map EndEffectorEntry.name)[0]? = some "rleg" ∧
          (cfg.endEffectors.map EndEffectorEntry.name)[1]? = some "lleg")) ∧
      onInitialize fuel cfg =
        some (if 2 ≤ cfg.endEffectors.length ∧
            (cfg.endEffectors.map EndEffectorEntry.name)[0]? = some "rleg" ∧
            (cfg.endEffectors.map EndEffectorEntry.name)[1]? = some "lleg"
          then ReturnCode_t.RTC_OK else ReturnCode_t.RTC_ERROR) := by
  have hnames := loadEndEffectors_names cfg.forceSensors fuel cfg.endEffectors params hload
  have hinv := legNamesInvalid_eq (cfg.endEffectors.map EndEffectorEntry.name)
  rw [List.length_map] at hinv
  refine ⟨hinv, ?_⟩
  unfold onInitialize
  rw [hdt, hload]
  simp only [hmodel, Bool.not_true, Bool.false_eq_true, if_false, hnames, hinv]
  by_cases hv : 2 ≤ cfg.endEffectors.length ∧
      (cfg.endEffectors.map EndEffectorEntry.name)[0]? = some "rleg" ∧
      (cfg.endEffectors.map EndEffectorEntry.name)[1]? = some "lleg"
  · rw [if_pos hv, decide_eq_true hv]
    rfl
  · rw [if_neg hv, decide_eq_false hv]
    rfl

/-- C13, witness: both legs configured, each with a force sensor on its parent link. -/
theorem onInitialize_leg_names_witness :
    loadDt rateConfig.dt rateConfig.rate = some (1 / 500) ∧ rateConfig.modelLoaded = true ∧
    loadEndEffectors rateConfig.forceSensors 2 rateConfig.endEffectors =
      some (some [("rleg", "rfsensor"), ("lleg", "lfsensor")]) ∧
    legNamesInvalid (rateConfig.endEffectors.map EndEffectorEntry.name) =
        some (!decide (2 ≤ rateConfig.endEffectors.length ∧
          (rateConfig.endEffectors.map EndEffectorEntry.name)[0]? = some "rleg" ∧
          (rateConfig.endEffectors.map EndEffectorEntry.name)[1]? = some "lleg")) ∧
      onInitialize 2 rateConfig =
        some (if 2 ≤ rateConfig.endEffectors.length ∧
            (rateConfig.endEffectors.map EndEffectorEntry.name)[0]? = some "rleg" ∧
            (rateConfig.endEffectors.map EndEffectorEntry.name)[1]? = some "lleg"
          then ReturnCode_t.RTC_OK else ReturnCode_t.RTC_ERROR) :=
  have hdt : loadDt rateConfig.dt rateConfig.rate = some (1 / 500) := by
    unfold loadDt
    norm_num [rateConfig]
  ⟨hdt, rfl, rfl, onInitialize_leg_names 2 rateConfig _ _ hdt rfl rfl⟩

/-! ## C14: `orientCoordToAxis` -/

namespace mathutil

theorem sqrt_mul_self_of_exists (x : ℚ) (h : ∃ s : ℚ, s * s = x) : sqrt x * sqrt x = x :=
  (Rat.exists_mul_self x).mp h

theorem sqrt_zero : sqrt 0 = 0 := by
  have h := Rat.sqrt_eq 0
  simp [sqrt]

theorem mulVec_UnitZ (m : Matrix3) (i : Fin 3) : m.mulVec UnitZ i = m i 2 := by
  simp [Matrix.mulVec, Matrix.dotProduct, Fin.sum_univ_three, UnitZ]

theorem sqrt_eq_zero_iff (x : ℚ) (hx : 0 ≤ x) : sqrt x = 0 ↔ x = 0 := by
  constructor
  · intro h
    unfold sqrt Rat.sqrt at h
    have hnum : (0 : ℤ) ≤ x.num := Rat.num_nonneg.mpr hx
    have hden : Nat.sqrt x.den ≠ 0 := by
      intro hc
      have := Nat.sqrt_eq_zero.mp hc
      exact x.den_ne_zero this
    rw [Rat.mkRat_eq_zero hden] at h
    have h2 : x.num = 0 := by
      by_contra hne
      have hpos : 0 < x.num := lt_of_le_of_ne hnum (Ne.symm hne)
      have : 0 < Int.sqrt x.num := by
        unfold Int.sqrt
        have h3 : 0 < x.num.toNat := by omega
        have h4 : 0 < Nat.sqrt x.num.toNat := Nat.sqrt_pos.mpr h3
        exact_mod_cast h4
      omega
    exact Rat.num_eq_zero.mp h2
  · intro h
    rw [h]
    exact sqrt_zero

theorem unit_col_of_orthogonal (m : Matrix3) (hm : m.transpose * m = 1) :
    m 0 2 ^ 2 + m 1 2 ^ 2 + m 2 2 ^ 2 = 1 := by
  have h := congrFun (congrFun hm 2) 2
  simp [Matrix.mul_apply, Fin.sum_univ_three] at h
  linarith

theorem orientCoordToAxis_of_vertical (m : Matrix3) (hv : m.mulVec UnitZ = UnitZ) :
    orientCoordToAxis m UnitZ UnitZ = m := by
  have hcr : cross3 (m.mulVec UnitZ) UnitZ = 0 := by
    rw [hv]
    funext i
    fin_cases i <;> simp [cross3, UnitZ]
  have hd : dot (m.mulVec UnitZ) UnitZ = 1 := by
    rw [hv]
    simp [dot, UnitZ]
  unfold orientCoordToAxis
  simp only [hcr, hd, norm]
  have h0 : dot (0 : Vector3) 0 = 0 := by simp [dot]
  rw [h0, if_pos sqrt_zero]
  norm_num

theorem angleAxis_orthogonal (c s : ℚ) (k : Vector3) (hk : dot k k = 1)
    (hcs : c ^ 2 + s ^ 2 = 1) :
    (angleAxis { cos := c, sin := s } k).transpose * angleAxis { cos := c, sin := s } k = 1 := by
  unfold dot at hk
  ext i j
  fin_cases i <;> fin_cases j
  · simp [angleAxis, cross, Matrix.mul_apply, Fin.sum_univ_three]
    linear_combination (1 - k 0 * k 0) * hcs + (s ^ 2 + (1 - c) ^ 2 * k 0 * k 0) * hk
  · simp [angleAxis, cross, Matrix.mul_apply, Fin.sum_univ_three]
    linear_combination (0 - k 0 * k 1) * hcs + ((1 - c) ^ 2 * k 0 * k 1) * hk
  · simp [angleAxis, cross, Matrix.mul_apply, Fin.sum_univ_three]
    linear_combination (0 - k 0 * k 2) * hcs + ((1 - c) ^ 2 * k 0 * k 2) * hk
  · simp [angleAxis, cross, Matrix.mul_apply, Fin.sum_univ_three]
    linear_combination (0 - k 1 * k 0) * hcs + ((1 - c) ^ 2 * k 1 * k 0) * hk
  · simp [angleAxis, cross, Matrix.mul_apply, Fin.sum_univ_three]
    linear_combination (1 - k 1 * k 1) * hcs + (s ^ 2 + (1 - c) ^ 2 * k 1 * k 1) * hk
  · simp [angleAxis, cross, Matrix.mul_apply, Fin.sum_univ_three]
    linear_combination (0 - k 1 * k 2) * hcs + ((1 - c) ^ 2 * k 1 * k 2) * hk
  · simp [angleAxis, cross, Matrix.mul_apply, Fin.sum_univ_three]
    linear_combination (0 - k 2 * k 0) * hcs + ((1 - c) ^ 2 * k 2 * k 0) * hk
  · simp [angleAxis, cross, Matrix.mul_apply, Fin.sum_univ_three]
    linear_combination (0 - k 2 * k 1) * hcs + ((1 - c) ^ 2 * k 2 * k 1) * hk
  · simp [angleAxis, cross, Matrix.mul_apply, Fin.sum_univ_three]
    linear_combination (1 - k 2 * k 2) * hcs + (s ^ 2 + (1 - c) ^ 2 * k 2 * k 2) * hk

theorem angleAxis_det (c s : ℚ) (k : Vector3) (hk : dot k k = 1) (hcs : c ^ 2 + s ^ 2 = 1) :
    (angleAxis { cos := c, sin := s } k).det = 1 := by
  unfold dot at hk
  rw [Matrix.det_fin_three]
  simp [angleAxis, cross]
  linear_combination (1 + (1 - c) * (k 0 * k 0 + k 1 * k 1 + k 2 * k 2 - 1)) * hcs +
    (s ^ 2 + (1 - c) * (1 + s ^ 2 * (k 0 * k 0 + k 1 * k 1 + k 2 * k 2 - 1))) * hk

theorem angleAxis_tilt (a0 a1 a2 t : ℚ) (hunit : a0 ^ 2 + a1 ^ 2 + a2 ^ 2 = 1)
    (ht0 : t ≠ 0) :
    (angleAxis { cos := a2, sin := t } ((1 / t) • ![a1, -a0, 0])).mulVec ![a0, a1, a2] =
      ![0, 0, 1] := by
  funext i
  fin_cases i
  · simp [angleAxis, cross, Matrix.mulVec, Matrix.dotProduct, Fin.sum_univ_three]
    field_simp
    ring
  · simp [angleAxis, cross, Matrix.mulVec, Matrix.dotProduct, Fin.sum_univ_three]
    field_simp
    ring
  · simp [angleAxis, cross, Matrix.mulVec, Matrix.dotProduct, Fin.sum_univ_three]
    field_simp
    linear_combination hunit

/-- The value of `orientCoordToAxis m UnitZ UnitZ` for a matrix with a unit third column. -/
theorem orientCoordToAxis_UnitZ_eq (m : Matrix3)
    (hunit : m 0 2 ^ 2 + m 1 2 ^ 2 + m 2 2 ^ 2 = 1) :
    orientCoordToAxis m UnitZ UnitZ =
      if 1 - m 2 2 ^ 2 = 0 then (if m 2 2 = -1 then -m else m)
      else angleAxis { cos := m 2 2, sin := sqrt (1 - m 2 2 ^ 2) }
        ((1 / sqrt (1 - m 2 2 ^ 2)) • ![m 1 2, -(m 0 2), 0]) * m := by
  have hx : m 0 2 ^ 2 + m 1 2 ^ 2 = 1 - m 2 2 ^ 2 := by linarith
  have hmv : m.mulVec UnitZ = ![m 0 2, m 1 2, m 2 2] := by
    funext i
    rw [mulVec_UnitZ]
    fin_cases i <;> rfl
  have hcr : cross3 (m.mulVec UnitZ) UnitZ = ![m 1 2, -(m 0 2), 0] := by
    rw [hmv]
    funext i
    fin_cases i <;> simp [cross3, UnitZ]
  have hc : dot (cross3 (m.mulVec UnitZ) UnitZ) (cross3 (m.mulVec UnitZ) UnitZ) =
      1 - m 2 2 ^ 2 := by
    rw [hcr, ← hx]
    simp [dot]
    ring
  have hd : dot (m.mulVec UnitZ) UnitZ = m 2 2 := by
    rw [hmv]
    simp [dot, UnitZ]
  have hle : m 2 2 ^ 2 ≤ 1 := by nlinarith [sq_nonneg (m 0 2), sq_nonneg (m 1 2)]
  have habs : |m 2 2| ≤ 1 := by
    rw [← abs_one]
    exact sq_le_sq.mp (by simpa using hle)
  have hclamp : min 1 (max (-1) (m 2 2)) = m 2 2 := by
    rw [max_eq_right (neg_le_of_abs_le habs), min_eq_right (le_of_abs_le habs)]
  have hiff := sqrt_eq_zero_iff (1 - m 2 2 ^ 2) (by linarith)
  unfold orientCoordToAxis
  simp only [norm, hc, hd, hclamp]
  by_cases hz : 1 - m 2 2 ^ 2 = 0
  · rw [if_pos (hiff.mpr hz), if_pos hz]
  · rw [if_neg (fun h => hz (hiff.mp h)), if_neg hz]
    have hxpos : 0 < 1 - m 2 2 ^ 2 :=
      lt_of_le_of_ne (by linarith) (Ne.symm hz)
    have hnorm : normalized (cross3 (m.mulVec UnitZ) UnitZ) =
        (1 / sqrt (1 - m 2 2 ^ 2)) • ![m 1 2, -(m 0 2), 0] := by
      unfold normalized
      rw [hc, if_pos hxpos, norm, hc, hcr]
    have hacos : acos (m 2 2) = { cos := m 2 2, sin := sqrt (1 - m 2 2 ^ 2) } := by
      unfold acos
      rw [show 1 - m 2 2 * m 2 2 = 1 - m 2 2 ^ 2 by ring]
    rw [hnorm, hacos]

/-- The result of `orientCoordToAxis m UnitZ UnitZ` maps the Z axis to the Z axis, for every
matrix whose third column is a unit vector. -/
theorem orientCoordToAxis_UnitZ_col (m : Matrix3)
    (hunit : m 0 2 ^ 2 + m 1 2 ^ 2 + m 2 2 ^ 2 = 1) :
    (orientCoordToAxis m UnitZ UnitZ).mulVec UnitZ = UnitZ := by
  have hmv : m.mulVec UnitZ = ![m 0 2, m 1 2, m 2 2] := by
    funext i
    rw [mulVec_UnitZ]
    fin_cases i <;> rfl
  rw [orientCoordToAxis_UnitZ_eq m hunit]
  by_cases hz : 1 - m 2 2 ^ 2 = 0
  · rw [if_pos hz]
    have h0 : m 0 2 = 0 := by nlinarith [sq_nonneg (m 0 2), sq_nonneg (m 1 2)]
    have h1 : m 1 2 = 0 := by nlinarith [sq_nonneg (m 0 2), sq_nonneg (m 1 2)]
    by_cases hneg : m 2 2 = -1
    · rw [if_pos hneg]
      funext i
      rw [Matrix.neg_mulVec, Pi.neg_apply, mulVec_UnitZ]
      fin_cases i <;> simp [UnitZ, h0, h1, hneg]
    · rw [if_neg hneg]
      have h2 : m 2 2 = 1 := by
        have : (m 2 2 - 1) * (m 2 2 + 1) = 0 := by linarith
        rcases mul_eq_zero.mp this with h | h
        · linarith
        · exact absurd (by linarith) hneg
      funext i
      rw [mulVec_UnitZ]
      fin_cases i <;> simp [UnitZ, h0, h1, h2]
  · rw [if_neg hz, ← Matrix.mulVec_mulVec, hmv]
    have hz2 : sqrt (1 - m 2 2 ^ 2) ≠ 0 :=
      fun h => hz ((sqrt_eq_zero_iff _ (by nlinarith [sq_nonneg (m 0 2), sq_nonneg (m 1 2)])).mp h)
    rw [angleAxis_tilt (m 0 2) (m 1 2) (m 2 2) (sqrt (1 - m 2 2 ^ 2)) hunit hz2]
    rfl

/-- The result of `orientCoordToAxis m UnitZ UnitZ` is a rotation when `m` is a rotation
whose Z axis is not opposite to the world Z axis and the sine of the tilt is rational. -/
theorem orientCoordToAxis_UnitZ_rotation (m : Matrix3) (hm : IsRotation m)
    (hopp : m.mulVec UnitZ ≠ -UnitZ) (hsq : ∃ s : ℚ, s * s = 1 - m 2 2 ^ 2) :
    IsRotation (orientCoordToAxis m UnitZ UnitZ) := by
  have hunit := unit_col_of_orthogonal m hm.1
  have hs := sqrt_mul_self_of_exists _ hsq
  rw [orientCoordToAxis_UnitZ_eq m hunit]
  by_cases hz : 1 - m 2 2 ^ 2 = 0
  · rw [if_pos hz]
    have h0 : m 0 2 = 0 := by nlinarith [sq_nonneg (m 0 2), sq_nonneg (m 1 2)]
    have h1 : m 1 2 = 0 := by nlinarith [sq_nonneg (m 0 2), sq_nonneg (m 1 2)]
    have hneg : m 2 2 ≠ -1 := by
      intro hneg
      apply hopp
      funext i
      rw [mulVec_UnitZ]
      fin_cases i <;> simp [UnitZ, h0, h1, hneg]
    rw [if_neg hneg]
    exact hm
  · rw [if_neg hz]
    have hz2 : sqrt (1 - m 2 2 ^ 2) ≠ 0 :=
      fun h => hz ((sqrt_eq_zero_iff _ (by nlinarith [sq_nonneg (m 0 2), sq_nonneg (m 1 2)])).mp h)
    have hk : dot ((1 / sqrt (1 - m 2 2 ^ 2)) • ![m 1 2, -(m 0 2), 0])
        ((1 / sqrt (1 - m 2 2 ^ 2)) • ![m 1 2, -(m 0 2), 0]) = 1 := by
      simp [dot]
      field_simp
      linear_combination hunit - hs
    have hcs : m 2 2 ^ 2 + sqrt (1 - m 2 2 ^ 2) ^ 2 = 1 := by
      linear_combination hs
    have hA := angleAxis_orthogonal _ _ _ hk hcs
    have hD := angleAxis_det _ _ _ hk hcs
    constructor
    · rw [Matrix.transpose_mul, Matrix.mul_assoc, ← Matrix.mul_assoc _ _ m, hA, Matrix.one_mul]
      exact hm.1
    · rw [Matrix.det_mul, hD, hm.2, one_mul]

end mathutil
namespace RefToGenFrameConverter

open mathutil

/-- Every goal `convertFrame` hands to `footMidCoords.setGoal` is a pose oriented by
`orientCoordToAxis(_, UnitZ)`. -/
theorem footMidGoal_oriented {I : Type} (scale : AngleScale) (gaitParam : GaitParam I)
    (g : Position × ℚ) (h : footMidGoal scale gaitParam = some g) :
    ∃ c, g.1 = orientCoordToAxisT c UnitZ UnitZ := by
  unfold footMidGoal at h
  cases h0 : gaitParam.footstepNodesList[0]? with
  | none => rw [h0] at h; exact Option.noConfusion h
  | some node0 =>
    rw [h0] at h
    simp only at h
    have hsingle : ∀ leg, ∃ c,
        (singleSupportGoal scale gaitParam node0 leg).1 = orientCoordToAxisT c UnitZ UnitZ := by
      intro leg
      unfold singleSupportGoal
      cases gaitParam.footstepNodesList[1]? with
      | none => exact ⟨_, rfl⟩
      | some node1 =>
        simp only
        split
        · exact ⟨_, rfl⟩
        · exact ⟨_, rfl⟩
    split at h
    · rw [← Option.some.inj h]
      exact ⟨_, rfl⟩
    · split at h
      · rw [← Option.some.inj h]
        exact hsingle RLEG
      · split at h
        · rw [← Option.some.inj h]
          exact hsingle LLEG
        · cases h1 : gaitParam.footstepNodesList[1]? with
          | none => rw [h1] at h; exact Option.noConfusion h
          | some node1 =>
            rw [h1] at h
            simp only at h
            split at h
            · rw [← Option.some.inj h]
              exact ⟨_, rfl⟩
            · split at h
              · rw [← Option.some.inj h]
                exact ⟨_, rfl⟩
              · rw [← Option.some.inj h]
                exact ⟨_, rfl⟩

end RefToGenFrameConverter

theorem tiltedRotation_isRotation : IsRotation tiltedRotation := by
  have ht : tiltedRotation.transpose =
      !![1, 0, 0;
         0, 3 / 5, 4 / 5;
         0, -(4 / 5), 3 / 5] := by
    ext i j
    fin_cases i <;> fin_cases j <;> rfl
  constructor
  · rw [ht, Matrix.one_fin_three]
    unfold tiltedRotation
    rw [Matrix.mul_fin_three]
    norm_num
  · rw [Matrix.det_fin_three]
    norm_num [tiltedRotation]

/-- C14.  For every rotation matrix `m`: `orientCoordToAxis(m, UnitZ)` maps the Z axis to
the world Z axis; an `m` whose Z axis is already vertical is returned unchanged; when the Z
axis of `m` is not opposite to the world Z axis (and the sine of the tilt is rational, so that
the norm is exact) the result is a rotation.  Hence the pose `initGenRobot` resets the
foot-mid coordinate to, and every goal `convertFrame` hands to `footMidCoords.setGoal`, is a
pose oriented by `orientCoordToAxis(_, UnitZ)` and has a vertical Z axis and an unchanged
translation whenever the oriented pose has rotation `m`. -/
theorem orientCoordToAxis_vertical (m : Matrix3) (hm : IsRotation m) :
    (mathutil.orientCoordToAxis m mathutil.UnitZ mathutil.UnitZ).mulVec mathutil.UnitZ =
        mathutil.UnitZ ∧
      (m.mulVec mathutil.UnitZ = mathutil.UnitZ →
        mathutil.orientCoordToAxis m mathutil.UnitZ mathutil.UnitZ = m) ∧
      (m.mulVec mathutil.UnitZ ≠ -mathutil.UnitZ → (∃ s : ℚ, s * s = 1 - m 2 2 ^ 2) →
        IsRotation (mathutil.orientCoordToAxis m mathutil.UnitZ mathutil.UnitZ)) ∧
      (∀ c : Position, c.linear = m →
        (mathutil.orientCoordToAxisT c mathutil.UnitZ mathutil.UnitZ).linear.mulVec
            mathutil.UnitZ = mathutil.UnitZ ∧
          (mathutil.orientCoordToAxisT c mathutil.UnitZ mathutil.UnitZ).translation =
            c.translation) ∧
      (∀ (I : Type) (ops : SE3Ops I) (scale : mathutil.AngleScale)
          (refFootOriginWeight : Nat → ℚ) (eePose : Nat → Position) (gaitParam : GaitParam I),
        (RefToGenFrameConverter.calcRefFootMidCoords scale refFootOriginWeight eePose
            gaitParam).linear = m →
        ∃ p, RefToGenFrameConverter.initGenRobot ops scale refFootOriginWeight eePose
              gaitParam = ops.reset gaitParam.footMidCoords p ∧
          p.linear.mulVec mathutil.UnitZ = mathutil.UnitZ) ∧
      (∀ (I : Type) (scale : mathutil.AngleScale) (gaitParam : GaitParam I)
          (g : Position × ℚ), RefToGenFrameConverter.footMidGoal scale gaitParam = some g →
        ∃ c, g.1 = mathutil.orientCoordToAxisT c mathutil.UnitZ mathutil.UnitZ ∧
          (c.linear = m → g.1.linear.mulVec mathutil.UnitZ = mathutil.UnitZ)) := by
  have hunit := mathutil.unit_col_of_orthogonal m hm.1
  have hcol := mathutil.orientCoordToAxis_UnitZ_col m hunit
  have hT : ∀ c : Position, c.linear = m →
      (mathutil.orientCoordToAxisT c mathutil.UnitZ mathutil.UnitZ).linear.mulVec
        mathutil.UnitZ = mathutil.UnitZ := by
    intro c hc
    show (mathutil.orientCoordToAxis c.linear mathutil.UnitZ mathutil.UnitZ).mulVec
      mathutil.UnitZ = mathutil.UnitZ
    rw [hc]
    exact hcol
  refine ⟨hcol, mathutil.orientCoordToAxis_of_vertical m,
    mathutil.orientCoordToAxis_UnitZ_rotation m hm, fun c hc => ⟨hT c hc, rfl⟩, ?_, ?_⟩
  · intro I ops scale w eePose gaitParam hc
    exact ⟨_, rfl, hT _ hc⟩
  · intro I scale gaitParam g hg
    obtain ⟨c, hc⟩ := RefToGenFrameConverter.footMidGoal_oriented scale gaitParam g hg
    refine ⟨c, hc, fun hcm => ?_⟩
    rw [hc]
    exact hT c hcm

/-- C14, witness: a foot tilted about the X axis by the angle of cosine 3/5. -/
theorem orientCoordToAxis_vertical_witness :
    IsRotation tiltedRotation ∧
      (mathutil.orientCoordToAxis tiltedRotation mathutil.UnitZ mathutil.UnitZ).mulVec
        mathutil.UnitZ = mathutil.UnitZ ∧
      IsRotation (mathutil.orientCoordToAxis tiltedRotation mathutil.UnitZ mathutil.UnitZ) :=
  have h := orientCoordToAxis_vertical tiltedRotation tiltedRotation_isRotation
  ⟨tiltedRotation_isRotation, h.1,
    h.2.2.1
      (by
        intro hc
        have h2 := congrFun hc 2
        simp [tiltedRotation, mathutil.UnitZ, Matrix.mulVec, Matrix.dotProduct,
          Fin.sum_univ_three] at h2
        norm_num at h2)
      ⟨4 / 5, by norm_num [tiltedRotation]⟩⟩

/-! ## C15: a leg of weight zero in `calcRefFootMidCoords` -/

namespace mathutil

/-- One step of `calcMidCoords` from the initial state with a positive weight yields the
pose itself, when scaling an angle by 1 gives the rotation back. -/
theorem calcMidCoordsStep_first (scale : AngleScale) (hscale : ∀ T, scale T 1 = T)
    (c : Position) (w : ℚ) (hw : 0 < w) :
    calcMidCoordsStep scale (0, Position.Identity) (c, w) = (w, c) := by
  have hw0 : w ≠ 0 := ne_of_gt hw
  unfold calcMidCoordsStep
  rw [if_neg (not_le.mpr hw)]
  simp only [zero_add, Position.Identity, slerp, Matrix.transpose_one, Matrix.one_mul,
    div_self hw0, hscale, zero_smul]
  congr 1
  cases c with
  | mk R p =>
    simp only [Position.mk.injEq, true_and]
    rw [smul_smul, one_div, inv_mul_cancel₀ hw0, one_smul]

theorem calcMidCoordsStep_skip (scale : AngleScale) (st : ℚ × Position) (c : Position)
    (w : ℚ) (hw : w ≤ 0) : calcMidCoordsStep scale st (c, w) = st := by
  unfold calcMidCoordsStep
  rw [if_pos hw]

theorem calcMidCoordsStep_zero (scale : AngleScale) (st : ℚ × Position) (c : Position) :
    calcMidCoordsStep scale st (c, 0) = st :=
  calcMidCoordsStep_skip scale st c 0 (le_refl 0)

end mathutil

/-- C15.  When scaling an angle by 1 gives the rotation back: if the reference-origin weight
of the right leg is positive and that of the left leg is 0, `calcRefFootMidCoords` returns the
right end-effector pose shifted by `+R*copOffset` and `-R*defaultTranslatePos`, whatever the
left foot's pose is; and symmetrically with the legs exchanged. -/
theorem calcRefFootMidCoords_zero_weight {I : Type} (scale : mathutil.AngleScale)
    (hscale : ∀ T, scale T 1 = T) (refFootOriginWeight : Nat → ℚ)
    (eePose : Nat → Position) (gaitParam : GaitParam I) :
    (0 < refFootOriginWeight RLEG → refFootOriginWeight LLEG = 0 →
        RefToGenFrameConverter.calcRefFootMidCoords scale refFootOriginWeight eePose gaitParam =
          RefToGenFrameConverter.shiftFoot gaitParam RLEG (eePose RLEG) ∧
        ∀ eePose1 : Nat → Position, eePose1 RLEG = eePose RLEG →
          RefToGenFrameConverter.calcRefFootMidCoords scale refFootOriginWeight eePose1
              gaitParam =
            RefToGenFrameConverter.calcRefFootMidCoords scale refFootOriginWeight eePose
              gaitParam) ∧
      (0 < refFootOriginWeight LLEG → refFootOriginWeight RLEG = 0 →
        RefToGenFrameConverter.calcRefFootMidCoords scale refFootOriginWeight eePose gaitParam =
          RefToGenFrameConverter.shiftFoot gaitParam LLEG (eePose LLEG) ∧
        ∀ eePose1 : Nat → Position, eePose1 LLEG = eePose LLEG →
          RefToGenFrameConverter.calcRefFootMidCoords scale refFootOriginWeight eePose1
              gaitParam =
            RefToGenFrameConverter.calcRefFootMidCoords scale refFootOriginWeight eePose
              gaitParam) := by
  have hR : ∀ ee : Nat → Position, 0 < refFootOriginWeight RLEG →
      refFootOriginWeight LLEG = 0 →
      RefToGenFrameConverter.calcRefFootMidCoords scale refFootOriginWeight ee gaitParam =
        RefToGenFrameConverter.shiftFoot gaitParam RLEG (ee RLEG) := by
    intro ee hr hl
    unfold RefToGenFrameConverter.calcRefFootMidCoords mathutil.calcMidCoords
    simp only [hl, min_eq_right (le_of_lt hr), sub_zero, sub_self, List.zip_cons_cons,
      List.zip_nil_right, List.foldl_cons, List.foldl_nil]
    simp only [mathutil.calcMidCoordsStep_zero]
    rw [mathutil.calcMidCoordsStep_first scale hscale _ _ hr]
  have hL : ∀ ee : Nat → Position, 0 < refFootOriginWeight LLEG →
      refFootOriginWeight RLEG = 0 →
      RefToGenFrameConverter.calcRefFootMidCoords scale refFootOriginWeight ee gaitParam =
        RefToGenFrameConverter.shiftFoot gaitParam LLEG (ee LLEG) := by
    intro ee hl hr
    unfold RefToGenFrameConverter.calcRefFootMidCoords mathutil.calcMidCoords
    simp only [hr, min_eq_left (le_of_lt hl), sub_zero, sub_self, List.zip_cons_cons,
      List.zip_nil_right, List.foldl_cons, List.foldl_nil]
    simp only [mathutil.calcMidCoordsStep_zero]
    rw [mathutil.calcMidCoordsStep_first scale hscale _ _ hl]
  constructor
  · intro hr hl
    refine ⟨hR eePose hr hl, fun ee1 h1 => ?_⟩
    rw [hR ee1 hr hl, hR eePose hr hl, h1]
  · intro hl hr
    refine ⟨hL eePose hl hr, fun ee1 h1 => ?_⟩
    rw [hL ee1 hl hr, hL eePose hl hr, h1]

theorem chordScale_one (T : Matrix3) : chordScale T 1 = T := by
  unfold chordScale
  rw [sub_self, zero_smul, zero_add, one_smul]

/-- C15, witness: the right leg has weight 1 and the left leg weight 0. -/
theorem calcRefFootMidCoords_zero_weight_witness :
    (∀ T, chordScale T 1 = T) ∧ 0 < rightOnlyWeight RLEG ∧ rightOnlyWeight LLEG = 0 ∧
      RefToGenFrameConverter.calcRefFootMidCoords chordScale rightOnlyWeight standPose
          standGait =
        RefToGenFrameConverter.shiftFoot standGait RLEG (standPose RLEG) ∧
      ∀ eePose1 : Nat → Position, eePose1 RLEG = standPose RLEG →
        RefToGenFrameConverter.calcRefFootMidCoords chordScale rightOnlyWeight eePose1
            standGait =
          RefToGenFrameConverter.calcRefFootMidCoords chordScale rightOnlyWeight standPose
            standGait :=
  ⟨chordScale_one, by decide, by decide,
    (calcRefFootMidCoords_zero_weight chordScale chordScale_one rightOnlyWeight standPose
      standGait).1 (by decide) (by decide)⟩

/-! ## C16: `isInsideHull` -/

namespace mathutil

theorem cross3_z_edge (p a b : Vector3) : (cross3 (a - p) (b - p)) 2 = edgeCross a b p := by
  simp [cross3, edgeCross]
  ring

theorem edgeCross_self_left (a b : Vector3) : edgeCross a b a = 0 := by
  simp [edgeCross]

theorem edgeCross_self_right (a b : Vector3) : edgeCross a b b = 0 := by
  simp only [edgeCross]
  ring

theorem edgeCross_swap (a b c : Vector3) : edgeCross b a c = -edgeCross a b c := by
  simp only [edgeCross]
  ring

theorem edgeCross_rotate (a b c : Vector3) : edgeCross b c a = edgeCross a b c := by
  simp only [edgeCross]
  ring

/-- A sequence that starts non-negative and ends non-positive has two consecutive terms,
the first non-negative and the second non-positive. -/
theorem exists_sign_change (f : Nat → ℚ) (a : Nat) :
    ∀ b, a < b → 0 ≤ f a → f b ≤ 0 → ∃ j, a ≤ j ∧ j < b ∧ 0 ≤ f j ∧ f (j + 1) ≤ 0 := by
  intro b
  induction b with
  | zero => intro h; exact absurd h (Nat.not_lt_zero a)
  | succ n ih =>
    intro hab ha hb
    by_cases hn : 0 ≤ f n
    · exact ⟨n, Nat.lt_succ_iff.mp hab, Nat.lt_succ_self n, hn, hb⟩
    · have hlt : f n < 0 := not_le.mp hn
      have han : a < n := by
        rcases Nat.lt_or_ge a n with h | h
        · exact h
        · have : a = n := le_antisymm (Nat.lt_succ_iff.mp hab) h
          rw [this] at ha
          exact absurd ha hn
      obtain ⟨j, h1, h2, h3, h4⟩ := ih han ha (le_of_lt hlt)
      exact ⟨j, h1, Nat.lt_succ_of_lt h2, h3, h4⟩

/-- With at least three vertices `isInsideHull` is the test that `p` lies on the left of, or
on, every edge. -/
theorem isInsideHull_iff_left (p : Vector3) (hull : List Vector3) (h3 : 3 ≤ hull.length) :
    isInsideHull p hull = true ↔
      ∀ i, i < hull.length →
        0 ≤ edgeCross (hull.getD i 0) (hull.getD ((i + 1) % hull.length) 0) p := by
  obtain ⟨a, b, c, rest, rfl⟩ : ∃ a b c rest, hull = a :: b :: c :: rest := by
    match hull, h3 with
    | a :: b :: c :: rest, _ => exact ⟨a, b, c, rest, rfl⟩
  simp only [isInsideHull, List.all_eq_true, List.mem_range, outsideEdge, cross3_z_edge,
    Bool.not_eq_true', decide_eq_false_iff_not, not_lt]


theorem getD_mem_of_lt (hull : List Vector3) (k : Nat) (hk : k < hull.length) :
    hull.getD k 0 ∈ hull := by
  rw [List.getD_eq_getElem _ _ hk]
  exact List.getElem_mem hk

theorem exists_getD_of_mem (hull : List Vector3) (h : Vector3) (hh : h ∈ hull) :
    ∃ k, k < hull.length ∧ hull.getD k 0 = h := by
  obtain ⟨k, hk, rfl⟩ := List.getElem_of_mem hh
  exact ⟨k, hk, List.getD_eq_getElem _ _ hk⟩

/-- The closed half-plane on the left of the line from `a` to `b` is convex. -/
theorem convex_left (a b : Vector3) :
    Convex ℚ {q : ℚ × ℚ | 0 ≤ (b 0 - a 0) * (q.2 - a 1) - (b 1 - a 1) * (q.1 - a 0)} := by
  intro x hx y hy s t hs ht hst
  simp only [Set.mem_setOf_eq, Prod.fst_add, Prod.snd_add, Prod.smul_fst, Prod.smul_snd,
    smul_eq_mul] at hx hy ⊢
  have e : (b 0 - a 0) * (s * x.2 + t * y.2 - a 1) - (b 1 - a 1) * (s * x.1 + t * y.1 - a 0) =
      s * ((b 0 - a 0) * (x.2 - a 1) - (b 1 - a 1) * (x.1 - a 0)) +
        t * ((b 0 - a 0) * (y.2 - a 1) - (b 1 - a 1) * (y.1 - a 0)) := by
    linear_combination ((b 0 - a 0) * a 1 - (b 1 - a 1) * a 0) * hst
  rw [e]
  exact add_nonneg (mul_nonneg hs hx) (mul_nonneg ht hy)

/-- A point of the closed polygon lies on the left of, or on, every edge. -/
theorem left_of_inClosedPolygon (p : Vector3) (hull : List Vector3) (hc : ConvexCCW hull)
    (hp : InClosedPolygon p hull) (i : Nat) (hi : i < hull.length) :
    0 ≤ edgeCross (hull.getD i 0) (hull.getD ((i + 1) % hull.length) 0) p := by
  have hsub : {q : ℚ × ℚ | ∃ h ∈ hull, q = xy h} ⊆
      {q : ℚ × ℚ | 0 ≤ ((hull.getD ((i + 1) % hull.length) 0) 0 - (hull.getD i 0) 0) *
          (q.2 - (hull.getD i 0) 1) -
        ((hull.getD ((i + 1) % hull.length) 0) 1 - (hull.getD i 0) 1) *
          (q.1 - (hull.getD i 0) 0)} := by
    rintro q ⟨h, hh, rfl⟩
    obtain ⟨k, hk, rfl⟩ := exists_getD_of_mem hull h hh
    show 0 ≤ edgeCross (hull.getD i 0) (hull.getD ((i + 1) % hull.length) 0) (hull.getD k 0)
    by_cases h1 : k = i
    · rw [h1, edgeCross_self_left]
    · by_cases h2 : k = (i + 1) % hull.length
      · rw [← h2, edgeCross_self_right]
      · exact le_of_lt (hc i k hi hk h1 h2)
  exact convexHull_min hsub (convex_left _ _) hp

/-- A point on the left of, or on, every edge of a convex polygon listed counter-clockwise
lies in the triangle spanned by vertex 0 and two consecutive vertices. -/
theorem inClosedPolygon_of_left (p : Vector3) (hull : List Vector3) (h3 : 3 ≤ hull.length)
    (hc : ConvexCCW hull)
    (hleft : ∀ i, i < hull.length →
      0 ≤ edgeCross (hull.getD i 0) (hull.getD ((i + 1) % hull.length) 0) p) :
    InClosedPolygon p hull := by
  have hn0 : 0 < hull.length := by omega
  have h1 : 0 ≤ edgeCross (hull.getD 0 0) (hull.getD 1 0) p := by
    have := hleft 0 hn0
    rwa [Nat.zero_add, Nat.mod_eq_of_lt (by omega : 1 < hull.length)] at this
  have hlast : edgeCross (hull.getD 0 0) (hull.getD (hull.length - 1) 0) p ≤ 0 := by
    have := hleft (hull.length - 1) (by omega)
    rw [show hull.length - 1 + 1 = hull.length by omega, Nat.mod_self, edgeCross_swap] at this
    linarith
  obtain ⟨j, hj1, hj2, hfj, hfj1⟩ :=
    exists_sign_change (fun j => edgeCross (hull.getD 0 0) (hull.getD j 0) p) 1
      (hull.length - 1) (by omega) h1 hlast
  have hjn : j + 1 < hull.length := by omega
  have hgj := hleft j (by omega)
  rw [Nat.mod_eq_of_lt hjn] at hgj
  have hA := hc j 0 (by omega) hn0 (by omega) (by rw [Nat.mod_eq_of_lt hjn]; omega)
  rw [Nat.mod_eq_of_lt hjn] at hA
  set a := hull.getD 0 0 with ha
  set b := hull.getD j 0 with hb
  set c := hull.getD (j + 1) 0 with hcdef
  set A := edgeCross b c a with hAdef
  have hAne : A ≠ 0 := ne_of_gt hA
  have hsum : edgeCross b c p + -edgeCross a c p + edgeCross a b p = A := by
    simp only [hAdef, edgeCross]
    ring
  have hx : (edgeCross b c p / A) * a 0 + (-edgeCross a c p / A) * b 0 +
      (edgeCross a b p / A) * c 0 = p 0 := by
    field_simp
    simp only [hAdef, edgeCross]
    ring
  have hy : (edgeCross b c p / A) * a 1 + (-edgeCross a c p / A) * b 1 +
      (edgeCross a b p / A) * c 1 = p 1 := by
    field_simp
    simp only [hAdef, edgeCross]
    ring
  have hmem : ∀ k, k < hull.length →
      xy (hull.getD k 0) ∈ convexHull ℚ {q : ℚ × ℚ | ∃ h ∈ hull, q = xy h} :=
    fun k hk => subset_convexHull ℚ _ ⟨_, getD_mem_of_lt hull k hk, rfl⟩
  have hcomb := (convex_convexHull ℚ {q : ℚ × ℚ | ∃ h ∈ hull, q = xy h}).sum_mem
    (t := Finset.univ)
    (w := ![edgeCross b c p / A, -edgeCross a c p / A, edgeCross a b p / A])
    (z := ![xy a, xy b, xy c])
    (by
      intro i _
      fin_cases i
      · exact div_nonneg hgj (le_of_lt hA)
      · exact div_nonneg (by simpa using hfj1) (le_of_lt hA)
      · exact div_nonneg hfj (le_of_lt hA))
    (by
      rw [Fin.sum_univ_three]
      simp only [Matrix.cons_val_zero, Matrix.cons_val_one, Matrix.head_cons,
        Matrix.cons_val_two, Matrix.tail_cons]
      rw [← add_div, ← add_div, hsum, div_self hAne])
    (by
      intro i _
      fin_cases i
      · exact hmem 0 hn0
      · exact hmem j (by omega)
      · exact hmem (j + 1) hjn)
  unfold InClosedPolygon
  convert hcomb using 1
  rw [Fin.sum_univ_three]
  simp only [Matrix.cons_val_zero, Matrix.cons_val_one, Matrix.head_cons,
    Matrix.cons_val_two, Matrix.tail_cons, xy]
  ext
  · simp only [Prod.fst_add, Prod.smul_fst, smul_eq_mul]
    exact hx.symm
  · simp only [Prod.snd_add, Prod.smul_snd, smul_eq_mul]
    exact hy.symm

theorem isInsideHull_one (p h0 : Vector3) : isInsideHull p [h0] = true ↔ xy p = xy h0 := by
  simp only [isInsideHull, decide_eq_true_eq, head2, xy, Prod.mk.injEq]
  constructor
  · intro h
    have h0' := congrFun h 0
    have h1' := congrFun h 1
    simp only [Matrix.cons_val_zero, Matrix.cons_val_one, Matrix.head_cons] at h0' h1'
    exact ⟨h0'.symm, h1'.symm⟩
  · rintro ⟨h0', h1'⟩
    rw [h0', h1']

theorem isInsideHull_two (p h0 h1 : Vector3) :
    isInsideHull p [h0, h1] = true ↔ xy p ∈ segment ℚ (xy h0) (xy h1) := by
  have hcr : (cross3 (h0 - p) (h1 - p)) 2 =
      (h0 0 - p 0) * (h1 1 - p 1) - (h0 1 - p 1) * (h1 0 - p 0) := by
    simp [cross3]
  have hdt : dot2 (head2 (h0 - p)) (head2 (h1 - p)) =
      (h0 0 - p 0) * (h1 0 - p 0) + (h0 1 - p 1) * (h1 1 - p 1) := by
    simp [dot2, head2]
  simp only [isInsideHull, Bool.and_eq_true, decide_eq_true_eq, hcr, hdt]
  constructor
  · rintro ⟨hc, hd⟩
    by_cases hD : (h1 0 - h0 0) ^ 2 + (h1 1 - h0 1) ^ 2 = 0
    · have e0 : h1 0 = h0 0 := by nlinarith [sq_nonneg (h1 0 - h0 0), sq_nonneg (h1 1 - h0 1)]
      have e1 : h1 1 = h0 1 := by nlinarith [sq_nonneg (h1 0 - h0 0), sq_nonneg (h1 1 - h0 1)]
      rw [e0, e1] at hd
      have p0 : p 0 = h0 0 := by nlinarith [sq_nonneg (h0 0 - p 0), sq_nonneg (h0 1 - p 1)]
      have p1 : p 1 = h0 1 := by nlinarith [sq_nonneg (h0 0 - p 0), sq_nonneg (h0 1 - p 1)]
      refine ⟨1, 0, zero_le_one, le_refl 0, by norm_num, ?_⟩
      simp [xy, p0, p1]
    · have hDpos : 0 < (h1 0 - h0 0) ^ 2 + (h1 1 - h0 1) ^ 2 :=
        lt_of_le_of_ne (by positivity) (Ne.symm hD)
      have hx : ((h1 0 - p 0) ^ 2 + (h1 1 - p 1) ^ 2 -
            ((h0 0 - p 0) * (h1 0 - p 0) + (h0 1 - p 1) * (h1 1 - p 1))) * h0 0 +
          ((h0 0 - p 0) ^ 2 + (h0 1 - p 1) ^ 2 -
            ((h0 0 - p 0) * (h1 0 - p 0) + (h0 1 - p 1) * (h1 1 - p 1))) * h1 0 =
          ((h1 0 - h0 0) ^ 2 + (h1 1 - h0 1) ^ 2) * p 0 := by
        linear_combination ((h1 1 - p 1) - (h0 1 - p 1)) * hc
      have hy : ((h1 0 - p 0) ^ 2 + (h1 1 - p 1) ^ 2 -
            ((h0 0 - p 0) * (h1 0 - p 0) + (h0 1 - p 1) * (h1 1 - p 1))) * h0 1 +
          ((h0 0 - p 0) ^ 2 + (h0 1 - p 1) ^ 2 -
            ((h0 0 - p 0) * (h1 0 - p 0) + (h0 1 - p 1) * (h1 1 - p 1))) * h1 1 =
          ((h1 0 - h0 0) ^ 2 + (h1 1 - h0 1) ^ 2) * p 1 := by
        linear_combination (-((h1 0 - p 0) - (h0 0 - p 0))) * hc
      refine ⟨((h1 0 - p 0) ^ 2 + (h1 1 - p 1) ^ 2 -
            ((h0 0 - p 0) * (h1 0 - p 0) + (h0 1 - p 1) * (h1 1 - p 1))) /
          ((h1 0 - h0 0) ^ 2 + (h1 1 - h0 1) ^ 2),
        ((h0 0 - p 0) ^ 2 + (h0 1 - p 1) ^ 2 -
            ((h0 0 - p 0) * (h1 0 - p 0) + (h0 1 - p 1) * (h1 1 - p 1))) /
          ((h1 0 - h0 0) ^ 2 + (h1 1 - h0 1) ^ 2), ?_, ?_, ?_, ?_⟩
      · apply div_nonneg _ (le_of_lt hDpos)
        nlinarith [sq_nonneg (h1 0 - p 0), sq_nonneg (h1 1 - p 1)]
      · apply div_nonneg _ (le_of_lt hDpos)
        nlinarith [sq_nonneg (h0 0 - p 0), sq_nonneg (h0 1 - p 1)]
      · rw [← add_div, div_eq_one_iff_eq hD]
        ring
      · ext
        · simp only [xy, Prod.fst_add, Prod.smul_fst, smul_eq_mul]
          rw [div_mul_eq_mul_div, div_mul_eq_mul_div, ← add_div, hx, mul_div_cancel_left₀ _ hD]
        · simp only [xy, Prod.snd_add, Prod.smul_snd, smul_eq_mul]
          rw [div_mul_eq_mul_div, div_mul_eq_mul_div, ← add_div, hy, mul_div_cancel_left₀ _ hD]
  · rintro ⟨a, b, ha, hb, hab, hp⟩
    have hx : a * h0 0 + b * h1 0 = p 0 := by
      have := congrArg Prod.fst hp
      simpa [xy] using this
    have hy : a * h0 1 + b * h1 1 = p 1 := by
      have := congrArg Prod.snd hp
      simpa [xy] using this
    have hab' : a = 1 - b := by linarith
    subst hab'
    rw [← hx, ← hy]
    constructor
    · ring
    · have e : (h0 0 - ((1 - b) * h0 0 + b * h1 0)) * (h1 0 - ((1 - b) * h0 0 + b * h1 0)) +
          (h0 1 - ((1 - b) * h0 1 + b * h1 1)) * (h1 1 - ((1 - b) * h0 1 + b * h1 1)) =
          -((1 - b) * b * ((h0 0 - h1 0) ^ 2 + (h0 1 - h1 1) ^ 2)) := by
        ring
      rw [e]
      have : 0 ≤ (1 - b) * b * ((h0 0 - h1 0) ^ 2 + (h0 1 - h1 1) ^ 2) :=
        mul_nonneg (mul_nonneg ha hb) (by positivity)
      linarith

end mathutil

/-- C16.  For a hull with at least three vertices that are the vertices of a convex polygon
listed counter-clockwise, `isInsideHull(p, hull)` is true if and only if the XY projection of
`p` lies in the closed polygon, the convex hull of the projected vertices.  For the empty hull
the result is false; for a one-vertex hull it is true iff the XY projections of `p` and the
vertex are equal; for a two-vertex hull it is true iff the XY projection of `p` lies on the
closed segment between the projected vertices. -/
theorem isInsideHull_spec (p : Vector3) :
    (∀ hull : List Vector3, 3 ≤ hull.length → ConvexCCW hull →
        (mathutil.isInsideHull p hull = true ↔ InClosedPolygon p hull)) ∧
      mathutil.isInsideHull p [] = false ∧
      (∀ h0 : Vector3, mathutil.isInsideHull p [h0] = true ↔ xy p = xy h0) ∧
      (∀ h0 h1 : Vector3,
        mathutil.isInsideHull p [h0, h1] = true ↔ xy p ∈ segment ℚ (xy h0) (xy h1)) := by
  refine ⟨?_, rfl, mathutil.isInsideHull_one p, mathutil.isInsideHull_two p⟩
  intro hull h3 hc
  rw [mathutil.isInsideHull_iff_left p hull h3]
  exact ⟨mathutil.inClosedPolygon_of_left p hull h3 hc,
    fun hp i hi => mathutil.left_of_inClosedPolygon p hull hc hp i hi⟩

theorem triangleHull_convexCCW : ConvexCCW triangleHull := by
  intro i k hi hk h1 h2
  have hi3 : i < 3 := hi
  have hk3 : k < 3 := hk
  have hlen : triangleHull.length = 3 := rfl
  rw [hlen] at h2 ⊢
  interval_cases i <;> interval_cases k <;>
    first
      | exact absurd rfl h1
      | exact absurd rfl h2
      | norm_num [edgeCross, triangleHull]

/-- C16, witness: the triangle with vertices (0,0), (2,0), (0,2) and the point (1/2, 1/2). -/
theorem isInsideHull_spec_witness :
    3 ≤ triangleHull.length ∧ ConvexCCW triangleHull ∧
      (mathutil.isInsideHull ![1 / 2, 1 / 2, 0] triangleHull = true ↔
        InClosedPolygon ![1 / 2, 1 / 2, 0] triangleHull) :=
  ⟨by decide, triangleHull_convexCCW,
    (isInsideHull_spec ![1 / 2, 1 / 2, 0]).1 triangleHull (by decide) triangleHull_convexCCW⟩

/-! ## C17: the hull helpers ignore Z -/

namespace mathutil

theorem head2_eq_of_sameXY (a b : Vector3) (h : SameXY a b) : head2 a = head2 b := by
  unfold head2
  rw [h.1, h.2]

theorem head2_sub (a b : Vector3) : head2 (a - b) = head2 a - head2 b := by
  funext i
  fin_cases i <;> simp [head2]

theorem cross3_z (a b : Vector3) :
    (cross3 a b) 2 = (head2 a) 0 * (head2 b) 1 - (head2 a) 1 * (head2 b) 0 := by
  simp [cross3, head2]

theorem getD_head2_of_forall₂ (hull hull1 : List Vector3)
    (hh : List.Forall₂ SameXY hull hull1) (i : Nat) :
    head2 (hull.getD i 0) = head2 (hull1.getD i 0) := by
  induction hh generalizing i with
  | nil => rfl
  | cons hab _ ih =>
    cases i with
    | zero => exact head2_eq_of_sameXY _ _ hab
    | succ n => simpa using ih n

theorem outsideEdge_congr (p p1 : Vector3) (hull hull1 : List Vector3) (hp : SameXY p p1)
    (hh : List.Forall₂ SameXY hull hull1) (i : Nat) :
    outsideEdge p hull i = outsideEdge p1 hull1 i := by
  unfold outsideEdge
  simp only [cross3_z, head2_sub, getD_head2_of_forall₂ hull hull1 hh,
    head2_eq_of_sameXY p p1 hp, hh.length_eq]

theorem isInsideHull_congr (p p1 : Vector3) (hull hull1 : List Vector3) (hp : SameXY p p1)
    (hh : List.Forall₂ SameXY hull hull1) :
    isInsideHull p hull = isInsideHull p1 hull1 := by
  have hpe := head2_eq_of_sameXY p p1 hp
  have hedge := outsideEdge_congr p p1 hull hull1 hp hh
  have hlen := hh.length_eq
  cases hh with
  | nil => rfl
  | cons h0 hh1 =>
    cases hh1 with
    | nil =>
      simp only [isInsideHull]
      rw [head2_eq_of_sameXY _ _ h0, hpe]
    | cons h1 hh2 =>
      cases hh2 with
      | nil =>
        simp only [isInsideHull]
        rw [cross3_z, cross3_z, head2_sub, head2_sub, head2_sub, head2_sub,
          head2_eq_of_sameXY _ _ h0, head2_eq_of_sameXY _ _ h1, hpe]
      | cons h2 hh3 =>
        simp only [isInsideHull]
        rw [hlen]
        simp only [hedge]

theorem nearestStep_congr (q : Vector2) (hull hull1 : List Vector3)
    (hh : List.Forall₂ SameXY hull hull1) (st : Option Root × Vector2) (i : Nat) :
    nearestStep q hull st i = nearestStep q hull1 st i := by
  unfold nearestStep
  simp only [getD_head2_of_forall₂ hull hull1 hh, hh.length_eq]

theorem calcNearestPointOfHull_congr (p p1 : Vector3) (hull hull1 : List Vector3)
    (hp : SameXY p p1) (hh : List.Forall₂ SameXY hull hull1) :
    calcNearestPointOfHull p hull = calcNearestPointOfHull p1 hull1 := by
  have hstep : nearestStep (head2 p) hull = nearestStep (head2 p1) hull1 := by
    funext st i
    rw [head2_eq_of_sameXY p p1 hp]
    exact nearestStep_congr _ hull hull1 hh st i
  have h0 := getD_head2_of_forall₂ hull hull1 hh 0
  have h00 : (hull.getD 0 0) 0 = (hull1.getD 0 0) 0 := congrFun h0 0
  have h01 : (hull.getD 0 0) 1 = (hull1.getD 0 0) 1 := congrFun h0 1
  unfold calcNearestPointOfHull
  rw [isInsideHull_congr p p1 hull hull1 hp hh, hh.length_eq, hstep, hp.1, hp.2, h00, h01]

theorem calcNearestPointOfHull_z (p : Vector3) (hull : List Vector3) :
    (calcNearestPointOfHull p hull) 2 = 0 := by
  unfold calcNearestPointOfHull
  split
  · rfl
  · split
    · rfl
    · split <;> rfl

end mathutil

/-- C17.  When `p` and `p1` have the same X and Y coordinates and the vertices of `hull` and
`hull1` have pairwise the same X and Y coordinates, `isInsideHull` and
`calcNearestPointOfHull` return the same results on both, and the point
`calcNearestPointOfHull` returns has Z = 0. -/
theorem hull_helpers_ignore_z (p p1 : Vector3) (hull hull1 : List Vector3)
    (hp : SameXY p p1) (hh : List.Forall₂ SameXY hull hull1) :
    mathutil.isInsideHull p hull = mathutil.isInsideHull p1 hull1 ∧
      mathutil.calcNearestPointOfHull p hull = mathutil.calcNearestPointOfHull p1 hull1 ∧
      (mathutil.calcNearestPointOfHull p hull) 2 = 0 :=
  ⟨mathutil.isInsideHull_congr p p1 hull hull1 hp hh,
    mathutil.calcNearestPointOfHull_congr p p1 hull hull1 hp hh,
    mathutil.calcNearestPointOfHull_z p hull⟩

/-- C17, witness: the point (1/2, 1/2) at two heights and the triangle at two sets of
heights. -/
theorem hull_helpers_ignore_z_witness :
    SameXY ![1 / 2, 1 / 2, 7] ![1 / 2, 1 / 2, 0] ∧
      List.Forall₂ SameXY triangleHullLifted triangleHull ∧
      mathutil.isInsideHull ![1 / 2, 1 / 2, 7] triangleHullLifted =
        mathutil.isInsideHull ![1 / 2, 1 / 2, 0] triangleHull ∧
      mathutil.calcNearestPointOfHull ![1 / 2, 1 / 2, 7] triangleHullLifted =
        mathutil.calcNearestPointOfHull ![1 / 2, 1 / 2, 0] triangleHull ∧
      (mathutil.calcNearestPointOfHull ![1 / 2, 1 / 2, 7] triangleHullLifted) 2 = 0 :=
  have hp : SameXY ![1 / 2, 1 / 2, 7] ![1 / 2, 1 / 2, 0] := ⟨rfl, rfl⟩
  have hh : List.Forall₂ SameXY triangleHullLifted triangleHull :=
    List.Forall₂.cons ⟨rfl, rfl⟩
      (List.Forall₂.cons ⟨rfl, rfl⟩ (List.Forall₂.cons ⟨rfl, rfl⟩ List.Forall₂.nil))
  ⟨hp, hh, hull_helpers_ignore_z _ _ _ _ hp hh⟩

/-! ## C18, C19, C20: `convertFrame` -/

namespace RefToGenFrameConverter

open mathutil

theorem singleSupportGoal_next_double {I : Type} (scale : AngleScale) (gaitParam : GaitParam I)
    (node0 node1 : FootstepNode) (leg : Nat) (h1 : gaitParam.footstepNodesList[1]? = some node1)
    (hR : node1.isSupportPhase RLEG = true) (hL : node1.isSupportPhase LLEG = true) :
    singleSupportGoal scale gaitParam node0 leg =
      (nodeMidCoords scale gaitParam node1, node0.remainTime + node1.remainTime) := by
  unfold singleSupportGoal
  rw [h1]
  simp only [hR, hL, Bool.and_self, if_true]

theorem singleSupportGoal_self {I : Type} (scale : AngleScale) (gaitParam : GaitParam I)
    (node0 : FootstepNode) (leg : Nat)
    (h1 : ∀ node1, gaitParam.footstepNodesList[1]? = some node1 →
      (node1.isSupportPhase RLEG && node1.isSupportPhase LLEG) = false) :
    singleSupportGoal scale gaitParam node0 leg =
      (orientCoordToAxisT (shiftFoot gaitParam leg (node0.dstCoords leg)) UnitZ UnitZ,
        node0.remainTime) := by
  unfold singleSupportGoal
  cases hn : gaitParam.footstepNodesList[1]? with
  | none => rfl
  | some node1 =>
    simp only [h1 node1 hn, Bool.false_eq_true, if_false]

theorem footMidGoal_single {I : Type} (scale : AngleScale) (gaitParam : GaitParam I)
    (node0 : FootstepNode) (h0 : gaitParam.footstepNodesList[0]? = some node0)
    (leg other : Nat) (hlegs : (leg = RLEG ∧ other = LLEG) ∨ (leg = LLEG ∧ other = RLEG))
    (hs : node0.isSupportPhase leg = true) (hn : node0.isSupportPhase other = false) :
    footMidGoal scale gaitParam = some (singleSupportGoal scale gaitParam node0 leg) := by
  unfold footMidGoal
  rw [h0]
  rcases hlegs with ⟨rfl, rfl⟩ | ⟨rfl, rfl⟩
  · simp [hs, hn]
  · simp [hs, hn]

theorem calcMidCoords_pair_translation (scale : AngleScale) (r l : Position) :
    (calcMidCoords scale [r, l] [1, 1]).translation =
      (1 / 2 : ℚ) • (r.translation + l.translation) := by
  simp only [calcMidCoords, List.zip_cons_cons, List.zip_nil_right, List.foldl_cons,
    List.foldl_nil, calcMidCoordsStep]
  norm_num [Position.Identity]

end RefToGenFrameConverter

/-- C18 (as amended).  When node 0 of the queue has exactly one leg in support: if the queue
holds a node 1 with both legs in support, the goal set on the foot-mid coordinate is the
equal-weight mid-coordinate of the two shifted destinations of node 1, oriented to the
vertical, and the duration is the sum of the remaining times of node 0 and node 1; if the
queue holds no node 1, or node 1 does not have both legs in support, the goal is the
supporting leg's node-0 destination shifted by `+R*copOffset` and `-R*defaultTranslatePos`,
oriented to the vertical, and the duration is node 0's remaining time. -/
theorem footMidGoal_single_support {I : Type} (scale : mathutil.AngleScale)
    (gaitParam : GaitParam I) (node0 : FootstepNode)
    (h0 : gaitParam.footstepNodesList[0]? = some node0) (leg other : Nat)
    (hlegs : (leg = RLEG ∧ other = LLEG) ∨ (leg = LLEG ∧ other = RLEG))
    (hs : node0.isSupportPhase leg = true) (hn : node0.isSupportPhase other = false) :
    (∀ node1, gaitParam.footstepNodesList[1]? = some node1 →
        node1.isSupportPhase RLEG = true → node1.isSupportPhase LLEG = true →
        RefToGenFrameConverter.footMidGoal scale gaitParam =
          some (mathutil.orientCoordToAxisT
            (mathutil.calcMidCoords scale
              [RefToGenFrameConverter.shiftFoot gaitParam RLEG (node1.dstCoords RLEG),
               RefToGenFrameConverter.shiftFoot gaitParam LLEG (node1.dstCoords LLEG)] [1, 1])
            mathutil.UnitZ mathutil.UnitZ, node0.remainTime + node1.remainTime)) ∧
      ((∀ node1, gaitParam.footstepNodesList[1]? = some node1 →
          (node1.isSupportPhase RLEG && node1.isSupportPhase LLEG) = false) →
        RefToGenFrameConverter.footMidGoal scale gaitParam =
          some (mathutil.orientCoordToAxisT
            (RefToGenFrameConverter.shiftFoot gaitParam leg (node0.dstCoords leg))
            mathutil.UnitZ mathutil.UnitZ, node0.remainTime)) := by
  have h := RefToGenFrameConverter.footMidGoal_single scale gaitParam node0 h0 leg other
    hlegs hs hn
  constructor
  · intro node1 h1 hR hL
    rw [h, RefToGenFrameConverter.singleSupportGoal_next_double scale gaitParam node0 node1
      leg h1 hR hL]
    rfl
  · intro h1
    rw [h, RefToGenFrameConverter.singleSupportGoal_self scale gaitParam node0 leg h1]

/-- C18, witness: node 0 has only the right leg in support and is the only node. -/
theorem footMidGoal_single_support_witness :
    rightSupportGait.footstepNodesList[0]? = some rightSupportNode ∧
      rightSupportNode.isSupportPhase RLEG = true ∧
      rightSupportNode.isSupportPhase LLEG = false ∧
      RefToGenFrameConverter.footMidGoal chordScale rightSupportGait =
        some (mathutil.orientCoordToAxisT
          (RefToGenFrameConverter.shiftFoot rightSupportGait RLEG
            (rightSupportNode.dstCoords RLEG))
          mathutil.UnitZ mathutil.UnitZ, rightSupportNode.remainTime) :=
  ⟨rfl, rfl, rfl,
    (footMidGoal_single_support chordScale rightSupportGait rightSupportNode rfl RLEG LLEG
      (Or.inl ⟨rfl, rfl⟩) rfl rfl).2
      (fun node1 h1 => Option.noConfusion (h1 : (none : Option FootstepNode) = some node1))⟩

/-- C18, counterexample: node 0 has only the right leg in support with 1 second left, node 1
has both legs in support with 1 second left; the duration handed to `setGoal` is 2, not
node 0's remaining time 1. -/
theorem footMidGoal_next_double_duration :
    stepGait.footstepNodesList[0]? = some rightSupportNode ∧
      rightSupportNode.isSupportPhase RLEG = true ∧
      rightSupportNode.isSupportPhase LLEG = false ∧
      rightSupportNode.remainTime = 1 ∧
      (RefToGenFrameConverter.footMidGoal chordScale stepGait).map Prod.snd = some 2 := by
  refine ⟨rfl, rfl, rfl, rfl, ?_⟩
  rw [RefToGenFrameConverter.footMidGoal_single chordScale stepGait rightSupportNode rfl
      RLEG LLEG (Or.inl ⟨rfl, rfl⟩) rfl rfl,
    RefToGenFrameConverter.singleSupportGoal_next_double chordScale stepGait rightSupportNode
      stepAheadNode RLEG rfl rfl rfl]
  norm_num [rightSupportNode, stepAheadNode]

/-- C19.  When both legs of node 0 are in support, the goal set on the foot-mid coordinate is
the equal-weight mid-coordinate of the two node-0 destinations, each shifted by
`+R*copOffset` and `-R*defaultTranslatePos`, oriented to the vertical; its translation is the
arithmetic mean of the two shifted positions and the duration is node 0's remaining time. -/
theorem footMidGoal_double_support {I : Type} (scale : mathutil.AngleScale)
    (gaitParam : GaitParam I) (node0 : FootstepNode)
    (h0 : gaitParam.footstepNodesList[0]? = some node0)
    (hR : node0.isSupportPhase RLEG = true) (hL : node0.isSupportPhase LLEG = true) :
    ∃ goal : Position,
      RefToGenFrameConverter.footMidGoal scale gaitParam = some (goal, node0.remainTime) ∧
      goal = mathutil.orientCoordToAxisT
        (mathutil.calcMidCoords scale
          [RefToGenFrameConverter.shiftFoot gaitParam RLEG (node0.dstCoords RLEG),
           RefToGenFrameConverter.shiftFoot gaitParam LLEG (node0.dstCoords LLEG)] [1, 1])
        mathutil.UnitZ mathutil.UnitZ ∧
      goal.translation = (1 / 2 : ℚ) •
        ((RefToGenFrameConverter.shiftFoot gaitParam RLEG (node0.dstCoords RLEG)).translation +
          (RefToGenFrameConverter.shiftFoot gaitParam LLEG (node0.dstCoords LLEG)).translation) := by
  refine ⟨_, ?_, rfl, ?_⟩
  · unfold RefToGenFrameConverter.footMidGoal
    rw [h0]
    simp only [hR, hL, Bool.and_self, if_true]
    rfl
  · exact RefToGenFrameConverter.calcMidCoords_pair_translation scale _ _

/-- C19, witness: the neutral double-support stance. -/
theorem footMidGoal_double_support_witness :
    standGait.footstepNodesList[0]? = some standNode ∧
      standNode.isSupportPhase RLEG = true ∧ standNode.isSupportPhase LLEG = true ∧
      ∃ goal : Position,
        RefToGenFrameConverter.footMidGoal chordScale standGait =
          some (goal, standNode.remainTime) ∧
        goal = mathutil.orientCoordToAxisT
          (mathutil.calcMidCoords chordScale
            [RefToGenFrameConverter.shiftFoot standGait RLEG (standNode.dstCoords RLEG),
             RefToGenFrameConverter.shiftFoot standGait LLEG (standNode.dstCoords LLEG)] [1, 1])
          mathutil.UnitZ mathutil.UnitZ ∧
        goal.translation = (1 / 2 : ℚ) •
          ((RefToGenFrameConverter.shiftFoot standGait RLEG
              (standNode.dstCoords RLEG)).translation +
            (RefToGenFrameConverter.shiftFoot standGait LLEG
              (standNode.dstCoords LLEG)).translation) :=
  ⟨rfl, rfl, rfl, footMidGoal_double_support chordScale standGait standNode rfl rfl rfl⟩

/-- C20.  With `F` the advanced foot-mid pose, `h` the hand-fix-mode value and
`d = F.R^T * (genCog - l - F.p)`: the pose `genFootMidCoords` has rotation `F.R` and
translation `F.p + F.R * (d.x, (1-h)*d.y, d.z)`.  For an orthogonal `F.R`: with `h = 0` the
translation is `genCog - l`; with `h = 1` the offset from `F`, expressed in the frame of `F`,
is `(d.x, 0, d.z)`.  In `convertFrame` the pose `F` is the value of the advanced foot-mid
interpolator. -/
theorem genFootMidCoords_spec (F : Position) (genCog l : Vector3) (h : ℚ) :
    (RefToGenFrameConverter.genFootMidCoords F genCog l h).linear = F.linear ∧
      (RefToGenFrameConverter.genFootMidCoords F genCog l h).translation =
        F.translation + F.linear.mulVec
          ![(F.linear.transpose.mulVec (genCog - l - F.translation)) 0,
            (1 - h) * (F.linear.transpose.mulVec (genCog - l - F.translation)) 1,
            (F.linear.transpose.mulVec (genCog - l - F.translation)) 2] ∧
      (F.linear * F.linear.transpose = 1 → h = 0 →
        (RefToGenFrameConverter.genFootMidCoords F genCog l h).translation = genCog - l) ∧
      (F.linear.transpose * F.linear = 1 → h = 1 →
        F.linear.transpose.mulVec
            ((RefToGenFrameConverter.genFootMidCoords F genCog l h).translation -
              F.translation) =
          ![(F.linear.transpose.mulVec (genCog - l - F.translation)) 0, 0,
            (F.linear.transpose.mulVec (genCog - l - F.translation)) 2]) ∧
      (∀ (I : Type) (ops : SE3Ops I) (scale : mathutil.AngleScale) (gaitParam : GaitParam I)
          (dt : ℚ) (r : I × Position),
        RefToGenFrameConverter.convertFrame ops scale h gaitParam dt = some r →
        r.2 = RefToGenFrameConverter.genFootMidCoords (ops.value r.1) gaitParam.genCog
          gaitParam.l h) := by
  have hupd : ∀ (v : Vector3) (x : ℚ), Function.update v 1 x = ![v 0, x, v 2] := by
    intro v x
    funext i
    fin_cases i <;> simp [Function.update]
  have ht : (RefToGenFrameConverter.genFootMidCoords F genCog l h).translation =
      F.translation + F.linear.mulVec
        ![(F.linear.transpose.mulVec (genCog - l - F.translation)) 0,
          (1 - h) * (F.linear.transpose.mulVec (genCog - l - F.translation)) 1,
          (F.linear.transpose.mulVec (genCog - l - F.translation)) 2] := by
    unfold RefToGenFrameConverter.genFootMidCoords
    simp only [hupd]
    rw [mul_comm]
  have heta : ∀ v : Vector3, ![v 0, v 1, v 2] = v := by
    intro v
    funext i
    fin_cases i <;> rfl
  refine ⟨rfl, ht, ?_, ?_, ?_⟩
  · intro horth h0
    rw [ht, h0, sub_zero, one_mul, heta, Matrix.mulVec_mulVec, horth, Matrix.one_mulVec]
    abel
  · intro horth h1
    rw [ht, h1, sub_self, zero_mul, add_sub_cancel_left, Matrix.mulVec_mulVec, horth,
      Matrix.one_mulVec]
  · intro I ops scale gaitParam dt r hr
    unfold RefToGenFrameConverter.convertFrame at hr
    cases hg : RefToGenFrameConverter.footMidGoal scale gaitParam with
    | none => rw [hg] at hr; exact Option.noConfusion hr
    | some g =>
      rw [hg] at hr
      simp only [Option.some.injEq] at hr
      rw [← hr]

/-- C20, witness: the advanced foot-mid pose is the identity, the centre of mass is at
(1, 2, 4/5) above the offset `l = (0, 0, 4/5)`. -/
theorem genFootMidCoords_spec_witness :
    Position.Identity.linear * Position.Identity.linear.transpose = 1 ∧
      (RefToGenFrameConverter.genFootMidCoords Position.Identity ![1, 2, 4 / 5]
        ![0, 0, 4 / 5] 0).translation = ![1, 2, 4 / 5] - ![0, 0, 4 / 5] :=
  have horth : Position.Identity.linear * Position.Identity.linear.transpose = 1 := by
    simp [Position.Identity]
  ⟨horth, (genFootMidCoords_spec Position.Identity ![1, 2, 4 / 5] ![0, 0, 4 / 5] 0).2.2.1
    horth rfl⟩

/-! ## C21: the balancer target poses of `execAutoStabilizer` -/

/-- A loop over `0..n-1` whose body can fail returns, and its result satisfies an invariant
that holds at the start and that every iteration carries one index further. -/
theorem foldlM_range_inv {S : Type} (step : S → Nat → Option S) (Inv : Nat → S → Prop)
    (n : Nat) (s0 : S) (h0 : Inv 0 s0)
    (hstep : ∀ k s, k < n → Inv k s → ∃ s1, step s k = some s1 ∧ Inv (k + 1) s1) :
    ∃ s1, (List.range n).foldlM step s0 = some s1 ∧ Inv n s1 := by
  have key : ∀ m, m ≤ n → ∃ s1, (List.range m).foldlM step s0 = some s1 ∧ Inv m s1 := by
    intro m
    induction m with
    | zero => intro _; exact ⟨s0, rfl, h0⟩
    | succ m ih =>
      intro hm
      obtain ⟨s1, hs1, hI⟩ := ih (Nat.le_of_succ_le hm)
      obtain ⟨s2, hs2, hI2⟩ := hstep m s1 hm hI
      refine ⟨s2, ?_, hI2⟩
      rw [List.range_succ, List.foldlM_append, hs1]
      simp [hs2]
  exact key n (le_refl n)

/-- The loop of lines 411-416: it returns when the three lists hold `n` entries, and then
entry `i` of the target poses is the reference pose with the advanced offset applied. -/
theorem icTargetPose_loop (trig : Trig) (dt : ℚ) (refPose : List Position)
    (ic0 : List (TwoPointInterpolator Vector6)) (ict0 : List Position) (n : Nat)
    (h1 : ic0.length = n) (h2 : refPose.length = n) (h3 : ict0.length = n) :
    ∃ r, (List.range n).foldlM (icTargetPoseAt trig dt refPose) (ic0, ict0) = some r ∧
      r.1.length = n ∧ r.2.length = n ∧
      ∀ i, i < n → ∃ ic ref, r.1[i]? = some ic ∧ refPose[i]? = some ref ∧
        r.2[i]? = some (applyOffset trig ic.value ref) := by
  obtain ⟨r, hr, hl1, hl2, hdone⟩ := foldlM_range_inv (icTargetPoseAt trig dt refPose)
    (fun k r => r.1.length = n ∧ r.2.length = n ∧
      ∀ i, i < k → ∃ ic ref, r.1[i]? = some ic ∧ refPose[i]? = some ref ∧
        r.2[i]? = some (applyOffset trig ic.value ref))
    n (ic0, ict0) ⟨h1, h3, fun i hi => absurd hi (Nat.not_lt_zero i)⟩
    (by
      intro k r hk ⟨hl1, hl2, hdone⟩
      have hk1 : k < r.1.length := by rw [hl1]; exact hk
      have hk2 : k < refPose.length := by rw [h2]; exact hk
      have hk3 : k < r.2.length := by rw [hl2]; exact hk
      unfold icTargetPoseAt
      rw [List.getElem?_eq_getElem hk1, List.getElem?_eq_getElem hk2,
        List.getElem?_eq_getElem hk3]
      refine ⟨_, rfl, by simp only [List.length_set]; exact hl1,
        by simp only [List.length_set]; exact hl2, ?_⟩
      intro i hi
      by_cases hik : i = k
      · subst hik
        refine ⟨(r.1[i]).interpolate dt, refPose[i], ?_, List.getElem?_eq_getElem hk2, ?_⟩
        · simp [hk1]
        · simp [hk3]
      · obtain ⟨ic, ref, e1, e2, e3⟩ := hdone i (by omega)
        refine ⟨ic, ref, ?_, e2, ?_⟩
        · simp only [List.getElem?_set, if_neg (Ne.symm hik)]
          exact e1
        · simp only [List.getElem?_set, if_neg (Ne.symm hik)]
          exact e3)
  exact ⟨r, hr, hl1, hl2, fun i hi => hdone i hi⟩

/-- The loop of lines 425-428: entry `i` of the balancer target poses is the generated leg
pose for a leg and entry `i` of the impedance target poses otherwise. -/
theorem abcTargetPose_loop (genCoords : Nat → Position) (ict abc0 : List Position) (n : Nat)
    (h1 : ict.length = n) (h2 : abc0.length = n) :
    ∃ r, (List.range n).foldlM (abcTargetPoseAt genCoords ict) abc0 = some r ∧
      r.length = n ∧
      ∀ i, i < n → (i < NUM_LEGS → r[i]? = some (genCoords i)) ∧
        (NUM_LEGS ≤ i → r[i]? = ict[i]?) := by
  obtain ⟨r, hr, hl, hdone⟩ := foldlM_range_inv (abcTargetPoseAt genCoords ict)
    (fun k r => r.length = n ∧
      ∀ i, i < k → (i < NUM_LEGS → r[i]? = some (genCoords i)) ∧
        (NUM_LEGS ≤ i → r[i]? = ict[i]?))
    n abc0 ⟨h2, fun i hi => absurd hi (Nat.not_lt_zero i)⟩
    (by
      intro k r hk ⟨hl, hdone⟩
      have hk1 : k < r.length := by rw [hl]; exact hk
      have hk2 : k < ict.length := by rw [h1]; exact hk
      unfold abcTargetPoseAt
      rw [List.getElem?_eq_getElem hk1, List.getElem?_eq_getElem hk2]
      simp only
      by_cases hleg : k < NUM_LEGS
      · rw [if_pos hleg]
        refine ⟨_, rfl, by simp only [List.length_set]; exact hl, ?_⟩
        intro i hi
        by_cases hik : i = k
        · subst hik
          refine ⟨fun _ => ?_, fun h => absurd hleg (not_lt.mpr h)⟩
          simp [hk1]
        · simp only [List.getElem?_set, if_neg (Ne.symm hik)]
          exact hdone i (by omega)
      · rw [if_neg hleg]
        refine ⟨_, rfl, by simp only [List.length_set]; exact hl, ?_⟩
        intro i hi
        by_cases hik : i = k
        · subst hik
          refine ⟨fun h => absurd h hleg, fun _ => ?_⟩
          simp [hk1, hk2]
        · simp only [List.getElem?_set, if_neg (Ne.symm hik)]
          exact hdone i (by omega))
  exact ⟨r, hr, hl, fun i hi => hdone i hi⟩

/-- The loop of lines 436-438 returns a list of the same length. -/
theorem stOffsetGoal_loop (remainTime : ℚ) (st0 : List (TwoPointInterpolator Vector6))
    (n : Nat) (h : st0.length = n) :
    ∃ r, (List.range n).foldlM (stOffsetGoalAt remainTime) st0 = some r ∧ r.length = n := by
  obtain ⟨r, hr, hl⟩ := foldlM_range_inv (stOffsetGoalAt remainTime)
    (fun _ r => r.length = n) n st0 h
    (by
      intro k r hk hl
      have hk1 : k < r.length := by rw [hl]; exact hk
      unfold stOffsetGoalAt
      rw [List.getElem?_eq_getElem hk1]
      exact ⟨_, rfl, by simp only [List.length_set]; exact hl⟩)
  exact ⟨r, hr, hl⟩

/-- The stabilizer block returns, with one stabilizer offset per end effector. -/
theorem stabilizerBlock_spec {G : Type} (ops : ExecOps G) (hops : ops.KeepsSize)
    (mode : ControlMode) (dt : ℚ) (g : G) (e : EndEffectorParamExec)
    (rpy : TwoPointInterpolator Vector3) (he : e.stOffset.length = e.name.length) :
    ∃ sb, stabilizerBlock ops mode dt g e rpy = some sb ∧ sb.2.length = e.name.length := by
  unfold stabilizerBlock
  by_cases h1 : mode.isSTRunning = true
  · rw [if_pos h1]
    exact ⟨_, rfl, by rw [hops.2, he]⟩
  · rw [if_neg h1]
    by_cases h2 : mode.isSyncToStopST = true
    · rw [if_pos h2]
      obtain ⟨r, hr, hl⟩ := stOffsetGoal_loop mode.remainTime e.stOffset e.name.length he
      rw [hr]
      exact ⟨_, rfl, hl⟩
    · rw [if_neg h2]
      exact ⟨_, rfl, he⟩

/-- The result of `execAutoStabilizer` on lists that hold one entry per end effector: it
returns, and for every end effector `i` the impedance target pose is the reference pose with
the advanced impedance offset applied, the balancer target pose is the generated leg pose
for a leg and the impedance target pose otherwise, and the IK target pose is the balancer
target pose with the advanced stabilizer offset applied. -/
theorem execAutoStabilizer_spec {G : Type} (ops : ExecOps G) (hops : ops.KeepsSize)
    (mode : ControlMode) (refRobot : Body) (dt : ℚ) (s : ExecState G)
    (hs : s.endEffectorParams.Sized) :
    ∃ s1, execAutoStabilizer ops mode refRobot dt s = some s1 ∧
      s1.endEffectorParams.name = s.endEffectorParams.name ∧
      s1.endEffectorParams.refPose = s.endEffectorParams.refPose ∧
      s1.gaitParam =
        ops.calcCOMCoords (ops.calcLegCoords (ops.calcFootSteps s.gaitParam dt) dt) dt ∧
      ∀ i, i < s.endEffectorParams.name.length →
        ∃ ic ref so abc,
          s1.endEffectorParams.icOffset[i]? = some ic ∧
          s.endEffectorParams.refPose[i]? = some ref ∧
          s1.endEffectorParams.icTargetPose[i]? = some (applyOffset ops.trig ic.value ref) ∧
          s1.endEffectorParams.abcTargetPose[i]? = some abc ∧
          (i < NUM_LEGS → abc = ops.genCoords s1.gaitParam i) ∧
          (NUM_LEGS ≤ i → abc = applyOffset ops.trig ic.value ref) ∧
          s1.endEffectorParams.stOffset[i]? = some so ∧
          s1.endEffectorParams.stTargetPose[i]? = some (applyOffset ops.trig so.value abc) := by
  obtain ⟨h1, h2, h3, h4, h5, h6⟩ := hs
  obtain ⟨ic, hic, hicl1, hicl2, hicd⟩ := icTargetPose_loop ops.trig dt
    s.endEffectorParams.refPose (ops.calcImpedanceControl dt s.endEffectorParams)
    s.endEffectorParams.icTargetPose s.endEffectorParams.name.length
    (by rw [hops.1, h1]) h2 h4
  obtain ⟨abc, habc, habcl, habcd⟩ := abcTargetPose_loop
    (ops.genCoords (ops.calcCOMCoords (ops.calcLegCoords
      (ops.calcFootSteps s.gaitParam dt) dt) dt)) ic.2 s.endEffectorParams.abcTargetPose
    s.endEffectorParams.name.length hicl2 h5
  obtain ⟨sb, hsb, hsbl⟩ := stabilizerBlock_spec ops hops mode dt
    (ops.calcCOMCoords (ops.calcLegCoords (ops.calcFootSteps s.gaitParam dt) dt) dt)
    { s.endEffectorParams with icOffset := ic.1, icTargetPose := ic.2, abcTargetPose := abc }
    s.stOffsetRootRpy h3
  obtain ⟨st, hst, hstl1, hstl2, hstd⟩ := icTargetPose_loop ops.trig dt abc sb.2
    s.endEffectorParams.stTargetPose s.endEffectorParams.name.length hsbl habcl h6
  have hst' : (List.range s.endEffectorParams.name.length).foldlM
      (stTargetPoseAt ops.trig dt abc) (sb.2, s.endEffectorParams.stTargetPose) = some st := hst
  unfold execAutoStabilizer
  simp only [hic, habc, hsb, hst']
  refine ⟨_, rfl, rfl, rfl, rfl, ?_⟩
  intro i hi
  obtain ⟨ici, refi, e1, e2, e3⟩ := hicd i hi
  obtain ⟨soi, abci, f1, f2, f3⟩ := hstd i hi
  obtain ⟨g1, g2⟩ := habcd i hi
  refine ⟨ici, refi, soi, abci, e1, e2, e3, f2, ?_, ?_, f1, f3⟩
  · intro hleg
    have := g1 hleg
    rw [f2] at this
    exact Option.some.inj this
  · intro hleg
    have := g2 hleg
    rw [f2, e3] at this
    exact Option.some.inj this

theorem heldExecOps_keepsSize : heldExecOps.KeepsSize :=
  ⟨fun _ _ => rfl, fun _ _ _ _ => rfl⟩

theorem armState_sized : armState.endEffectorParams.Sized :=
  ⟨rfl, rfl, rfl, rfl, rfl, rfl⟩

/-- C21.  When the lists of the end-effector parameters hold one entry per end effector and
the library functions keep the number of offsets, `execAutoStabilizer` returns and leaves the
reference poses as they are; for every end effector with index at least 2 the balancer target
pose has the translation of the reference pose plus the first three components of the
impedance offset and the rotation `AngleAxisd(|w|, w/|w| or UnitX) * R_ref` with `w` the last
three components; for the legs, index 0 and 1, it is the value of the generated leg
trajectory after the generator functions ran, an expression in which the impedance offset
does not occur. -/
theorem execAutoStabilizer_abcTargetPose {G : Type} (ops : ExecOps G) (hops : ops.KeepsSize)
    (mode : ControlMode) (refRobot : Body) (dt : ℚ) (s : ExecState G)
    (hs : s.endEffectorParams.Sized) :
    ∃ s1, execAutoStabilizer ops mode refRobot dt s = some s1 ∧
      s1.endEffectorParams.refPose = s.endEffectorParams.refPose ∧
      (∀ i, NUM_LEGS ≤ i → i < s.endEffectorParams.name.length →
        ∃ ic ref abc, s1.endEffectorParams.icOffset[i]? = some ic ∧
          s1.endEffectorParams.refPose[i]? = some ref ∧
          s1.endEffectorParams.abcTargetPose[i]? = some abc ∧
          abc.translation = ref.translation + head3 ic.value ∧
          abc.linear =
            AngleAxisd ops.trig (mathutil.norm (tail3 ic.value))
              (if mathutil.norm (tail3 ic.value) > 0 then mathutil.normalized (tail3 ic.value)
                else mathutil.UnitX) * ref.linear) ∧
      (∀ i, i < NUM_LEGS → i < s.endEffectorParams.name.length →
        s1.endEffectorParams.abcTargetPose[i]? =
          some (ops.genCoords (ops.calcCOMCoords (ops.calcLegCoords
            (ops.calcFootSteps s.gaitParam dt) dt) dt) i)) := by
  obtain ⟨s1, hrun, _, href, hg, h⟩ := execAutoStabilizer_spec ops hops mode refRobot dt s hs
  refine ⟨s1, hrun, href, ?_, ?_⟩
  · intro i hleg hi
    obtain ⟨ic, ref, so, abc, e1, e2, _, e4, _, e6, _, _⟩ := h i hi
    refine ⟨ic, ref, abc, e1, by rw [href]; exact e2, e4, ?_, ?_⟩
    · rw [e6 hleg]
      exact add_comm _ _
    · rw [e6 hleg]
      rfl
  · intro i hleg hi
    obtain ⟨ic, ref, so, abc, _, _, _, e4, e5, _, _, _⟩ := h i hi
    rw [e4, e5 hleg, hg]

/-- C21, witness: two legs and an arm whose impedance offset is (1, 0, 0, 0, 0, 0). -/
theorem execAutoStabilizer_abcTargetPose_witness :
    heldExecOps.KeepsSize ∧ armState.endEffectorParams.Sized ∧
      ∃ s1, execAutoStabilizer heldExecOps abcMode originBody (1 / 500) armState = some s1 ∧
        (∀ i, i < NUM_LEGS → i < armState.endEffectorParams.name.length →
          s1.endEffectorParams.abcTargetPose[i]? =
            some (heldExecOps.genCoords (heldExecOps.calcCOMCoords (heldExecOps.calcLegCoords
              (heldExecOps.calcFootSteps armState.gaitParam (1 / 500)) (1 / 500)) (1 / 500))
              i)) :=
  have h := execAutoStabilizer_abcTargetPose heldExecOps heldExecOps_keepsSize abcMode
    originBody (1 / 500) armState armState_sized
  ⟨heldExecOps_keepsSize, armState_sized, h.elim (fun s1 hs1 => ⟨s1, hs1.1, hs1.2.2.2⟩)⟩

/-! ## C22: the IK target poses of `execAutoStabilizer` -/

theorem applyOffset_zero (trig : Trig) (hc : trig.cos 0 = 1) (hs : trig.sin 0 = 0)
    (p : Position) : applyOffset trig 0 p = p := by
  have h0 : tail3 0 = 0 := by
    funext i
    fin_cases i <;> rfl
  have hh : head3 0 = 0 := by
    funext i
    fin_cases i <;> rfl
  have hn : mathutil.norm (0 : Vector3) = 0 := by
    unfold mathutil.norm
    have : mathutil.dot (0 : Vector3) 0 = 0 := by simp [mathutil.dot]
    rw [this, mathutil.sqrt_zero]
  have hA : AngleAxisd trig 0 mathutil.UnitX = 1 := by
    unfold AngleAxisd
    rw [hc, hs]
    ext i j
    fin_cases i <;> fin_cases j <;> simp [mathutil.angleAxis, mathutil.cross, mathutil.UnitX]
  unfold applyOffset
  rw [h0, hh, hn, if_neg (lt_irrefl 0), hA, zero_add, Matrix.one_mul]

/-- C22.  When the lists of the end-effector parameters hold one entry per end effector and
the library functions keep the number of offsets, `execAutoStabilizer` returns, and for
every end effector the IK target pose has the translation of the balancer target pose plus
the first three components of the stabilizer offset and the rotation
`AngleAxisd(|w|, axis) * R_abc`, `w` being the last three components and `axis` the vector
`w/|w|` when `|w| > 0` and `UnitX` otherwise; when the offset is the zero 6-vector (and the
cosine of 0 is 1, the sine of 0 is 0) the axis is `UnitX` and the IK target pose is the
balancer target pose. -/
theorem execAutoStabilizer_stTargetPose {G : Type} (ops : ExecOps G) (hops : ops.KeepsSize)
    (mode : ControlMode) (refRobot : Body) (dt : ℚ) (s : ExecState G)
    (hs : s.endEffectorParams.Sized) :
    ∃ s1, execAutoStabilizer ops mode refRobot dt s = some s1 ∧
      ∀ i, i < s.endEffectorParams.name.length →
        ∃ so abc st, s1.endEffectorParams.stOffset[i]? = some so ∧
          s1.endEffectorParams.abcTargetPose[i]? = some abc ∧
          s1.endEffectorParams.stTargetPose[i]? = some st ∧
          st.translation = abc.translation + head3 so.value ∧
          st.linear =
            AngleAxisd ops.trig (mathutil.norm (tail3 so.value))
              (if mathutil.norm (tail3 so.value) > 0 then mathutil.normalized (tail3 so.value)
                else mathutil.UnitX) * abc.linear ∧
          (so.value = 0 → ops.trig.cos 0 = 1 → ops.trig.sin 0 = 0 →
            (if mathutil.norm (tail3 so.value) > 0 then mathutil.normalized (tail3 so.value)
                else mathutil.UnitX) = mathutil.UnitX ∧ st = abc) := by
  obtain ⟨s1, hrun, _, _, _, h⟩ := execAutoStabilizer_spec ops hops mode refRobot dt s hs
  refine ⟨s1, hrun, ?_⟩
  intro i hi
  obtain ⟨ic, ref, so, abc, _, _, _, e4, _, _, e7, e8⟩ := h i hi
  refine ⟨so, abc, _, e7, e4, e8, add_comm _ _, rfl, ?_⟩
  intro h0 hc hsn
  rw [h0]
  refine ⟨?_, applyOffset_zero ops.trig hc hsn abc⟩
  have ht : tail3 0 = 0 := by
    funext i
    fin_cases i <;> rfl
  have hn : mathutil.norm (0 : Vector3) = 0 := by
    unfold mathutil.norm
    have : mathutil.dot (0 : Vector3) 0 = 0 := by simp [mathutil.dot]
    rw [this, mathutil.sqrt_zero]
  rw [ht, hn, if_neg (lt_irrefl 0)]

/-- C22, witness: two legs and an arm, all stabilizer offsets at rest at zero. -/
theorem execAutoStabilizer_stTargetPose_witness :
    heldExecOps.KeepsSize ∧ armState.endEffectorParams.Sized ∧
      heldExecOps.trig.cos 0 = 1 ∧ heldExecOps.trig.sin 0 = 0 ∧
      ∃ s1, execAutoStabilizer heldExecOps abcMode originBody (1 / 500) armState = some s1 ∧
        ∀ i, i < armState.endEffectorParams.name.length →
          ∃ so abc st, s1.endEffectorParams.stOffset[i]? = some so ∧
            s1.endEffectorParams.abcTargetPose[i]? = some abc ∧
            s1.endEffectorParams.stTargetPose[i]? = some st ∧
            st.translation = abc.translation + head3 so.value :=
  have h := execAutoStabilizer_stTargetPose heldExecOps heldExecOps_keepsSize abcMode
    originBody (1 / 500) armState armState_sized
  ⟨heldExecOps_keepsSize, armState_sized, by norm_num [heldExecOps, circleTrig],
    by norm_num [heldExecOps, circleTrig],
    h.elim (fun s1 hs1 => ⟨s1, hs1.1, fun i hi =>
      (hs1.2 i hi).elim (fun so h1 => h1.elim (fun abc h2 => h2.elim (fun st h3 =>
        ⟨so, abc, st, h3.1, h3.2.1, h3.2.2.1, h3.2.2.2.1⟩)))⟩)⟩

/-! ## C23: the step weights and the task list of `solveFullbodyIK` -/

theorem collect_eq_map {α : Type} (f : Nat → Option α) (g : Nat → α) (l : List Nat)
    (h : ∀ i ∈ l, f i = some (g i)) : collect f l = some (l.map g) := by
  induction l with
  | nil => rfl
  | cons i is ih =>
    unfold collect
    rw [h i (List.mem_cons_self _ _), ih (fun j hj => h j (List.mem_cons_of_mem _ hj))]
    rfl

theorem reduceOption_map_ite {α : Type} (c : Nat → Bool) (g : Nat → α) (l : List Nat) :
    (l.map (fun i => if c i then some (g i) else none)).reduceOption = (l.filter c).map g := by
  induction l with
  | nil => rfl
  | cons i is ih =>
    rw [List.map_cons]
    by_cases hc : c i = true
    · rw [if_pos hc, List.reduceOption_cons_of_some, ih, List.filter_cons_of_pos hc,
        List.map_cons]
    · rw [if_neg hc, List.reduceOption_cons_of_none, ih, List.filter_cons_of_neg hc]

/-- The number of indices whose entry passes a test is the number of entries that pass. -/
theorem length_filter_range {α : Type} (d : α) (p : α → Bool) (l : List α) :
    ((List.range l.length).filter (fun i => p (l.getD i d))).length = (l.filter p).length := by
  have hmap : (List.range l.length).map (fun i => l.getD i d) = l := by
    apply List.ext_getElem
    · simp
    · intro i h1 h2
      rw [List.getElem_map, List.getElem_range, List.getD_eq_getElem _ _ h2]
  have h1 : ((List.range l.length).filter (fun i => p (l.getD i d))).length =
      (((List.range l.length).map (fun i => l.getD i d)).filter p).length := by
    rw [List.filter_map, List.length_map]
    rfl
  rw [h1, hmap]

theorem dqWeightAll_spec (numJoints : Nat) (jointParams : List JointParam)
    (hj : jointParams.length = numJoints) :
    ∃ dq, dqWeightAll numJoints jointParams = some dq ∧ dq.length = 6 + numJoints ∧
      (∀ i, i < 6 → dq[i]? = some 1) ∧
      (∀ i jp, jointParams[i]? = some jp →
        dq[6 + i]? = some (if jp.controllable then 1 else 0)) := by
  unfold dqWeightAll
  have hlen6 : ∀ (m : Nat) (l : List ℚ),
      ((List.range m).foldl (fun dq i => dq.set i 1) l).length = l.length := by
    intro m
    induction m with
    | zero => intro l; rfl
    | succ m ih =>
      intro l
      rw [List.range_succ, List.foldl_append]
      simp [ih]
  have hget6 : ∀ (m : Nat) (l : List ℚ) (i : Nat),
      ((List.range m).foldl (fun dq i => dq.set i 1) l)[i]? =
        if i < m ∧ i < l.length then some 1 else l[i]? := by
    intro m
    induction m with
    | zero => intro l i; simp
    | succ m ih =>
      intro l i
      rw [List.range_succ, List.foldl_append]
      simp only [List.foldl_cons, List.foldl_nil]
      rw [List.getElem?_set, ih]
      by_cases him : m = i
      · subst him
        simp only [hlen6, if_true, lt_self_iff_false, false_and, if_false]
        by_cases hl : m < l.length
        · simp [hl]
        · simp [hl, List.getElem?_eq_none (not_lt.mp hl)]
      · rw [if_neg him]
        by_cases hl : i < l.length
        · by_cases hm : i < m
          · simp [hl, hm, Nat.lt_succ_of_lt hm]
          · have : ¬ i < m + 1 := by omega
            simp [hl, hm, this]
        · simp [hl]
  obtain ⟨dq, hdq, hlen, h6, hdone, _⟩ := foldlM_range_inv (dqWeightAt jointParams)
    (fun k dq => dq.length = 6 + numJoints ∧ (∀ i, i < 6 → dq[i]? = some 1) ∧
      (∀ i jp, i < k → jointParams[i]? = some jp →
        dq[6 + i]? = some (if jp.controllable then 1 else 0)) ∧
      (∀ i, k ≤ i → i < numJoints → dq[6 + i]? = some 0))
    jointParams.length
    ((List.range 6).foldl (fun dq i => dq.set i 1) (List.replicate (6 + numJoints) (0 : ℚ)))
    (by
      refine ⟨by rw [hlen6, List.length_replicate], ?_, ?_, ?_⟩
      · intro i hi
        rw [hget6, if_pos ⟨hi, by rw [List.length_replicate]; omega⟩]
      · intro i jp hi
        exact absurd hi (Nat.not_lt_zero i)
      · intro i _ hi
        rw [hget6, if_neg (by omega), List.getElem?_replicate, if_pos (by omega)])
    (by
      intro k dq hk ⟨hlen, h6, hdone, hrest⟩
      have hkj : k < jointParams.length := hk
      unfold dqWeightAt
      rw [List.getElem?_eq_getElem hkj]
      simp only
      by_cases hc : (jointParams[k]).controllable = true
      · rw [if_pos hc, if_pos (by omega)]
        refine ⟨_, rfl, by rw [List.length_set]; exact hlen, ?_, ?_, ?_⟩
        · intro i hi
          rw [List.getElem?_set, if_neg (by omega)]
          exact h6 i hi
        · intro i jp hi hjp
          rw [List.getElem?_set]
          by_cases hik : i = k
          · subst hik
            rw [List.getElem?_eq_getElem hkj] at hjp
            have hjp' := Option.some.inj hjp
            rw [if_pos rfl, if_pos (by omega), ← hjp', if_pos hc]
          · rw [if_neg (by omega)]
            exact hdone i jp (by omega) hjp
        · intro i hki hin
          rw [List.getElem?_set, if_neg (by omega)]
          exact hrest i (by omega) hin
      · rw [if_neg hc]
        refine ⟨_, rfl, hlen, h6, ?_, ?_⟩
        · intro i jp hi hjp
          by_cases hik : i = k
          · subst hik
            rw [List.getElem?_eq_getElem hkj] at hjp
            have hjp' := Option.some.inj hjp
            rw [← hjp', if_neg hc]
            exact hrest i (le_refl i) (by omega)
          · exact hdone i jp (by omega) hjp
        · intro i hki hin
          exact hrest i (by omega) hin)
  refine ⟨dq, hdq, hlen, h6, ?_⟩
  intro i jp hjp
  have hi : i < jointParams.length := by
    by_contra hc
    rw [List.getElem?_eq_none (not_lt.mp hc)] at hjp
    exact Option.noConfusion hjp
  exact hdone i jp hi hjp

theorem collect_spec {α : Type} (f : Nat → Option α) (l : List Nat) :
    ∀ as, collect f l = some as →
      as.length = l.length ∧ ∀ a ∈ as, ∃ i ∈ l, f i = some a := by
  induction l with
  | nil =>
    intro as h
    unfold collect at h
    rw [← Option.some.inj h]
    exact ⟨rfl, fun a ha => absurd ha (List.not_mem_nil a)⟩
  | cons i is ih =>
    intro as h
    unfold collect at h
    cases hf : f i with
    | none => rw [hf] at h; exact Option.noConfusion h
    | some a0 =>
      rw [hf] at h
      cases hrest : collect f is with
      | none => rw [hrest] at h; exact Option.noConfusion h
      | some rest =>
        rw [hrest] at h
        rw [← Option.some.inj h]
        obtain ⟨h1, h2⟩ := ih rest hrest
        refine ⟨by rw [List.length_cons, List.length_cons, h1], ?_⟩
        intro a ha
        rcases List.mem_cons.mp ha with rfl | ha
        · exact ⟨i, List.mem_cons_self _ _, hf⟩
        · obtain ⟨j, hj, hfj⟩ := h2 a ha
          exact ⟨j, List.mem_cons_of_mem _ hj, hfj⟩

theorem filterMap_jointOf_eef (stTargetPose : List Position) (dt : ℚ) (eef : List IKConstraint)
    (l : List Nat) (h : collect (eefConstraintAt stTargetPose dt) l = some eef) :
    eef.filterMap IKConstraint.jointOf = [] ∧ eef.length = l.length := by
  obtain ⟨h1, h2⟩ := collect_spec _ l eef h
  refine ⟨?_, h1⟩
  rw [List.filterMap_eq_nil_iff]
  intro a ha
  obtain ⟨i, _, hi⟩ := h2 a ha
  unfold eefConstraintAt at hi
  cases hT : stTargetPose[i]? with
  | none => rw [hT] at hi; exact Option.noConfusion hi
  | some T =>
    rw [hT] at hi
    rw [← Option.some.inj hi]
    rfl

theorem collect_eef_isSome (stTargetPose : List Position) (dt : ℚ) (n : Nat)
    (h : stTargetPose.length = n) :
    ∃ eef, collect (eefConstraintAt stTargetPose dt) (List.range n) = some eef := by
  refine ⟨_, collect_eq_map _ (fun i =>
    IKConstraint.PositionConstraint (IKLink.eeParent i) (stTargetPose.getD i Position.Identity)
      (fun _ => 10 * dt) (fun _ => 0) (if i < NUM_LEGS then fun _ => 9 else fun _ => 1)
      (stTargetPose.getD i Position.Identity).linear) _ ?_⟩
  intro i hi
  have hi' : i < stTargetPose.length := by rw [h]; exact List.mem_range.mp hi
  unfold eefConstraintAt
  rw [List.getElem?_eq_getElem hi']
  simp only [List.getD_eq_getElem _ _ hi']

/-- C23.  When `jointParams` holds one entry per joint of the generated robot, the reference
robot has as many joints and every end effector has an IK target pose, `solveFullbodyIK`
hands the solver a step-weight vector of length 6 + number of joints whose first six entries
are 1 and whose entry `6+i` is 1 when joint `i` is controllable and 0 when it is not, and a
task list that holds a joint-angle task for joint `i` exactly when joint `i` is controllable
and has (number of end effectors) + 3 + (number of controllable joints) entries. -/
theorem solveFullbodyIK_weights_and_tasks (genRobot refRobot : Body) (name : List String)
    (stTargetPose : List Position) (jlim_avoid_weight : List ℚ) (dt : ℚ)
    (jointParams : List JointParam) (genCog : Vector3) (stTargetRootPose : Position)
    (hj : jointParams.length = genRobot.q.length) (hr : refRobot.q.length = genRobot.q.length)
    (he : stTargetPose.length = name.length) :
    ∃ r, solveFullbodyIK genRobot refRobot name stTargetPose jlim_avoid_weight dt jointParams
          genCog stTargetRootPose = some r ∧
      r.dq_weight_all.length = 6 + genRobot.q.length ∧
      (∀ i, i < 6 → r.dq_weight_all[i]? = some 1) ∧
      (∀ i jp, jointParams[i]? = some jp →
        r.dq_weight_all[6 + i]? = some (if jp.controllable then 1 else 0)) ∧
      (∀ i, i ∈ r.ikConstraint.filterMap IKConstraint.jointOf ↔
        ∃ jp, jointParams[i]? = some jp ∧ jp.controllable = true) ∧
      (r.ikConstraint.filterMap IKConstraint.jointOf).Nodup ∧
      r.ikConstraint.length =
        name.length + 3 + (jointParams.filter (fun jp => jp.controllable)).length := by
  obtain ⟨dq, hdq, hlen, h6, hctrl⟩ := dqWeightAll_spec genRobot.q.length jointParams hj
  obtain ⟨eef, heef⟩ := collect_eef_isSome stTargetPose dt name.length he
  obtain ⟨heef0, heeflen⟩ := filterMap_jointOf_eef stTargetPose dt eef _ heef
  let d : JointParam := { name := "", maxTorque := 0, controllable := false }
  have href : collect (refJointAngleAt jointParams refRobot dt) (List.range genRobot.q.length) =
      some ((List.range genRobot.q.length).map (fun i =>
        if (jointParams.getD i d).controllable then
          some (IKConstraint.JointAngleConstraint i (10 * dt) (1 / 10) (refRobot.q.getD i 0) 0)
        else none)) := by
    apply collect_eq_map
    intro i hi
    have hi1 : i < jointParams.length := by rw [hj]; exact List.mem_range.mp hi
    have hi2 : i < refRobot.q.length := by rw [hr]; exact List.mem_range.mp hi
    unfold refJointAngleAt
    rw [List.getElem?_eq_getElem hi1, List.getElem?_eq_getElem hi2,
      List.getD_eq_getElem _ _ hi1, List.getD_eq_getElem _ _ hi2]
    simp only
    by_cases hc : (jointParams[i]).controllable = true
    · simp [hc]
    · simp [hc]
  have hfm : ∀ l : List Nat, (l.map (fun i =>
      IKConstraint.JointAngleConstraint i (10 * dt) (1 / 10) (refRobot.q.getD i 0) 0)).filterMap
        IKConstraint.jointOf = l := by
    intro l
    induction l with
    | nil => rfl
    | cons i is ih =>
      rw [List.map_cons, List.filterMap_cons]
      simp only [IKConstraint.jointOf]
      rw [ih]
  have hsolve : solveFullbodyIK genRobot refRobot name stTargetPose jlim_avoid_weight dt
      jointParams genCog stTargetRootPose =
      some { ikConstraint := eef ++
               [IKConstraint.COMConstraint genCog (fun _ => 10 * dt) (fun _ => 0) (fun _ => 3),
                IKConstraint.AngularMomentumConstraint 0 (fun _ => 1 * dt) (fun _ => 0)
                  ![1 / 10000, 1 / 10000, 0] dt,
                IKConstraint.PositionConstraint IKLink.rootLink stTargetRootPose
                  (fun _ => 10 * dt) (fun _ => 0) ![0, 0, 0, 3, 3, 3] 1] ++
               ((List.range genRobot.q.length).map (fun i =>
                 if (jointParams.getD i d).controllable then
                   some (IKConstraint.JointAngleConstraint i (10 * dt) (1 / 10)
                     (refRobot.q.getD i 0) 0)
                 else none)).reduceOption
             jlim_avoid_weight := if jlim_avoid_weight.length ≠ 6 + genRobot.q.length
               then List.replicate (6 + genRobot.q.length) (0 : ℚ) else jlim_avoid_weight
             dq_weight_all := dq } := by
    unfold solveFullbodyIK
    simp only [hdq, heef, href]
  refine ⟨_, hsolve, hlen, h6, hctrl, ?_, ?_, ?_⟩
  · intro i
    simp only [List.filterMap_append, heef0, List.nil_append]
    rw [reduceOption_map_ite (fun i => (jointParams.getD i d).controllable)
      (fun i => IKConstraint.JointAngleConstraint i (10 * dt) (1 / 10) (refRobot.q.getD i 0) 0)]
    simp only [List.filterMap_cons, IKConstraint.jointOf, List.filterMap_nil, List.nil_append]
    rw [hfm, List.mem_filter, List.mem_range]
    constructor
    · rintro ⟨hi, hc⟩
      have hi1 : i < jointParams.length := by rw [hj]; exact hi
      rw [List.getD_eq_getElem _ _ hi1] at hc
      exact ⟨jointParams[i], List.getElem?_eq_getElem hi1, hc⟩
    · rintro ⟨jp, hjp, hc⟩
      have hi1 : i < jointParams.length := by
        by_contra hcon
        rw [List.getElem?_eq_none (not_lt.mp hcon)] at hjp
        exact Option.noConfusion hjp
      rw [List.getElem?_eq_getElem hi1] at hjp
      rw [List.getD_eq_getElem _ _ hi1, Option.some.inj hjp]
      exact ⟨by rw [← hj]; exact hi1, hc⟩
  · simp only [List.filterMap_append, heef0, List.nil_append]
    rw [reduceOption_map_ite (fun i => (jointParams.getD i d).controllable)
      (fun i => IKConstraint.JointAngleConstraint i (10 * dt) (1 / 10) (refRobot.q.getD i 0) 0)]
    simp only [List.filterMap_cons, IKConstraint.jointOf, List.filterMap_nil, List.nil_append]
    rw [hfm]
    exact List.Nodup.filter _ (List.nodup_range _)
  · simp only [List.length_append, List.length_cons, List.length_nil]
    rw [reduceOption_map_ite (fun i => (jointParams.getD i d).controllable)
      (fun i => IKConstraint.JointAngleConstraint i (10 * dt) (1 / 10) (refRobot.q.getD i 0) 0),
      List.length_map, heeflen, List.length_range, ← hj,
      length_filter_range d (fun jp => jp.controllable) jointParams]

/-- C23, witness: three end effectors and two joints, the first controllable, the second
not. -/
theorem solveFullbodyIK_weights_and_tasks_witness :
    mixedJointParams.length = twoJointBody.q.length ∧
      twoJointRef.q.length = twoJointBody.q.length ∧
      [Position.Identity, Position.Identity, Position.Identity].length =
        ["rleg", "lleg", "rarm"].length ∧
      ∃ r, solveFullbodyIK twoJointBody twoJointRef ["rleg", "lleg", "rarm"]
            [Position.Identity, Position.Identity, Position.Identity] [] (1 / 500)
            mixedJointParams 0 Position.Identity = some r ∧
        r.dq_weight_all.length = 6 + twoJointBody.q.length ∧
        r.ikConstraint.length =
          ["rleg", "lleg", "rarm"].length + 3 +
            (mixedJointParams.filter (fun jp => jp.controllable)).length :=
  have h := solveFullbodyIK_weights_and_tasks twoJointBody twoJointRef ["rleg", "lleg", "rarm"]
    [Position.Identity, Position.Identity, Position.Identity] [] (1 / 500) mixedJointParams 0
    Position.Identity rfl rfl rfl
  ⟨rfl, rfl, rfl, h.elim (fun r hr => ⟨r, hr.1, hr.2.1, hr.2.2.2.2.2.2⟩)⟩

/-! ## C24: the weighted mean of `calcMidPos` and `calcMidCoords` -/

namespace mathutil

/-- The weight accumulated by the loop of `calcMidPos` is never negative. -/
theorem calcMidPos_fold_nonneg (L : List (Vector3 × ℚ)) :
    ∀ st : ℚ × Vector3, 0 ≤ st.1 → 0 ≤ (L.foldl calcMidPosStep st).1 := by
  induction L with
  | nil => intro st h; exact h
  | cons cw rest ih =>
    intro st h
    rw [List.foldl_cons]
    apply ih
    unfold calcMidPosStep
    split
    · exact h
    · rename_i hw
      have : 0 < cw.2 := not_le.mp hw
      show 0 ≤ st.1 + cw.2
      linarith

/-- The invariant of the loop of `calcMidPos`: the accumulated weight is the initial weight
plus the positive weights met, and the accumulated weight times the mid-point is the weighted
sum of the points met. -/
theorem calcMidPos_fold (L : List (Vector3 × ℚ)) :
    ∀ st : ℚ × Vector3, 0 ≤ st.1 →
      (L.foldl calcMidPosStep st).1 =
          st.1 + ((L.filter (fun cw => decide (0 < cw.2))).map Prod.snd).sum ∧
        (L.foldl calcMidPosStep st).1 • (L.foldl calcMidPosStep st).2 =
          st.1 • st.2 + ((L.filter (fun cw => decide (0 < cw.2))).map
            (fun cw => cw.2 • cw.1)).sum := by
  induction L with
  | nil => intro st _; simp
  | cons cw rest ih =>
    intro st h
    rw [List.foldl_cons]
    by_cases hw : cw.2 ≤ 0
    · have hstep : calcMidPosStep st cw = st := by
        unfold calcMidPosStep
        rw [if_pos hw]
      have hf : decide (0 < cw.2) = false := decide_eq_false (not_lt.mpr hw)
      rw [hstep, List.filter_cons_of_neg (by rw [hf]; exact Bool.false_ne_true)]
      exact ih st h
    · have hpos : 0 < cw.2 := not_le.mp hw
      have hstep : calcMidPosStep st cw =
          (st.1 + cw.2, (1 / (st.1 + cw.2)) • (st.1 • st.2 + cw.2 • cw.1)) := by
        unfold calcMidPosStep
        rw [if_neg hw]
      have hne : st.1 + cw.2 ≠ 0 := by linarith
      have hf : decide (0 < cw.2) = true := decide_eq_true hpos
      have hfc : (cw :: rest).filter (fun cw => decide (0 < cw.2)) =
          cw :: rest.filter (fun cw => decide (0 < cw.2)) := List.filter_cons_of_pos hf
      rw [hstep, hfc]
      obtain ⟨h1, h2⟩ := ih (st.1 + cw.2, (1 / (st.1 + cw.2)) • (st.1 • st.2 + cw.2 • cw.1))
        (by show 0 ≤ st.1 + cw.2; linarith)
      refine ⟨?_, ?_⟩
      · rw [h1, List.map_cons, List.sum_cons]
        ring
      · rw [h2, List.map_cons, List.sum_cons]
        simp only []
        rw [smul_smul, mul_one_div, div_self hne, one_smul]
        abel

/-- A list of positive rationals whose sum is zero is empty. -/
theorem filter_pos_eq_nil_of_sum (L : List ℚ)
    (h : (L.filter (fun w => decide (0 < w))).sum = 0) :
    L.filter (fun w => decide (0 < w)) = [] := by
  have hall : ∀ x ∈ L.filter (fun w => decide (0 < w)), 0 < x := by
    intro x hx
    have := (List.mem_filter.mp hx).2
    exact of_decide_eq_true this
  generalize L.filter (fun w => decide (0 < w)) = M at h hall
  cases M with
  | nil => rfl
  | cons a rest =>
    exfalso
    have ha : 0 < a := hall a (List.mem_cons_self _ _)
    have hr : 0 ≤ rest.sum :=
      List.sum_nonneg (fun x hx => le_of_lt (hall x (List.mem_cons_of_mem _ hx)))
    rw [List.sum_cons] at h
    linarith

/-- The loop of `calcMidPos` leaves its state as it is when no weight is positive. -/
theorem calcMidPos_fold_skip (L : List (Vector3 × ℚ)) (hL : ∀ cw ∈ L, cw.2 ≤ 0) :
    ∀ st : ℚ × Vector3, L.foldl calcMidPosStep st = st := by
  induction L with
  | nil => intro st; rfl
  | cons cw rest ih =>
    intro st
    rw [List.foldl_cons]
    have hstep : calcMidPosStep st cw = st := by
      unfold calcMidPosStep
      rw [if_pos (hL cw (List.mem_cons_self _ _))]
    rw [hstep]
    exact ih (fun x hx => hL x (List.mem_cons_of_mem _ hx)) st

/-- The loop of `calcMidCoords` leaves its state as it is when no weight is positive. -/
theorem calcMidCoords_fold_skip (scale : AngleScale) (L : List (Position × ℚ))
    (hL : ∀ cw ∈ L, cw.2 ≤ 0) :
    ∀ st : ℚ × Position, L.foldl (calcMidCoordsStep scale) st = st := by
  induction L with
  | nil => intro st; rfl
  | cons cw rest ih =>
    intro st
    rw [List.foldl_cons]
    have hstep : calcMidCoordsStep scale st cw = st := by
      unfold calcMidCoordsStep
      rw [if_pos (hL cw (List.mem_cons_self _ _))]
    rw [hstep]
    exact ih (fun x hx => hL x (List.mem_cons_of_mem _ hx)) st

/-- The weight and the translation of the loop state of `calcMidCoords` evolve as the state
of `calcMidPos` on the translations. -/
theorem calcMidCoords_fold_translation (scale : AngleScale) (L : List (Position × ℚ)) :
    ∀ st : ℚ × Position,
      ((L.foldl (calcMidCoordsStep scale) st).1,
          (L.foldl (calcMidCoordsStep scale) st).2.translation) =
        (L.map (fun cw => (cw.1.translation, cw.2))).foldl calcMidPosStep
          (st.1, st.2.translation) := by
  induction L with
  | nil => intro st; rfl
  | cons cw rest ih =>
    intro st
    rw [List.foldl_cons, List.map_cons, List.foldl_cons, ih]
    congr 1
    unfold calcMidCoordsStep calcMidPosStep
    by_cases hw : cw.2 ≤ 0
    · rw [if_pos hw, if_pos hw]
    · rw [if_neg hw, if_neg hw]

/-- The value of `calcMidPos` on a list of pairs: the weighted mean over the positive
weights. -/
theorem calcMidPos_zip_mean (L : List (Vector3 × ℚ)) :
    (L.foldl calcMidPosStep (0, 0)).2 =
      (1 / ((L.filter (fun cw => decide (0 < cw.2))).map Prod.snd).sum) •
        ((L.filter (fun cw => decide (0 < cw.2))).map (fun cw => cw.2 • cw.1)).sum := by
  obtain ⟨h1, h2⟩ := calcMidPos_fold L (0, 0) (le_refl 0)
  simp only [zero_add, smul_zero] at h1 h2
  by_cases hS : ((L.filter (fun cw => decide (0 < cw.2))).map Prod.snd).sum = 0
  · have hnil : (L.map Prod.snd).filter (fun w => decide (0 < w)) = [] := by
      apply filter_pos_eq_nil_of_sum
      rw [List.filter_map]
      exact hS
    have hskip : ∀ cw ∈ L, cw.2 ≤ 0 := by
      intro cw hcw
      by_contra hc
      have hpos : 0 < cw.2 := not_le.mp hc
      have : cw.2 ∈ (L.map Prod.snd).filter (fun w => decide (0 < w)) :=
        List.mem_filter.mpr ⟨List.mem_map_of_mem _ hcw, decide_eq_true hpos⟩
      rw [hnil] at this
      exact List.not_mem_nil _ this
    rw [calcMidPos_fold_skip L hskip, hS]
    simp
  · rw [← h2, ← h1, smul_smul, one_div, inv_mul_cancel₀ (by rwa [h1]), one_smul]

theorem positiveWeightSum_zip {α : Type} (coords : List α) (weights : List ℚ)
    (h : coords.length = weights.length) :
    (((coords.zip weights).filter (fun cw => decide (0 < cw.2))).map Prod.snd).sum =
      positiveWeightSum weights := by
  unfold positiveWeightSum
  have : ((coords.zip weights).filter (fun cw => decide (0 < cw.2))).map Prod.snd =
      ((coords.zip weights).map Prod.snd).filter (fun w => decide (0 < w)) := by
    rw [List.filter_map]
    rfl
  rw [this, List.map_snd_zip _ _ (le_of_eq h.symm)]

/-- The loop of `calcMidCoords` does not read a pose whose weight is not positive. -/
theorem calcMidCoords_fold_congr (scale : AngleScale) (L L1 : List (Position × ℚ))
    (h : List.Forall₂ (fun cw cw1 => cw.2 = cw1.2 ∧ (0 < cw.2 → cw.1 = cw1.1)) L L1) :
    ∀ st : ℚ × Position,
      L.foldl (calcMidCoordsStep scale) st = L1.foldl (calcMidCoordsStep scale) st := by
  induction h with
  | nil => intro st; rfl
  | cons hab _ ih =>
    rename_i a b l l1 _
    intro st
    rw [List.foldl_cons, List.foldl_cons]
    have hstep : calcMidCoordsStep scale st a = calcMidCoordsStep scale st b := by
      unfold calcMidCoordsStep
      by_cases hw : a.2 ≤ 0
      · rw [if_pos hw, if_pos (hab.1 ▸ hw)]
      · rw [if_neg hw, if_neg (hab.1 ▸ hw), ← hab.1, ← hab.2 (not_le.mp hw)]
    rw [hstep]
    exact ih _

/-- The loop of `calcMidPos` does not read a point whose weight is not positive. -/
theorem calcMidPos_fold_congr (L L1 : List (Vector3 × ℚ))
    (h : List.Forall₂ (fun cw cw1 => cw.2 = cw1.2 ∧ (0 < cw.2 → cw.1 = cw1.1)) L L1) :
    ∀ st : ℚ × Vector3, L.foldl calcMidPosStep st = L1.foldl calcMidPosStep st := by
  induction h with
  | nil => intro st; rfl
  | cons hab _ ih =>
    rename_i a b l l1 _
    intro st
    rw [List.foldl_cons, List.foldl_cons]
    have hstep : calcMidPosStep st a = calcMidPosStep st b := by
      unfold calcMidPosStep
      by_cases hw : a.2 ≤ 0
      · rw [if_pos hw, if_pos (hab.1 ▸ hw)]
      · rw [if_neg hw, if_neg (hab.1 ▸ hw), ← hab.1, ← hab.2 (not_le.mp hw)]
    rw [hstep]
    exact ih _

theorem zip_weights_nonpos {α : Type} (coords : List α) (weights : List ℚ)
    (h : ∀ w ∈ weights, w ≤ 0) : ∀ cw ∈ coords.zip weights, cw.2 ≤ 0 := by
  intro cw hcw
  exact h cw.2 (List.of_mem_zip (a := cw.1) (b := cw.2) hcw).2

end mathutil

/-- C24.  For lists of equal length: the translation `calcMidCoords` returns and the vector
`calcMidPos` returns are the weighted mean, the sum of `w_i * p_i` over the entries with
`w_i > 0` divided by the sum of these `w_i`; the results do not change when the entries
whose weight is not positive are replaced; when no weight is positive `calcMidCoords` returns
the identity pose and `calcMidPos` the zero vector; and every divisor `sumWeight+weights[i]`
the loops use is positive. -/
theorem calcMid_weighted_mean (scale : mathutil.AngleScale) (coords : List Position)
    (ps : List Vector3) (weights : List ℚ)
    (hc : coords.length = weights.length) (hp : ps.length = weights.length) :
    (mathutil.calcMidCoords scale coords weights).translation =
        (1 / positiveWeightSum weights) •
          positiveWeightedSum (coords.map Position.translation) weights ∧
      mathutil.calcMidPos ps weights =
        (1 / positiveWeightSum weights) • positiveWeightedSum ps weights ∧
      (∀ coords1 : List Position,
        List.Forall₂ (fun cw cw1 => cw.2 = cw1.2 ∧ (0 < cw.2 → cw.1 = cw1.1))
            (coords.zip weights) (coords1.zip weights) →
          mathutil.calcMidCoords scale coords weights =
            mathutil.calcMidCoords scale coords1 weights) ∧
      (∀ ps1 : List Vector3,
        List.Forall₂ (fun cw cw1 => cw.2 = cw1.2 ∧ (0 < cw.2 → cw.1 = cw1.1))
            (ps.zip weights) (ps1.zip weights) →
          mathutil.calcMidPos ps weights = mathutil.calcMidPos ps1 weights) ∧
      ((∀ w ∈ weights, w ≤ 0) →
        mathutil.calcMidCoords scale coords weights = Position.Identity ∧
          mathutil.calcMidPos ps weights = 0) ∧
      (∀ (k : Nat) (c : Position) (w : ℚ), (coords.zip weights)[k]? = some (c, w) → 0 < w →
        0 < (((coords.zip weights).take k).foldl (mathutil.calcMidCoordsStep scale)
          (0, Position.Identity)).1 + w) ∧
      (∀ (k : Nat) (p : Vector3) (w : ℚ), (ps.zip weights)[k]? = some (p, w) → 0 < w →
        0 < (((ps.zip weights).take k).foldl mathutil.calcMidPosStep (0, 0)).1 + w) := by
  refine ⟨?_, ?_, ?_, ?_, ?_, ?_, ?_⟩
  · have h := mathutil.calcMidCoords_fold_translation scale (coords.zip weights)
      (0, Position.Identity)
    have h2 := congrArg Prod.snd h
    simp only at h2
    unfold mathutil.calcMidCoords
    rw [h2]
    have hI : Position.Identity.translation = 0 := rfl
    rw [hI, mathutil.calcMidPos_zip_mean]
    have hz : (coords.zip weights).map (fun cw => (cw.1.translation, cw.2)) =
        (coords.map Position.translation).zip weights := by
      rw [List.zip_map_left]
      rfl
    rw [hz, mathutil.positiveWeightSum_zip _ _ (by rw [List.length_map]; exact hc)]
    rfl
  · unfold mathutil.calcMidPos
    rw [mathutil.calcMidPos_zip_mean, mathutil.positiveWeightSum_zip _ _ hp]
    rfl
  · intro coords1 h
    unfold mathutil.calcMidCoords
    rw [mathutil.calcMidCoords_fold_congr scale _ _ h]
  · intro ps1 h
    unfold mathutil.calcMidPos
    rw [mathutil.calcMidPos_fold_congr _ _ h]
  · intro h
    unfold mathutil.calcMidCoords mathutil.calcMidPos
    rw [mathutil.calcMidCoords_fold_skip scale _ (mathutil.zip_weights_nonpos coords weights h),
      mathutil.calcMidPos_fold_skip _ (mathutil.zip_weights_nonpos ps weights h)]
    exact ⟨rfl, rfl⟩
  · intro k c w _ hw
    have h := mathutil.calcMidCoords_fold_translation scale ((coords.zip weights).take k)
      (0, Position.Identity)
    have h1 := congrArg Prod.fst h
    simp only at h1
    rw [h1]
    have := mathutil.calcMidPos_fold_nonneg
      (((coords.zip weights).take k).map (fun cw => (cw.1.translation, cw.2)))
      (0, Position.Identity.translation) (le_refl 0)
    linarith
  · intro k p w _ hw
    have := mathutil.calcMidPos_fold_nonneg ((ps.zip weights).take k) (0, 0) (le_refl 0)
    linarith

/-- C24, witness: two feet of the neutral stance with weights 1 and 1, and the points
(0, 0, 0) and (2, 0, 0) with the same weights. -/
theorem calcMid_weighted_mean_witness :
    [standPose RLEG, standPose LLEG].length = [(1 : ℚ), 1].length ∧
      [(![0, 0, 0] : Vector3), ![2, 0, 0]].length = [(1 : ℚ), 1].length ∧
      mathutil.calcMidPos [![0, 0, 0], ![2, 0, 0]] [1, 1] =
        (1 / positiveWeightSum [1, 1]) • positiveWeightedSum [![0, 0, 0], ![2, 0, 0]] [1, 1] ∧
      (mathutil.calcMidCoords chordScale [standPose RLEG, standPose LLEG] [1, 1]).translation =
        (1 / positiveWeightSum [1, 1]) •
          positiveWeightedSum ([standPose RLEG, standPose LLEG].map Position.translation)
            [1, 1] :=
  have h := calcMid_weighted_mean chordScale [standPose RLEG, standPose LLEG]
    [![0, 0, 0], ![2, 0, 0]] [1, 1] rfl rfl
  ⟨rfl, rfl, h.2.1, h.1⟩

/-! ## C25: the weights of `calcRefFootMidCoords` -/

namespace RefToGenFrameConverter

open mathutil

/-- The translation of `calcMidCoords` on the three poses of `calcRefFootMidCoords` when the
first pose has the smaller weight `b`, the second the rest `a - b`, and the third weight 0. -/
theorem calcMidCoords_both_first_translation (scale : AngleScale) (both first second : Position)
    (a b : ℚ) (hb : 0 ≤ b) (hab : b ≤ a) (ha : 0 < a) :
    (calcMidCoords scale [both, first, second] [b, a - b, 0]).translation =
      (1 / a) • (b • both.translation + (a - b) • first.translation) := by
  have ha0 : a ≠ 0 := ne_of_gt ha
  simp only [calcMidCoords, List.zip_cons_cons, List.zip_nil_right, List.foldl_cons,
    List.foldl_nil, calcMidCoordsStep_zero]
  by_cases hb0 : b = 0
  · subst hb0
    simp only [calcMidCoordsStep_zero, sub_zero, zero_smul, zero_add]
    unfold calcMidCoordsStep
    rw [if_neg (not_le.mpr ha)]
    simp [Position.Identity]
  · have hbpos : 0 < b := lt_of_le_of_ne hb (Ne.symm hb0)
    by_cases hab0 : a - b ≤ 0
    · have hba : a = b := le_antisymm (by linarith) hab
      subst hba
      rw [calcMidCoordsStep_skip scale _ _ _ hab0]
      unfold calcMidCoordsStep
      rw [if_neg (not_le.mpr hbpos)]
      simp [Position.Identity]
    · unfold calcMidCoordsStep
      rw [if_neg (not_le.mpr hbpos)]
      simp only [if_neg hab0]
      simp only [Position.Identity, zero_add, smul_zero]
      rw [show b + (a - b) = a by ring, smul_smul, mul_one_div, div_self hb0, one_smul]

end RefToGenFrameConverter

/-- C25.  With `r` and `l` the positions of the two shifted feet: when the weight of the
right leg is positive and at least the weight of the left leg, which is not negative,
`calcRefFootMidCoords` returns the translation `(1 - wL/(2*wR))*r + (wL/(2*wR))*l`, and
symmetrically with the legs exchanged; positive equal weights give the midpoint
`(r + l)/2`; when both weights are 0 the function returns the identity pose. -/
theorem calcRefFootMidCoords_weights {I : Type} (scale : mathutil.AngleScale)
    (refFootOriginWeight : Nat → ℚ) (eePose : Nat → Position) (gaitParam : GaitParam I) :
    (refFootOriginWeight LLEG ≤ refFootOriginWeight RLEG → 0 ≤ refFootOriginWeight LLEG →
        0 < refFootOriginWeight RLEG →
        (RefToGenFrameConverter.calcRefFootMidCoords scale refFootOriginWeight eePose
            gaitParam).translation =
          (1 - refFootOriginWeight LLEG / (2 * refFootOriginWeight RLEG)) •
              (RefToGenFrameConverter.shiftFoot gaitParam RLEG (eePose RLEG)).translation +
            (refFootOriginWeight LLEG / (2 * refFootOriginWeight RLEG)) •
              (RefToGenFrameConverter.shiftFoot gaitParam LLEG (eePose LLEG)).translation) ∧
      (refFootOriginWeight RLEG ≤ refFootOriginWeight LLEG → 0 ≤ refFootOriginWeight RLEG →
        0 < refFootOriginWeight LLEG →
        (RefToGenFrameConverter.calcRefFootMidCoords scale refFootOriginWeight eePose
            gaitParam).translation =
          (1 - refFootOriginWeight RLEG / (2 * refFootOriginWeight LLEG)) •
              (RefToGenFrameConverter.shiftFoot gaitParam LLEG (eePose LLEG)).translation +
            (refFootOriginWeight RLEG / (2 * refFootOriginWeight LLEG)) •
              (RefToGenFrameConverter.shiftFoot gaitParam RLEG (eePose RLEG)).translation) ∧
      (0 < refFootOriginWeight RLEG → refFootOriginWeight LLEG = refFootOriginWeight RLEG →
        (RefToGenFrameConverter.calcRefFootMidCoords scale refFootOriginWeight eePose
            gaitParam).translation =
          (1 / 2 : ℚ) •
            ((RefToGenFrameConverter.shiftFoot gaitParam RLEG (eePose RLEG)).translation +
              (RefToGenFrameConverter.shiftFoot gaitParam LLEG (eePose LLEG)).translation)) ∧
      (refFootOriginWeight RLEG = 0 → refFootOriginWeight LLEG = 0 →
        RefToGenFrameConverter.calcRefFootMidCoords scale refFootOriginWeight eePose
          gaitParam = Position.Identity) := by
  have hR : refFootOriginWeight LLEG ≤ refFootOriginWeight RLEG →
      0 ≤ refFootOriginWeight LLEG → 0 < refFootOriginWeight RLEG →
      (RefToGenFrameConverter.calcRefFootMidCoords scale refFootOriginWeight eePose
          gaitParam).translation =
        (1 - refFootOriginWeight LLEG / (2 * refFootOriginWeight RLEG)) •
            (RefToGenFrameConverter.shiftFoot gaitParam RLEG (eePose RLEG)).translation +
          (refFootOriginWeight LLEG / (2 * refFootOriginWeight RLEG)) •
            (RefToGenFrameConverter.shiftFoot gaitParam LLEG (eePose LLEG)).translation := by
    intro hle hl hr
    have hr0 : refFootOriginWeight RLEG ≠ 0 := ne_of_gt hr
    unfold RefToGenFrameConverter.calcRefFootMidCoords
    simp only [min_eq_right hle, sub_self]
    rw [RefToGenFrameConverter.calcMidCoords_both_first_translation scale _ _ _ _ _ hl hle hr,
      RefToGenFrameConverter.calcMidCoords_pair_translation]
    funext i
    simp only [Pi.add_apply, Pi.smul_apply, smul_eq_mul]
    field_simp
    ring
  refine ⟨hR, ?_, ?_, ?_⟩
  · intro hle hr hl
    have hl0 : refFootOriginWeight LLEG ≠ 0 := ne_of_gt hl
    unfold RefToGenFrameConverter.calcRefFootMidCoords
    simp only [min_eq_left hle, sub_self]
    have hswap : mathutil.calcMidCoords scale
        [mathutil.calcMidCoords scale
            [RefToGenFrameConverter.shiftFoot gaitParam RLEG (eePose RLEG),
              RefToGenFrameConverter.shiftFoot gaitParam LLEG (eePose LLEG)] [1, 1],
          RefToGenFrameConverter.shiftFoot gaitParam RLEG (eePose RLEG),
          RefToGenFrameConverter.shiftFoot gaitParam LLEG (eePose LLEG)]
        [refFootOriginWeight RLEG, 0, refFootOriginWeight LLEG - refFootOriginWeight RLEG] =
      mathutil.calcMidCoords scale
        [mathutil.calcMidCoords scale
            [RefToGenFrameConverter.shiftFoot gaitParam RLEG (eePose RLEG),
              RefToGenFrameConverter.shiftFoot gaitParam LLEG (eePose LLEG)] [1, 1],
          RefToGenFrameConverter.shiftFoot gaitParam LLEG (eePose LLEG),
          RefToGenFrameConverter.shiftFoot gaitParam RLEG (eePose RLEG)]
        [refFootOriginWeight RLEG, refFootOriginWeight LLEG - refFootOriginWeight RLEG, 0] := by
      simp only [mathutil.calcMidCoords, List.zip_cons_cons, List.zip_nil_right,
        List.foldl_cons, List.foldl_nil, mathutil.calcMidCoordsStep_zero]
    rw [hswap,
      RefToGenFrameConverter.calcMidCoords_both_first_translation scale _ _ _ _ _ hr hle hl,
      RefToGenFrameConverter.calcMidCoords_pair_translation]
    funext i
    simp only [Pi.add_apply, Pi.smul_apply, smul_eq_mul]
    field_simp
    ring
  · intro hr he
    rw [hR (le_of_eq he) (by rw [he]; exact le_of_lt hr) hr, he]
    have hr0 : refFootOriginWeight RLEG ≠ 0 := ne_of_gt hr
    funext i
    simp only [Pi.add_apply, Pi.smul_apply, smul_eq_mul]
    field_simp
    ring
  · intro hr hl
    unfold RefToGenFrameConverter.calcRefFootMidCoords mathutil.calcMidCoords
    simp only [hr, hl, min_self, sub_self, List.zip_cons_cons, List.zip_nil_right,
      List.foldl_cons, List.foldl_nil, mathutil.calcMidCoordsStep_zero]

/-- C25, witness: weight 1 on the right leg and 1/2 on the left leg at the neutral stance. -/
theorem calcRefFootMidCoords_weights_witness :
    rightHeavyWeight LLEG ≤ rightHeavyWeight RLEG ∧ 0 ≤ rightHeavyWeight LLEG ∧
      0 < rightHeavyWeight RLEG ∧
      (RefToGenFrameConverter.calcRefFootMidCoords chordScale rightHeavyWeight standPose
          standGait).translation =
        (1 - rightHeavyWeight LLEG / (2 * rightHeavyWeight RLEG)) •
            (RefToGenFrameConverter.shiftFoot standGait RLEG (standPose RLEG)).translation +
          (rightHeavyWeight LLEG / (2 * rightHeavyWeight RLEG)) •
            (RefToGenFrameConverter.shiftFoot standGait LLEG (standPose LLEG)).translation :=
  have h1 : rightHeavyWeight LLEG ≤ rightHeavyWeight RLEG := by
    norm_num [rightHeavyWeight, RLEG, LLEG]
  have h2 : 0 ≤ rightHeavyWeight LLEG := by norm_num [rightHeavyWeight, RLEG, LLEG]
  have h3 : 0 < rightHeavyWeight RLEG := by norm_num [rightHeavyWeight, RLEG, LLEG]
  ⟨h1, h2, h3,
    (calcRefFootMidCoords_weights chordScale rightHeavyWeight standPose standGait).1 h1 h2 h3⟩

/-! ## C26: the nodes `convertFrame` reads -/

/-- C26.  On the non-empty queue that holds the single node `flightNode`, in which neither leg
is in support, `convertFrame` reads node 1, which the queue does not hold: the run is
undefined, whatever the interpolator, the angle scaling, the hand-fix value and `dt` are. -/
theorem convertFrame_flight_reads_missing_node (ops : SE3Ops Unit)
    (scale : mathutil.AngleScale) (handFixMode dt : ℚ) :
    flightGait.footstepNodesList.length = 1 ∧
      RefToGenFrameConverter.footMidGoal scale flightGait = none ∧
      RefToGenFrameConverter.convertFrame ops scale handFixMode flightGait dt = none := by
  have h : RefToGenFrameConverter.footMidGoal scale flightGait = none := rfl
  refine ⟨rfl, h, ?_⟩
  unfold RefToGenFrameConverter.convertFrame
  rw [h]

/-! ## C27: `orientCoordToAxis` on opposite axes -/

/-- C27.  For the identity rotation, the local axis `UnitZ` and the opposite unit vector as
target axis, `orientCoordToAxis` returns minus the identity, whose determinant is -1: the
result is orthogonal but not a rotation. -/
theorem orientCoordToAxis_opposite_not_rotation :
    IsRotation (1 : Matrix3) ∧ mathutil.dot (-mathutil.UnitZ) (-mathutil.UnitZ) = 1 ∧
      mathutil.dot mathutil.UnitZ mathutil.UnitZ = 1 ∧
      mathutil.orientCoordToAxis 1 (-mathutil.UnitZ) mathutil.UnitZ = -1 ∧
      (mathutil.orientCoordToAxis 1 (-mathutil.UnitZ) mathutil.UnitZ).det = -1 ∧
      ¬ IsRotation (mathutil.orientCoordToAxis 1 (-mathutil.UnitZ) mathutil.UnitZ) := by
  have hcr : mathutil.cross3 ((1 : Matrix3).mulVec mathutil.UnitZ) (-mathutil.UnitZ) = 0 := by
    rw [Matrix.one_mulVec]
    funext i
    fin_cases i <;> simp [mathutil.cross3, mathutil.UnitZ]
  have hd : mathutil.dot ((1 : Matrix3).mulVec mathutil.UnitZ) (-mathutil.UnitZ) = -1 := by
    rw [Matrix.one_mulVec]
    simp [mathutil.dot, mathutil.UnitZ]
  have h0 : mathutil.dot (0 : Vector3) 0 = 0 := by simp [mathutil.dot]
  have he : mathutil.orientCoordToAxis 1 (-mathutil.UnitZ) mathutil.UnitZ = -1 := by
    unfold mathutil.orientCoordToAxis
    simp only [hcr, hd, mathutil.norm]
    rw [h0, if_pos mathutil.sqrt_zero]
    norm_num
  have hdet : (-1 : Matrix3).det = -1 := by
    rw [Matrix.det_fin_three]
    simp
  refine ⟨⟨by simp, by simp⟩, by simp [mathutil.dot, mathutil.UnitZ],
    by simp [mathutil.dot, mathutil.UnitZ], he, by rw [he]; exact hdet, ?_⟩
  rw [he]
  intro h
  have := h.2
  rw [hdet] at this
  norm_num at this

/-! ## C28: `calcNearestPointOfHull` -/

namespace mathutil

/-- The step of the loop of `calcNearestPointOfHull` compares the distance to the point
taken for the edge with the minimum so far. -/
theorem nearestStep_eq (p : Vector3) (hull : List Vector3) (st : Option Root × Vector2)
    (i : Nat) :
    nearestStep (head2 p) hull st i =
      if belowMin (norm2 (head2 p - nearestOnEdge p hull i)) st.1 then
        (some (norm2 (head2 p - nearestOnEdge p hull i)), nearestOnEdge p hull i)
      else st := by
  unfold nearestStep nearestOnEdge nearestOnSegment
  simp only
  split_ifs <;> rfl

/-- The value of the point taken for a segment: the foot of the perpendicular is
`p1 + (dot / |p2 - p1|^2) * (p2 - p1)`. -/
theorem nearestOnSegment_eq (p a b : Vector2) :
    nearestOnSegment p a b =
      if dot2 (b - a) (p - a) ≤ 0 then a
      else if dot2 (b - a) (p - a) ≥ dot2 (b - a) (b - a) then b
      else a + (dot2 (b - a) (p - a) / dot2 (b - a) (b - a)) • (b - a) := by
  have hc : dot2 (p - a) (b - a) = dot2 (b - a) (p - a) := by
    simp only [dot2]
    ring
  unfold nearestOnSegment dotUnitTimesUnit
  rw [hc]

/-- The point taken for a segment lies on the segment and is at least as near to `p` as
every point of the segment. -/
theorem nearestOnSegment_spec (p a b : Vector2) :
    ∃ t : ℚ, 0 ≤ t ∧ t ≤ 1 ∧
      nearestOnSegment p a b 0 = a 0 + t * (b 0 - a 0) ∧
      nearestOnSegment p a b 1 = a 1 + t * (b 1 - a 1) ∧
      ∀ u : ℚ, 0 ≤ u → u ≤ 1 →
        (p 0 - nearestOnSegment p a b 0) ^ 2 + (p 1 - nearestOnSegment p a b 1) ^ 2 ≤
          (p 0 - (a 0 + u * (b 0 - a 0))) ^ 2 + (p 1 - (a 1 + u * (b 1 - a 1))) ^ 2 := by
  have hdot : dot2 (b - a) (p - a) = (b 0 - a 0) * (p 0 - a 0) + (b 1 - a 1) * (p 1 - a 1) := by
    simp [dot2]
  have hlen : dot2 (b - a) (b - a) = (b 0 - a 0) ^ 2 + (b 1 - a 1) ^ 2 := by
    simp [dot2]
    ring
  rw [nearestOnSegment_eq p a b, hdot, hlen]
  generalize hD : (b 0 - a 0) * (p 0 - a 0) + (b 1 - a 1) * (p 1 - a 1) = D
  generalize hL : (b 0 - a 0) ^ 2 + (b 1 - a 1) ^ 2 = L
  have hL0 : 0 ≤ L := by rw [← hL]; positivity
  by_cases h1 : D ≤ 0
  · rw [if_pos h1]
    refine ⟨0, le_refl 0, zero_le_one, by ring, by ring, ?_⟩
    intro u hu0 _
    have e : (p 0 - (a 0 + u * (b 0 - a 0))) ^ 2 + (p 1 - (a 1 + u * (b 1 - a 1))) ^ 2 -
        ((p 0 - a 0) ^ 2 + (p 1 - a 1) ^ 2) = u * (-(2 * D)) + u ^ 2 * L := by
      rw [← hD, ← hL]
      ring
    have h2 : 0 ≤ u * (-(2 * D)) := mul_nonneg hu0 (by linarith)
    have h3 : 0 ≤ u ^ 2 * L := mul_nonneg (sq_nonneg u) hL0
    linarith
  · rw [if_neg h1]
    by_cases h2 : D ≥ L
    · rw [if_pos h2]
      refine ⟨1, zero_le_one, le_refl 1, by ring, by ring, ?_⟩
      intro u _ hu1
      have e : (p 0 - (a 0 + u * (b 0 - a 0))) ^ 2 + (p 1 - (a 1 + u * (b 1 - a 1))) ^ 2 -
          ((p 0 - b 0) ^ 2 + (p 1 - b 1) ^ 2) =
          (1 - u) * (2 * (D - L)) + (1 - u) ^ 2 * L := by
        rw [← hD, ← hL]
        ring
      have h3 : 0 ≤ (1 - u) * (2 * (D - L)) := mul_nonneg (by linarith) (by linarith)
      have h4 : 0 ≤ (1 - u) ^ 2 * L := mul_nonneg (sq_nonneg _) hL0
      linarith
    · rw [if_neg h2]
      have hpos : 0 < D := not_le.mp h1
      have hlt : D < L := not_le.mp h2
      have hLpos : 0 < L := lt_trans hpos hlt
      have hLne : L ≠ 0 := ne_of_gt hLpos
      refine ⟨D / L, le_of_lt (div_pos hpos hLpos), le_of_lt ((div_lt_one hLpos).mpr hlt),
        by simp, by simp, ?_⟩
      intro u _ _
      simp only [Pi.add_apply, Pi.smul_apply, Pi.sub_apply, smul_eq_mul]
      have key : (p 0 - (a 0 + u * (b 0 - a 0))) ^ 2 + (p 1 - (a 1 + u * (b 1 - a 1))) ^ 2 -
          ((p 0 - (a 0 + D / L * (b 0 - a 0))) ^ 2 + (p 1 - (a 1 + D / L * (b 1 - a 1))) ^ 2) =
          (u * L - D) ^ 2 / L := by
        have e1 : (p 0 - (a 0 + u * (b 0 - a 0))) ^ 2 + (p 1 - (a 1 + u * (b 1 - a 1))) ^ 2 =
            (p 0 - a 0) ^ 2 + (p 1 - a 1) ^ 2 - 2 * u * D + u ^ 2 * L := by
          rw [← hD, ← hL]
          ring
        have e2 : (p 0 - (a 0 + D / L * (b 0 - a 0))) ^ 2 +
            (p 1 - (a 1 + D / L * (b 1 - a 1))) ^ 2 =
            (p 0 - a 0) ^ 2 + (p 1 - a 1) ^ 2 - 2 * (D / L) * D + (D / L) ^ 2 * L := by
          rw [← hD, ← hL]
          ring
        rw [e1, e2]
        field_simp
        ring
      have hnn : 0 ≤ (u * L - D) ^ 2 / L := div_nonneg (sq_nonneg _) hL0
      linarith

/-- The loop of `calcNearestPointOfHull` over the edges `L` ends with the point taken for one
of the edges and its distance, which is the least of the distances computed. -/
theorem nearest_fold (p : Vector3) (hull : List Vector3) (L : List Nat) :
    ∀ st : Option Root × Vector2, (L ≠ [] ∨ st.1 ≠ none) →
      ∃ m c, L.foldl (nearestStep (head2 p) hull) st = (some m, c) ∧
        ((some m, c) = st ∨
          ∃ k ∈ L, m = norm2 (head2 p - nearestOnEdge p hull k) ∧ c = nearestOnEdge p hull k) ∧
        (∀ i ∈ L, m.radicand ≤ (norm2 (head2 p - nearestOnEdge p hull i)).radicand) ∧
        ∀ m0 : Root, st.1 = some m0 → m.radicand ≤ m0.radicand := by
  induction L with
  | nil =>
    intro st h
    rcases h with h | h
    · exact absurd rfl h
    · obtain ⟨m0, c0⟩ := st
      cases m0 with
      | none => exact absurd rfl h
      | some m0 =>
        refine ⟨m0, c0, rfl, Or.inl rfl, fun i hi => absurd hi (List.not_mem_nil i), ?_⟩
        intro m1 hm1
        rw [Option.some.inj hm1]
  | cons i rest ih =>
    intro st _
    rw [List.foldl_cons, nearestStep_eq]
    by_cases hb : belowMin (norm2 (head2 p - nearestOnEdge p hull i)) st.1 = true
    · rw [if_pos hb]
      obtain ⟨m, c, hf, hmem, hall, hle⟩ := ih
        (some (norm2 (head2 p - nearestOnEdge p hull i)), nearestOnEdge p hull i)
        (Or.inr (by simp))
      have hmi : m.radicand ≤ (norm2 (head2 p - nearestOnEdge p hull i)).radicand :=
        hle _ rfl
      refine ⟨m, c, hf, Or.inr ?_, ?_, ?_⟩
      · rcases hmem with h | ⟨k, hk, h1, h2⟩
        · have h1 := congrArg Prod.fst h
          have h2 := congrArg Prod.snd h
          simp only at h1 h2
          exact ⟨i, List.mem_cons_self _ _, Option.some.inj h1, h2⟩
        · exact ⟨k, List.mem_cons_of_mem _ hk, h1, h2⟩
      · intro j hj
        rcases List.mem_cons.mp hj with rfl | hj
        · exact hmi
        · exact hall j hj
      · intro m0 hm0
        rw [hm0] at hb
        have : (norm2 (head2 p - nearestOnEdge p hull i)).radicand < m0.radicand :=
          of_decide_eq_true hb
        linarith
    · rw [if_neg hb]
      obtain ⟨m0, c0⟩ := st
      cases m0 with
      | none => exact absurd rfl hb
      | some m0 =>
        have hnot : ¬ (norm2 (head2 p - nearestOnEdge p hull i)).radicand < m0.radicand := by
          intro hlt
          exact hb (decide_eq_true hlt)
        obtain ⟨m, c, hf, hmem, hall, hle⟩ := ih (some m0, c0) (Or.inr (by simp))
        have hm0 : m.radicand ≤ m0.radicand := hle m0 rfl
        refine ⟨m, c, hf, ?_, ?_, hle⟩
        · rcases hmem with h | ⟨k, hk, h1, h2⟩
          · exact Or.inl h
          · exact Or.inr ⟨k, List.mem_cons_of_mem _ hk, h1, h2⟩
        · intro j hj
          rcases List.mem_cons.mp hj with rfl | hj
          · linarith [not_lt.mp hnot]
          · exact hall j hj

/-- Outside the hull, with at least two vertices, `calcNearestPointOfHull` returns the point
taken for an edge `k` whose squared distance to `p` is the least. -/
theorem calcNearestPointOfHull_outside (p : Vector3) (hull : List Vector3)
    (h2 : 2 ≤ hull.length) (hout : isInsideHull p hull = false) :
    ∃ k, k < hull.length ∧
      calcNearestPointOfHull p hull =
        ![nearestOnEdge p hull k 0, nearestOnEdge p hull k 1, 0] ∧
      ∀ i, i < hull.length →
        dot2 (head2 p - nearestOnEdge p hull k) (head2 p - nearestOnEdge p hull k) ≤
          dot2 (head2 p - nearestOnEdge p hull i) (head2 p - nearestOnEdge p hull i) := by
  obtain ⟨m, c, hf, hmem, hall, _⟩ := nearest_fold p hull (List.range hull.length) (none, 0)
    (Or.inl (by
      intro h
      have := congrArg List.length h
      rw [List.length_range, List.length_nil] at this
      omega))
  rcases hmem with h | ⟨k, hk, h1, h2'⟩
  · have := congrArg Prod.fst h
    exact Option.noConfusion this
  · refine ⟨k, List.mem_range.mp hk, ?_, ?_⟩
    · unfold calcNearestPointOfHull
      rw [hout, if_neg Bool.false_ne_true, if_neg (by omega), if_neg (by omega)]
      simp only [hf, h2']
    · intro i hi
      have := hall i (List.mem_range.mpr hi)
      rw [h1] at this
      exact this

/-- The XY projection of a point given by its first two coordinates on a segment. -/
theorem mem_segment_of_param (a b : Vector3) (c0 c1 t : ℚ) (ht0 : 0 ≤ t) (ht1 : t ≤ 1)
    (h0 : c0 = a 0 + t * (b 0 - a 0)) (h1 : c1 = a 1 + t * (b 1 - a 1)) :
    (c0, c1) ∈ segment ℚ (xy a) (xy b) := by
  refine ⟨1 - t, t, by linarith, ht0, by ring, ?_⟩
  ext
  · simp only [xy, Prod.fst_add, Prod.smul_fst, smul_eq_mul]
    rw [h0]
    ring
  · simp only [xy, Prod.snd_add, Prod.smul_snd, smul_eq_mul]
    rw [h1]
    ring

theorem forall₂_sameXY_refl (hull : List Vector3) : List.Forall₂ SameXY hull hull := by
  induction hull with
  | nil => exact List.Forall₂.nil
  | cons a rest ih => exact List.Forall₂.cons ⟨rfl, rfl⟩ ih

/-- A point on an edge of a hull whose vertices are listed counter-clockwise around a convex
region passes the test of `isInsideHull`. -/
theorem isInsideHull_of_mem_edge (q : Vector3) (hull : List Vector3) (h2 : 2 ≤ hull.length)
    (hc : WeaklyConvexCCW hull) (k : Nat) (hk : k < hull.length) (hq : xy q ∈ hullEdge hull k) :
    isInsideHull q hull = true := by
  have hk1 : (k + 1) % hull.length < hull.length := Nat.mod_lt _ (by omega)
  by_cases h3 : 3 ≤ hull.length
  · rw [isInsideHull_iff_left q hull h3]
    intro i hi
    obtain ⟨s, t, hs, ht, hst, hx⟩ := hq
    have hx0 : s * (hull.getD k 0) 0 + t * (hull.getD ((k + 1) % hull.length) 0) 0 = q 0 := by
      have := congrArg Prod.fst hx
      simpa [xy] using this
    have hx1 : s * (hull.getD k 0) 1 + t * (hull.getD ((k + 1) % hull.length) 0) 1 = q 1 := by
      have := congrArg Prod.snd hx
      simpa [xy] using this
    have e : edgeCross (hull.getD i 0) (hull.getD ((i + 1) % hull.length) 0) q =
        s * edgeCross (hull.getD i 0) (hull.getD ((i + 1) % hull.length) 0) (hull.getD k 0) +
          t * edgeCross (hull.getD i 0) (hull.getD ((i + 1) % hull.length) 0)
            (hull.getD ((k + 1) % hull.length) 0) := by
      simp only [edgeCross]
      rw [← hx0, ← hx1]
      have hs' : s = 1 - t := by linarith
      rw [hs']
      ring
    rw [e]
    exact add_nonneg (mul_nonneg hs (hc i k hi hk)) (mul_nonneg ht (hc i _ hi hk1))
  · obtain ⟨h0, h1, rfl⟩ : ∃ h0 h1, hull = [h0, h1] := by
      match hull, h2, h3 with
      | [h0, h1], _, _ => exact ⟨h0, h1, rfl⟩
      | _ :: _ :: _ :: _, _, h3 => exact absurd (by simp) h3
    rw [isInsideHull_two]
    have hk2 : k < 2 := hk
    unfold hullEdge at hq
    interval_cases k
    · exact hq
    · rw [segment_symm]
      have e : [h0, h1].getD ((1 + 1) % [h0, h1].length) 0 = h0 := by simp
      rw [e] at hq
      exact hq

end mathutil

theorem rightTriangleHull_weaklyConvexCCW : WeaklyConvexCCW rightTriangleHull := by
  intro i k hi hk
  have hi3 : i < 3 := hi
  have hk3 : k < 3 := hk
  have hlen : rightTriangleHull.length = 3 := rfl
  rw [hlen]
  interval_cases i <;> interval_cases k <;> norm_num [edgeCross, rightTriangleHull]

theorem rightTriangleHull_outside :
    mathutil.isInsideHull ![-6, 1, 0] rightTriangleHull = false := by
  simp [mathutil.isInsideHull, rightTriangleHull, mathutil.outsideEdge, mathutil.cross3,
    List.range_succ]
  norm_num

theorem rightTriangleHull_inside :
    mathutil.isInsideHull ![1, 1, 5] rightTriangleHull = true := by
  simp [mathutil.isInsideHull, rightTriangleHull, mathutil.outsideEdge, mathutil.cross3,
    List.range_succ]
  norm_num

theorem rightTriangleHull_nearest :
    mathutil.calcNearestPointOfHull ![-6, 1, 0] rightTriangleHull = ![0, 1, 0] := by
  unfold mathutil.calcNearestPointOfHull
  rw [rightTriangleHull_outside]
  simp [rightTriangleHull, List.range_succ, mathutil.nearestStep, mathutil.belowMin,
    mathutil.norm2, mathutil.dotUnitTimesUnit, mathutil.dot2, mathutil.head2]
  norm_num

/-- C28.  For a point that passes `isInsideHull`, `calcNearestPointOfHull` returns the
point's own X and Y with Z = 0; for a hull with at least two vertices and a point that does
not pass, it returns a point on one of the edges whose XY distance to `p` is at most the XY
distance from `p` to every point of every edge (the distances are compared by their
squares); and on a hull whose vertices are listed counter-clockwise around a convex region,
applying `calcNearestPointOfHull` to its own result returns that result. -/
theorem calcNearestPointOfHull_spec (p : Vector3) (hull : List Vector3) :
    (mathutil.isInsideHull p hull = true →
        mathutil.calcNearestPointOfHull p hull = ![p 0, p 1, 0]) ∧
      (2 ≤ hull.length → mathutil.isInsideHull p hull = false →
        (∃ i, i < hull.length ∧
          xy (mathutil.calcNearestPointOfHull p hull) ∈ hullEdge hull i) ∧
        ∀ j, j < hull.length → ∀ x ∈ hullEdge hull j,
          sqDist (xy p) (xy (mathutil.calcNearestPointOfHull p hull)) ≤ sqDist (xy p) x) ∧
      (WeaklyConvexCCW hull →
        mathutil.calcNearestPointOfHull (mathutil.calcNearestPointOfHull p hull) hull =
          mathutil.calcNearestPointOfHull p hull) := by
  have hin : ∀ q : Vector3, mathutil.isInsideHull q hull = true →
      mathutil.calcNearestPointOfHull q hull = ![q 0, q 1, 0] := by
    intro q hq
    unfold mathutil.calcNearestPointOfHull
    rw [hq, if_pos rfl]
  have hfix : ∀ c0 c1 : ℚ, mathutil.isInsideHull ![c0, c1, 0] hull = true →
      mathutil.calcNearestPointOfHull ![c0, c1, 0] hull = ![c0, c1, 0] := by
    intro c0 c1 hq
    rw [hin _ hq]
    rfl
  have hedge : 2 ≤ hull.length → mathutil.isInsideHull p hull = false →
      ∃ k, k < hull.length ∧
        mathutil.calcNearestPointOfHull p hull =
          ![nearestOnEdge p hull k 0, nearestOnEdge p hull k 1, 0] ∧
        (nearestOnEdge p hull k 0, nearestOnEdge p hull k 1) ∈ hullEdge hull k ∧
        ∀ j, j < hull.length → ∀ x ∈ hullEdge hull j,
          sqDist (xy p) (nearestOnEdge p hull k 0, nearestOnEdge p hull k 1) ≤
            sqDist (xy p) x := by
    intro h2 hout
    obtain ⟨k, hk, hval, hmin⟩ := mathutil.calcNearestPointOfHull_outside p hull h2 hout
    refine ⟨k, hk, hval, ?_, ?_⟩
    · obtain ⟨t, ht0, ht1, e0, e1, _⟩ := mathutil.nearestOnSegment_spec (mathutil.head2 p)
        (mathutil.head2 (hull.getD k 0))
        (mathutil.head2 (hull.getD ((k + 1) % hull.length) 0))
      exact mathutil.mem_segment_of_param _ _ _ _ t ht0 ht1 e0 e1
    · intro j hj x hx
      obtain ⟨s, u, hs, hu, hsu, rfl⟩ := hx
      have hu1 : u ≤ 1 := by linarith
      obtain ⟨_, _, _, _, _, hnear⟩ := mathutil.nearestOnSegment_spec (mathutil.head2 p)
        (mathutil.head2 (hull.getD j 0))
        (mathutil.head2 (hull.getD ((j + 1) % hull.length) 0))
      have h1 := hnear u hu hu1
      have h2' := hmin j hj
      have hs' : s = 1 - u := by linarith
      simp only [mathutil.dot2, Pi.sub_apply] at h2'
      simp only [sqDist, xy, Prod.fst_add, Prod.snd_add, Prod.smul_fst, Prod.smul_snd,
        smul_eq_mul]
      have e0 : (mathutil.head2 p) 0 = p 0 := rfl
      have e1 : (mathutil.head2 p) 1 = p 1 := rfl
      have f0 : ∀ v : Vector3, (mathutil.head2 v) 0 = v 0 := fun _ => rfl
      have f1 : ∀ v : Vector3, (mathutil.head2 v) 1 = v 1 := fun _ => rfl
      rw [f0, f1] at h2'
      unfold nearestOnEdge at h2' ⊢
      rw [f0, f1, f0, f0, f1, f1] at h1
      rw [hs']
      nlinarith [h1, h2']
  refine ⟨hin p, ?_, ?_⟩
  · intro h2 hout
    obtain ⟨k, hk, hval, hmem, hmin⟩ := hedge h2 hout
    rw [hval]
    exact ⟨⟨k, hk, hmem⟩, hmin⟩
  · intro hc
    by_cases hinside : mathutil.isInsideHull p hull = true
    · rw [hin p hinside]
      apply hfix
      rw [← hinside]
      exact mathutil.isInsideHull_congr _ _ hull hull ⟨rfl, rfl⟩
        (mathutil.forall₂_sameXY_refl hull)
    · have hout : mathutil.isInsideHull p hull = false := by
        cases h : mathutil.isInsideHull p hull with
        | true => exact absurd h hinside
        | false => rfl
      by_cases h2 : 2 ≤ hull.length
      · obtain ⟨k, hk, hval, hmem, _⟩ := hedge h2 hout
        rw [hval]
        apply hfix
        exact mathutil.isInsideHull_of_mem_edge _ hull h2 hc k hk hmem
      · match hull, h2 with
        | [], _ =>
          have e : mathutil.calcNearestPointOfHull p [] = ![p 0, p 1, 0] := rfl
          rw [e]
          rfl
        | [h0], _ =>
          have e : mathutil.calcNearestPointOfHull p [h0] = ![h0 0, h0 1, 0] := by
            unfold mathutil.calcNearestPointOfHull
            rw [hout]
            rfl
          rw [e]
          apply hin
          simp [mathutil.isInsideHull, mathutil.head2]
        | _ :: _ :: _, h2 => exact absurd (by simp) h2

/-- C28, witness: the right triangle with vertices (0,0), (4,0), (0,3).  The point (1, 1, 5)
passes `isInsideHull` and is returned as (1, 1, 0).  The point (-6, 1) on the left of the
triangle does not pass; its squared distances to the points taken for the three edges are
37, 40 and 36, and the point returned is (0, 1, 0), on the third edge. -/
theorem calcNearestPointOfHull_spec_witness :
    mathutil.isInsideHull ![1, 1, 5] rightTriangleHull = true ∧
      mathutil.calcNearestPointOfHull ![1, 1, 5] rightTriangleHull = ![1, 1, 0] ∧
      2 ≤ rightTriangleHull.length ∧
      mathutil.isInsideHull ![-6, 1, 0] rightTriangleHull = false ∧
      WeaklyConvexCCW rightTriangleHull ∧
      mathutil.calcNearestPointOfHull ![-6, 1, 0] rightTriangleHull = ![0, 1, 0] ∧
      ((∃ i, i < rightTriangleHull.length ∧
          xy (mathutil.calcNearestPointOfHull ![-6, 1, 0] rightTriangleHull) ∈
            hullEdge rightTriangleHull i) ∧
        ∀ j, j < rightTriangleHull.length → ∀ x ∈ hullEdge rightTriangleHull j,
          sqDist (xy ![-6, 1, 0])
              (xy (mathutil.calcNearestPointOfHull ![-6, 1, 0] rightTriangleHull)) ≤
            sqDist (xy ![-6, 1, 0]) x) ∧
      mathutil.calcNearestPointOfHull
          (mathutil.calcNearestPointOfHull ![-6, 1, 0] rightTriangleHull)
          rightTriangleHull =
        mathutil.calcNearestPointOfHull ![-6, 1, 0] rightTriangleHull :=
  have h := calcNearestPointOfHull_spec ![-6, 1, 0] rightTriangleHull
  ⟨rightTriangleHull_inside,
    (calcNearestPointOfHull_spec ![1, 1, 5] rightTriangleHull).1 rightTriangleHull_inside,
    by decide, rightTriangleHull_outside, rightTriangleHull_weaklyConvexCCW,
    rightTriangleHull_nearest, h.2.1 (by decide) rightTriangleHull_outside,
    h.2.2 rightTriangleHull_weaklyConvexCCW⟩

/-! ## C29: the neutral foot offsets -/

theorem inverse_apply_antisymmetric (M : Position) (pR pL : Vector3)
    (hM : M.translation = (1 / 2 : ℚ) • (pR + pL)) :
    Function.update (M.inverse.apply pR) 2 0 = -Function.update (M.inverse.apply pL) 2 0 := by
  simp only [Position.apply, Position.inverse, hM]
  generalize (M.linear.det)⁻¹ • M.linear.adjugate = Ri
  have hR : Ri.mulVec pR + -Ri.mulVec ((1 / 2 : ℚ) • (pR + pL)) =
      -(Ri.mulVec pL + -Ri.mulVec ((1 / 2 : ℚ) • (pR + pL))) := by
    rw [Matrix.mulVec_smul, Matrix.mulVec_add]
    funext i
    simp only [Pi.add_apply, Pi.neg_apply, Pi.smul_apply, smul_eq_mul]
    ring
  funext i
  fin_cases i
  · have := congrFun hR 0
    simpa using this
  · have := congrFun hR 1
    simpa using this
  · simp

/-- C29.  For every pair of initial foot poses (and every angle scaling of `slerp`) the two
neutral foot offsets `onInitialize` computes are negatives of each other and both have
Z = 0. -/
theorem generateLegParams_antisymmetric (scale : mathutil.AngleScale)
    (linkT localT : Nat → Position) :
    ∃ dR dL : Vector3,
      (generateLegParams scale linkT localT)[RLEG]? = some dR ∧
      (generateLegParams scale linkT localT)[LLEG]? = some dL ∧
      (generateLegParams scale linkT localT).length = NUM_LEGS ∧
      dR = -dL ∧ dR 2 = 0 ∧ dL 2 = 0 :=
  ⟨Function.update
      ((mathutil.calcMidCoords scale
        [(linkT RLEG).mul (localT RLEG), (linkT LLEG).mul (localT LLEG)]
        [1, 1]).inverse.apply ((linkT RLEG).mul (localT RLEG)).translation) 2 0,
    Function.update
      ((mathutil.calcMidCoords scale
        [(linkT RLEG).mul (localT RLEG), (linkT LLEG).mul (localT LLEG)]
        [1, 1]).inverse.apply ((linkT LLEG).mul (localT LLEG)).translation) 2 0,
    rfl, rfl, rfl,
    inverse_apply_antisymmetric _ _ _
      (RefToGenFrameConverter.calcMidCoords_pair_translation scale _ _),
    Function.update_same _ _ _, Function.update_same _ _ _⟩

/-! ## C30: a tick without a reference joint-angle sample -/

theorem shortSampleState_readable : ActWrenchReadable shortSampleState := by
  intro i a d ha _ _
  cases i with
  | zero =>
    exact ⟨_, rfl, by decide⟩
  | succ k =>
    exfalso
    simp [shortSampleState, c2State] at ha

/-- C30.  When the actual-wrench loop stays in bounds and the reference joint-angle port holds
no new sample, or a new sample whose length is not the number of joints, `onExecute` returns
`RTC_OK`; the loop counter is one more, the in-ports and input mirrors are those
`readInPortData` leaves, and the mode, the generated robot, the gait parameters, the output
interpolators, the data of the out-ports, the samples written and the other members of the
pipeline are as before. -/
theorem onExecute_without_qRef {I G P : Type} (ops : TickOps G P) (baseOps : BaseOps I)
    (dt_ : ℚ) (c : Component I G P) (hs : ActWrenchReadable c.ins)
    (hq : c.ins.m_qRefIn_ = none ∨
      ∃ d, c.ins.m_qRefIn_ = some d ∧ d.length ≠ c.ins.refRobotRaw_q.length) :
    ∃ c1, onExecute ops baseOps dt_ c = some (ReturnCode_t.RTC_OK, c1) ∧
      readInPortData c.ins = some (false, c1.ins) ∧
      c1.loop_ = c.loop_ + 1 ∧ c1.mode_ = c.mode_ ∧ c1.genRobot_ = c.genRobot_ ∧
      c1.gaitParam_ = c.gaitParam_ ∧
      c1.outputOffsetInterpolators_ = c.outputOffsetInterpolators_ ∧
      c1.outPorts = c.outPorts ∧ c1.written = c.written ∧ c1.pipeline = c.pipeline := by
  obtain ⟨s1, hret, _⟩ := readInPortData_eq c.ins hs
  have hfalse : (readQRef c.ins).1 = false := by
    unfold readQRef
    rcases hq with h | ⟨d, h, hlen⟩
    · rw [h]
    · rw [h]
      simp only [hlen, if_false]
  rw [hfalse] at hret
  refine ⟨{ c with loop_ := c.loop_ + 1, ins := s1 }, ?_, hret, rfl, rfl, rfl, rfl, rfl, rfl,
    rfl, rfl⟩
  unfold onExecute
  rw [hret]
  rfl

/-- C30, witness: a balancing component that receives a reference sample of one value for a
robot of two joints. -/
theorem onExecute_without_qRef_witness :
    ActWrenchReadable shortSampleComponent.ins ∧
      (shortSampleComponent.ins.m_qRefIn_ = none ∨
        ∃ d, shortSampleComponent.ins.m_qRefIn_ = some d ∧
          d.length ≠ shortSampleComponent.ins.refRobotRaw_q.length) ∧
      ∃ c1, onExecute heldTickOps heldBaseOps (1 / 500) shortSampleComponent =
          some (ReturnCode_t.RTC_OK, c1) ∧
        c1.loop_ = 42 ∧ c1.mode_ = shortSampleComponent.mode_ ∧
        c1.genRobot_ = shortSampleComponent.genRobot_ ∧
        c1.outPorts = shortSampleComponent.outPorts ∧ c1.written = [] :=
  have hq : shortSampleComponent.ins.m_qRefIn_ = none ∨
      ∃ d, shortSampleComponent.ins.m_qRefIn_ = some d ∧
        d.length ≠ shortSampleComponent.ins.refRobotRaw_q.length :=
    Or.inr ⟨[Dbl.fin 1], rfl, by decide⟩
  have h := onExecute_without_qRef heldTickOps heldBaseOps (1 / 500) shortSampleComponent
    shortSampleState_readable hq
  ⟨shortSampleState_readable, hq,
    h.elim (fun c1 h1 => ⟨c1, h1.1, h1.2.2.1, h1.2.2.2.1, h1.2.2.2.2.1, h1.2.2.2.2.2.2.2.1,
      h1.2.2.2.2.2.2.2.2.1⟩)⟩

end AutoStabilizer
